import Mathlib

/-!
# gmgn-go: the REST helper `rest` and its four endpoint wrappers

A shallow embedding of `src/gmnevm/apis.go`.

* Go strings are Lean `String`s (sequences of Unicode scalar values, that is,
  valid UTF-8 text); where the code works on bytes (`url.QueryEscape`) the
  UTF-8 bytes are computed explicitly as natural numbers below 256.
* The standard-library functions `rest` calls (`encoding/json`, `net/url`,
  `fmt`) are modelled by the definitions of the first sections, each named
  after the library function it stands for.
* The network (`client.Do`) is a function from the request to what came back;
  `rest` records every request it hands to it.
* A parameter value (`params any`) is observed by `rest` only through
  `params != nil` and `json.Marshal(params)`, so it is represented by what
  `json.Marshal` yields for it: an error or a JSON document.
* The messages `rest` formats itself are exact. The text of an error that
  comes from the standard library stands for the library's message and is not
  its exact wording.
* The nesting limit of `encoding/json` (10000 levels) is not modelled.
-/

namespace Gmgn

/-! ## JSON documents (`encoding/json`) -/

/-- A JSON document. A number keeps its literal text. An object keeps its
members in document order, duplicates included. -/
inductive Json where
  | null : Json
  | bool (b : Bool) : Json
  | num (lit : String) : Json
  | str (s : String) : Json
  | arr (xs : List Json) : Json
  | obj (kvs : List (String × Json)) : Json
  deriving Repr, Inhabited

/-- JSON white space: space, tab, carriage return, line feed. -/
def isWs (c : Char) : Bool := c = ' ' || c = '\t' || c = '\r' || c = '\n'

/-- Drop leading white space. -/
def skipWs : List Char → List Char
  | [] => []
  | c :: cs => if isWs c then skipWs cs else c :: cs

/-- Decimal digit. -/
def isDigit (c : Char) : Bool := decide ('0' ≤ c) && decide (c ≤ '9')

/-- Value of a hexadecimal digit, either case. -/
def hexVal (c : Char) : Option Nat :=
  if '0' ≤ c ∧ c ≤ '9' then some (c.toNat - 48)
  else if 'a' ≤ c ∧ c ≤ 'f' then some (c.toNat - 87)
  else if 'A' ≤ c ∧ c ≤ 'F' then some (c.toNat - 55)
  else none

/-- The four hexadecimal digits of a `\u` escape as a number (`getu4`). -/
def hex4 (a b c d : Char) : Option Nat :=
  match hexVal a, hexVal b, hexVal c, hexVal d with
  | some x, some y, some z, some w => some (((x * 16 + y) * 16 + z) * 16 + w)
  | _, _, _, _ => none

/-- The replacement character U+FFFD. -/
def replacementChar : Char := Char.ofNat 0xFFFD

/-- The longest prefix of decimal digits, and what follows it. -/
def takeDigits : List Char → List Char × List Char
  | [] => ([], [])
  | c :: cs =>
    if isDigit c then ((takeDigits cs).1.cons c, (takeDigits cs).2) else ([], c :: cs)

/-- The optional minus sign of a number and what follows it. -/
def scanSign : List Char → List Char × List Char
  | [] => ([], [])
  | c :: r => if c = '-' then (['-'], r) else ([], c :: r)

/-- The integer part of a number: `0` alone, or a digit from 1 to 9 and any
digits after it. -/
def scanInt : List Char → Option (List Char × List Char)
  | [] => none
  | c :: r =>
    if c = '0' then some (['0'], r)
    else if isDigit c then some (c :: (takeDigits r).1, (takeDigits r).2)
    else none

/-- The optional fraction of a number: a point and at least one digit. -/
def scanFrac : List Char → Option (List Char × List Char)
  | [] => some ([], [])
  | c :: r =>
    if c = '.' then
      if (takeDigits r).1 = [] then none
      else some ('.' :: (takeDigits r).1, (takeDigits r).2)
    else some ([], c :: r)

/-- The optional exponent of a number: `e` or `E`, an optional sign and at
least one digit. -/
def scanExp : List Char → Option (List Char × List Char)
  | [] => some ([], [])
  | e :: r =>
    if e = 'e' ∨ e = 'E' then
      if (takeDigits (scanExpSign r).2).1 = [] then none
      else
        some (e :: ((scanExpSign r).1 ++ (takeDigits (scanExpSign r).2).1),
          (takeDigits (scanExpSign r).2).2)
    else some ([], e :: r)
where
  /-- The optional sign of an exponent. -/
  scanExpSign : List Char → List Char × List Char
    | [] => ([], [])
    | c :: r => if c = '+' ∨ c = '-' then ([c], r) else ([], c :: r)

/-- Scan a JSON number literal
`-? (0 | [1-9][0-9]*) (. [0-9]+)? ([eE] [+-]? [0-9]+)?`
at the head of the input; the literal and the rest of the input. -/
def parseNumber (cs : List Char) : Option (List Char × List Char) :=
  match scanInt (scanSign cs).2 with
  | none => none
  | some (i, r1) =>
    match scanFrac r1 with
    | none => none
    | some (f, r2) =>
      match scanExp r2 with
      | none => none
      | some (e, r3) => some ((scanSign cs).1 ++ i ++ f ++ e, r3)

/-- Scan the inside of a JSON string, after its opening quote, up to and
including the closing quote: the decoded text and the rest of the input. The
fuel bounds the number of characters read. Control characters are rejected; a
`\u` escape that is half of a surrogate pair is combined with a following low
half, and decodes to U+FFFD when it stands alone. -/
def parseString : Nat → List Char → List Char → Option (String × List Char)
  | 0, _, _ => none
  | _ + 1, _, [] => none
  | fuel + 1, acc, c :: cs =>
    if c = '"' then some (String.mk acc.reverse, cs)
    else if c = '\\' then
      match cs with
      | [] => none
      | e :: r =>
        if e = '"' then parseString fuel ('"' :: acc) r
        else if e = '\\' then parseString fuel ('\\' :: acc) r
        else if e = '/' then parseString fuel ('/' :: acc) r
        else if e = 'b' then parseString fuel (Char.ofNat 8 :: acc) r
        else if e = 'f' then parseString fuel (Char.ofNat 12 :: acc) r
        else if e = 'n' then parseString fuel ('\n' :: acc) r
        else if e = 'r' then parseString fuel ('\r' :: acc) r
        else if e = 't' then parseString fuel ('\t' :: acc) r
        else if e = 'u' then
          match r with
          | a :: b :: c1 :: d :: r1 =>
            match hex4 a b c1 d with
            | none => none
            | some hi =>
              if 0xD800 ≤ hi ∧ hi < 0xE000 then
                match r1 with
                | '\\' :: 'u' :: a2 :: b2 :: c2 :: d2 :: r2 =>
                  match hex4 a2 b2 c2 d2 with
                  | some lo =>
                    if hi < 0xDC00 ∧ 0xDC00 ≤ lo ∧ lo < 0xE000 then
                      parseString fuel
                        (Char.ofNat (0x10000 + (hi - 0xD800) * 1024 + (lo - 0xDC00)) :: acc) r2
                    else parseString fuel (replacementChar :: acc) r1
                  | none => parseString fuel (replacementChar :: acc) r1
                | _ => parseString fuel (replacementChar :: acc) r1
              else parseString fuel (Char.ofNat hi :: acc) r1
          | _ => none
        else none
    else if c.toNat < 0x20 then none
    else parseString fuel (c :: acc) cs

mutual
/-- Parse one JSON value at the head of the input (leading white space
skipped): the value and the rest of the input. -/
def parseValue : Nat → List Char → Option (Json × List Char)
  | 0, _ => none
  | fuel + 1, cs =>
    match skipWs cs with
    | [] => none
    | c :: r =>
      if c = '{' then
        match skipWs r with
        | '}' :: r1 => some (Json.obj [], r1)
        | _ =>
          match parseMembers fuel r with
          | some (kvs, r1) => some (Json.obj kvs, r1)
          | none => none
      else if c = '[' then
        match skipWs r with
        | ']' :: r1 => some (Json.arr [], r1)
        | _ =>
          match parseElements fuel r with
          | some (xs, r1) => some (Json.arr xs, r1)
          | none => none
      else if c = '"' then
        match parseString (r.length + 1) [] r with
        | some (s, r1) => some (Json.str s, r1)
        | none => none
      else if c = 't' then
        match r with
        | 'r' :: 'u' :: 'e' :: r1 => some (Json.bool true, r1)
        | _ => none
      else if c = 'f' then
        match r with
        | 'a' :: 'l' :: 's' :: 'e' :: r1 => some (Json.bool false, r1)
        | _ => none
      else if c = 'n' then
        match r with
        | 'u' :: 'l' :: 'l' :: r1 => some (Json.null, r1)
        | _ => none
      else
        match parseNumber (c :: r) with
        | some (lit, r1) => some (Json.num (String.mk lit), r1)
        | none => none
/-- Parse the elements of a non-empty array, after its `[`, up to and
including the closing `]`. -/
def parseElements : Nat → List Char → Option (List Json × List Char)
  | 0, _ => none
  | fuel + 1, cs =>
    match parseValue fuel cs with
    | none => none
    | some (v, r) =>
      match skipWs r with
      | ',' :: r1 =>
        match parseElements fuel r1 with
        | some (vs, r2) => some (v :: vs, r2)
        | none => none
      | ']' :: r1 => some ([v], r1)
      | _ => none
/-- Parse the members of a non-empty object, after its `{`, up to and
including the closing `}`. -/
def parseMembers : Nat → List Char → Option (List (String × Json) × List Char)
  | 0, _ => none
  | fuel + 1, cs =>
    match skipWs cs with
    | '"' :: r =>
      match parseString (r.length + 1) [] r with
      | none => none
      | some (k, r1) =>
        match skipWs r1 with
        | ':' :: r2 =>
          match parseValue fuel r2 with
          | none => none
          | some (v, r3) =>
            match skipWs r3 with
            | ',' :: r4 =>
              match parseMembers fuel r4 with
              | some (kvs, r5) => some ((k, v) :: kvs, r5)
              | none => none
            | '}' :: r4 => some ([(k, v)], r4)
            | _ => none
        | _ => none
    | _ => none
end

/-- The syntax tree of a JSON text, as `json.Unmarshal` reads it: one value,
white space around it, nothing else. `none` is a syntax error. The fuel is
twice the length of the text plus two: of two nested calls at least one reads
a character. -/
def parseJson (s : String) : Option Json :=
  match parseValue (2 * s.length + 2) s.data with
  | some (j, r) => if skipWs r = [] then some j else none
  | none => none

/-- Value of a string of decimal digits. -/
def digitsVal (ds : List Char) : Nat :=
  ds.foldl (fun n c => 10 * n + (c.toNat - 48)) 0

/-- Model of `strconv.ParseInt(lit, 10, 64)`, as `json.Unmarshal` applies it
to a number literal stored into a Go `int`: an optional sign and decimal
digits only, within the 64-bit range. -/
def parseInt64 (lit : String) : Option Int :=
  match lit.data with
  | '-' :: ds =>
    if ds ≠ [] ∧ ds.all isDigit = true ∧ digitsVal ds ≤ 2 ^ 63 then
      some (-(digitsVal ds : Int))
    else none
  | '+' :: ds =>
    if ds ≠ [] ∧ ds.all isDigit = true ∧ digitsVal ds < 2 ^ 63 then
      some (digitsVal ds : Int)
    else none
  | ds =>
    if ds ≠ [] ∧ ds.all isDigit = true ∧ digitsVal ds < 2 ^ 63 then
      some (digitsVal ds : Int)
    else none

/-! ## The response envelope -/

/-- The envelope `Resp[D]`: `msg`, `code`, `data`. -/
structure Resp (D : Type) where
  Msg : String
  Code : Int
  Data : D

/-- How `json.Unmarshal` fills a value of the payload type `T`: the zero value
a fresh `T` starts from, and the decoding of a JSON value other than `null`
into an existing `T`. -/
structure Decoder (T : Type) where
  zero : T
  decode : Json → T → Except String T

/-- Case folding of a key character for the field lookup of
`encoding/json` (`foldName`), exact on every character that folds to an ASCII
letter: the lower-case letters, the long s U+017F and the Kelvin sign
U+212A. -/
def foldRune (c : Char) : Char :=
  if 'a' ≤ c ∧ c ≤ 'z' then Char.ofNat (c.toNat - 32)
  else if c = Char.ofNat 0x17F then 'S'
  else if c = Char.ofNat 0x212A then 'K'
  else c

/-- A member key with its characters folded. -/
def foldName (k : String) : String := String.mk (k.data.map foldRune)

/-- Store a JSON value into a Go `string` field: `null` leaves it, a string
sets it, anything else is an error. -/
def storeString (v : Json) (old : String) : Except String String :=
  match v with
  | Json.null => Except.ok old
  | Json.str s => Except.ok s
  | _ => Except.error "json: cannot unmarshal value into Go struct field of type string"

/-- Store a JSON value into a Go `bool` field. -/
def storeBool (v : Json) (old : Bool) : Except String Bool :=
  match v with
  | Json.null => Except.ok old
  | Json.bool b => Except.ok b
  | _ => Except.error "json: cannot unmarshal value into Go struct field of type bool"

/-- Store a JSON value into a Go `int` or `int64` field (64 bits). -/
def storeInt64 (v : Json) (old : Int) : Except String Int :=
  match v with
  | Json.null => Except.ok old
  | Json.num lit =>
    match parseInt64 lit with
    | some n => Except.ok n
    | none => Except.error "json: cannot unmarshal number into Go struct field of type int"
  | _ => Except.error "json: cannot unmarshal value into Go struct field of type int"

/-- Store a JSON value into a pointer field `*T`: `null` sets the pointer to
nil; any other value is decoded into the value the pointer already has, or
into a fresh zero value when it is nil. -/
def storePointer {T : Type} (dec : Decoder T) (v : Json) (old : Option T) :
    Except String (Option T) :=
  match v with
  | Json.null => Except.ok none
  | j =>
    match dec.decode j (old.getD dec.zero) with
    | Except.ok d => Except.ok (some d)
    | Except.error e => Except.error e

/-- Store one member of the JSON object into the envelope `Resp[*T]`: the
field is found by name, case-insensitively; an unknown key is skipped; `null`
leaves `msg` and `code` untouched and sets `data` to nil; a value of the wrong
kind is an error. -/
def storeField {T : Type} (dec : Decoder T) (r : Resp (Option T)) (k : String) (v : Json) :
    Except String (Resp (Option T)) :=
  if foldName k = "MSG" then
    (storeString v r.Msg).map (fun s => { r with Msg := s })
  else if foldName k = "CODE" then
    (storeInt64 v r.Code).map (fun n => { r with Code := n })
  else if foldName k = "DATA" then
    (storePointer dec v r.Data).map (fun d => { r with Data := d })
  else Except.ok r

/-- Store the members of the object one after the other, in document order. -/
def storeFields {T : Type} (dec : Decoder T) :
    Resp (Option T) → List (String × Json) → Except String (Resp (Option T))
  | r, [] => Except.ok r
  | r, (k, v) :: kvs =>
    match storeField dec r k v with
    | Except.ok r1 => storeFields dec r1 kvs
    | Except.error e => Except.error e

/-- Model of `json.Unmarshal(body, &result)` for `var result Resp[*T]`: the
result starts as the zero value; a JSON `null` leaves it so; an object fills
it member by member; any other value, and a syntax error, is an error. -/
def unmarshalResp {T : Type} (dec : Decoder T) (body : String) :
    Except String (Resp (Option T)) :=
  match parseJson body with
  | none => Except.error "invalid JSON input"
  | some Json.null => Except.ok { Msg := "", Code := 0, Data := none }
  | some (Json.obj kvs) => storeFields dec { Msg := "", Code := 0, Data := none } kvs
  | some _ => Except.error "json: cannot unmarshal value into Go value of type gmneth.Resp"

/-! ## Decoding into `map[string]interface{}` and the `%v` verb -/

/-- A Go value of type `interface{}` as `json.Unmarshal` produces it. A
`float64` is represented by its `%v` text, the only thing `rest` observes of
it. A map is an association list with distinct keys. -/
inductive GoVal where
  | nil : GoVal
  | bool (b : Bool) : GoVal
  | float64 (shown : String) : GoVal
  | string (s : String) : GoVal
  | slice (xs : List GoVal) : GoVal
  | map (kvs : List (String × GoVal)) : GoVal
  deriving Repr, Inhabited

/-- The assignment `m[k] = v` on a map kept as an association list. -/
def mapSet {α : Type} (k : String) (v : α) : List (String × α) → List (String × α)
  | [] => [(k, v)]
  | (k1, v1) :: m => if k1 = k then (k, v) :: m else (k1, v1) :: mapSet k v m

/-- The lookup `m[k]`. -/
def mapGet {α : Type} (k : String) : List (String × α) → Option α
  | [] => none
  | (k1, v1) :: m => if k1 = k then some v1 else mapGet k m

/-- The map obtained by assigning the members in order: a later duplicate
replaces an earlier one. -/
def mapOfList {α : Type} (kvs : List (String × α)) : List (String × α) :=
  kvs.foldl (fun m kv => mapSet kv.1 kv.2 m) []

mutual
/-- Decode a JSON value into an `interface{}`. The argument `fmtFloat` stands
for `strconv.ParseFloat(lit, 64)` followed by the `%v` formatting of the
result, `none` when the literal is out of range. -/
def decodeAny (fmtFloat : String → Option String) : Json → Option GoVal
  | Json.null => some GoVal.nil
  | Json.bool b => some (GoVal.bool b)
  | Json.num lit =>
    match fmtFloat lit with
    | some shown => some (GoVal.float64 shown)
    | none => none
  | Json.str s => some (GoVal.string s)
  | Json.arr xs =>
    match decodeList fmtFloat xs with
    | some ys => some (GoVal.slice ys)
    | none => none
  | Json.obj kvs =>
    match decodeMembers fmtFloat kvs with
    | some m => some (GoVal.map (mapOfList m))
    | none => none
/-- Decode the elements of an array. -/
def decodeList (fmtFloat : String → Option String) : List Json → Option (List GoVal)
  | [] => some []
  | x :: xs =>
    match decodeAny fmtFloat x, decodeList fmtFloat xs with
    | some y, some ys => some (y :: ys)
    | _, _ => none
/-- Decode the member values of an object, in document order. -/
def decodeMembers (fmtFloat : String → Option String) :
    List (String × Json) → Option (List (String × GoVal))
  | [] => some []
  | (k, x) :: kvs =>
    match decodeAny fmtFloat x, decodeMembers fmtFloat kvs with
    | some y, some ys => some ((k, y) :: ys)
    | _, _ => none
end

/-- Model of `json.Unmarshal(jsonData, &paramMap)` for
`var paramMap map[string]interface{}`: `null` leaves the map nil (empty), an
object fills it, anything else is an error. -/
def unmarshalMap (fmtFloat : String → Option String) (j : Json) :
    Except String (List (String × GoVal)) :=
  match j with
  | Json.null => Except.ok []
  | Json.obj kvs =>
    match decodeMembers fmtFloat kvs with
    | some m => Except.ok (mapOfList m)
    | none => Except.error "json: cannot unmarshal number into Go value of type float64"
  | _ => Except.error "json: cannot unmarshal value into Go value of type map[string]interface \x7b\x7d"

/-- Lexicographic comparison `a ≤ b` of two texts by code point; on UTF-8
text this is the byte-wise order Go compares strings by. -/
def leChars : List Char → List Char → Bool
  | [], _ => true
  | _ :: _, [] => false
  | a :: as, b :: bs =>
    if a.toNat < b.toNat then true
    else if b.toNat < a.toNat then false
    else leChars as bs

/-- The order of Go strings, `a <= b`. -/
def strLe (a b : String) : Prop := leChars a.data b.data = true

instance : DecidableRel strLe := fun a b => inferInstanceAs (Decidable (leChars a.data b.data = true))

/-- Keys in increasing order (`slices.Sort` on strings). -/
def sortKeys (ks : List String) : List String :=
  ks.insertionSort strLe

mutual
/-- Model of `fmt.Sprintf("%v", v)` for a decoded JSON value. -/
def sprintV : GoVal → String
  | GoVal.nil => "<nil>"
  | GoVal.bool b => if b then "true" else "false"
  | GoVal.float64 shown => shown
  | GoVal.string s => s
  | GoVal.slice xs => "[" ++ " ".intercalate (sprintList xs) ++ "]"
  | GoVal.map kvs =>
    "map[" ++ " ".intercalate
      ((sortKeys (kvs.map Prod.fst)).map
        (fun k => k ++ ":" ++ (mapGet k (sprintMembers kvs)).getD "")) ++ "]"
/-- The `%v` text of each element. -/
def sprintList : List GoVal → List String
  | [] => []
  | x :: xs => sprintV x :: sprintList xs
/-- The `%v` text of each member value, under its key. -/
def sprintMembers : List (String × GoVal) → List (String × String)
  | [] => []
  | (k, x) :: kvs => (k, sprintV x) :: sprintMembers kvs
end

/-! ## Writing JSON (`json.Marshal`) -/

/-- Hexadecimal digit of a number below 16, lower case. -/
def lowerhex (n : Nat) : Char :=
  if n < 10 then Char.ofNat (48 + n) else Char.ofNat (87 + n)

/-- Hexadecimal digit of a number below 16, upper case. -/
def upperhex (n : Nat) : Char :=
  if n < 10 then Char.ofNat (48 + n) else Char.ofNat (55 + n)

/-- One character of a string as `json.Marshal` writes it: the quote and the
backslash behind a backslash, the control characters by their short escape or
as `\u00XX`, and `<`, `>`, `&`, U+2028 and U+2029 as `\u` escapes. -/
def escapeJsonChar (c : Char) : List Char :=
  if c = '"' then ['\\', '"']
  else if c = '\\' then ['\\', '\\']
  else if c = Char.ofNat 8 then ['\\', 'b']
  else if c = Char.ofNat 12 then ['\\', 'f']
  else if c = '\n' then ['\\', 'n']
  else if c = '\r' then ['\\', 'r']
  else if c = '\t' then ['\\', 't']
  else if c.toNat < 0x20 ∨ c = '<' ∨ c = '>' ∨ c = '&' then
    ['\\', 'u', '0', '0', lowerhex (c.toNat / 16), lowerhex (c.toNat % 16)]
  else if c = Char.ofNat 0x2028 then ['\\', 'u', '2', '0', '2', '8']
  else if c = Char.ofNat 0x2029 then ['\\', 'u', '2', '0', '2', '9']
  else [c]

/-- The characters of a string, escaped. -/
def escapeJsonChars : List Char → List Char
  | [] => []
  | c :: cs => escapeJsonChar c ++ escapeJsonChars cs

/-- A string between quotes. -/
def quoteJson (s : String) : List Char :=
  '"' :: (escapeJsonChars s.data ++ ['"'])

mutual
/-- The compact text of a JSON document, as `json.Marshal` writes it. -/
def renderValue : Json → List Char
  | Json.null => ['n', 'u', 'l', 'l']
  | Json.bool b => if b then ['t', 'r', 'u', 'e'] else ['f', 'a', 'l', 's', 'e']
  | Json.num lit => lit.data
  | Json.str s => quoteJson s
  | Json.arr xs => '[' :: (renderElements xs ++ [']'])
  | Json.obj kvs => '{' :: (renderMembers kvs ++ ['}'])
/-- The elements of an array, separated by commas. -/
def renderElements : List Json → List Char
  | [] => []
  | x :: xs =>
    match xs with
    | [] => renderValue x
    | _ :: _ => renderValue x ++ ',' :: renderElements xs
/-- The members of an object, separated by commas. -/
def renderMembers : List (String × Json) → List Char
  | [] => []
  | (k, x) :: kvs =>
    match kvs with
    | [] => quoteJson k ++ ':' :: renderValue x
    | _ :: _ => quoteJson k ++ ':' :: renderValue x ++ ',' :: renderMembers kvs
end

/-- The bytes `json.Marshal` returns for a value whose document is `j`. -/
def renderJson (j : Json) : String := String.mk (renderValue j)

/-! ## Query strings (`net/url`) -/

/-- The UTF-8 bytes of a character. -/
def utf8Bytes (c : Char) : List Nat :=
  if c.toNat < 0x80 then [c.toNat]
  else if c.toNat < 0x800 then [0xC0 + c.toNat / 64, 0x80 + c.toNat % 64]
  else if c.toNat < 0x10000 then
    [0xE0 + c.toNat / 4096, 0x80 + c.toNat / 64 % 64, 0x80 + c.toNat % 64]
  else
    [0xF0 + c.toNat / 262144, 0x80 + c.toNat / 4096 % 64, 0x80 + c.toNat / 64 % 64,
      0x80 + c.toNat % 64]

/-- The bytes `url.QueryEscape` copies unchanged (`shouldEscape` is false in
mode `encodeQueryComponent`): the ASCII letters and digits and `-`, `_`, `.`,
`~`. -/
def unreservedByte (b : Nat) : Bool :=
  (decide (97 ≤ b) && decide (b ≤ 122)) || (decide (65 ≤ b) && decide (b ≤ 90)) ||
    (decide (48 ≤ b) && decide (b ≤ 57)) || b = 45 || b = 95 || b = 46 || b = 126

/-- One byte as `url.QueryEscape` writes it: unchanged, `+` for a space, or
`%XX` with upper-case hexadecimal digits. -/
def escapeByte (b : Nat) : List Char :=
  if unreservedByte b then [Char.ofNat b]
  else if b = 32 then ['+']
  else ['%', upperhex (b / 16), upperhex (b % 16)]

/-- The bytes of a list, escaped. -/
def escapeBytes : List Nat → List Char
  | [] => []
  | b :: bs => escapeByte b ++ escapeBytes bs

/-- The characters of a text, escaped byte by byte. -/
def escapeChars : List Char → List Char
  | [] => []
  | c :: cs => escapeBytes (utf8Bytes c) ++ escapeChars cs

/-- Model of `url.QueryEscape`. -/
def QueryEscape (s : String) : String := String.mk (escapeChars s.data)

/-- The type `url.Values`, a `map[string][]string` kept as an association list
with distinct keys. -/
abbrev Values := List (String × List String)

/-- Model of `Values.Set`: the key gets the single value, replacing what it
had. -/
def valuesSet (v : Values) (key value : String) : Values := mapSet key [value] v

/-- The inner loop of `Values.Encode`: append `key=value` for each value of
one key, with `&` in front when the buffer is not empty. -/
def encodeKey (keyEscaped : String) (buf : String) (vs : List String) : String :=
  vs.foldl
    (fun b val => (if b = "" then b else b ++ "&") ++ keyEscaped ++ "=" ++ QueryEscape val) buf

/-- Model of `Values.Encode`: the keys sorted, each key with its values. -/
def valuesEncode (v : Values) : String :=
  if v.length = 0 then ""
  else
    (sortKeys (v.map Prod.fst)).foldl
      (fun buf k => encodeKey (QueryEscape k) buf ((mapGet k v).getD [])) ""

/-! ## Requests (`net/url`, `net/http`) -/

/-- Model of `strings.Cut` on a one-character separator: the text before the
first occurrence, the text after it, and whether it was found. -/
def cut (sep : Char) : List Char → List Char × List Char × Bool
  | [] => ([], [], false)
  | c :: cs =>
    if c = sep then ([], cs, true)
    else (c :: (cut sep cs).1, (cut sep cs).2.1, (cut sep cs).2.2)

/-- Model of `stringContainsCTLByte`: an ASCII control character occurs. -/
def containsCTL (cs : List Char) : Bool :=
  cs.any (fun c => decide (c.toNat < 0x20) || decide (c.toNat = 0x7f))

/-- Every `%` is followed by two hexadecimal digits: the check `unescape`
makes on a path and on a fragment. The fuel bounds the characters read. -/
def escapesValid : Nat → List Char → Bool
  | 0, _ => true
  | _ + 1, [] => true
  | fuel + 1, c :: cs =>
    if c = '%' then
      match cs with
      | a :: b :: r => (hexVal a).isSome && (hexVal b).isSome && escapesValid fuel r
      | _ => false
    else escapesValid fuel cs

/-- Model of `getScheme`: the scheme and what follows its colon; no scheme
when the text does not start with one; an error for a leading colon. -/
def getScheme : List Char → List Char → Option (List Char × List Char)
  | acc, [] => some ([], acc.reverse)
  | acc, c :: cs =>
    if ('a' ≤ c ∧ c ≤ 'z') ∨ ('A' ≤ c ∧ c ≤ 'Z') then getScheme (c :: acc) cs
    else if ('0' ≤ c ∧ c ≤ '9') ∨ c = '+' ∨ c = '-' ∨ c = '.' then
      if acc = [] then some ([], c :: cs) else getScheme (c :: acc) cs
    else if c = ':' then
      if acc = [] then none else some (acc.reverse, cs)
    else some ([], acc.reverse ++ c :: cs)

/-- A parsed URL. `path` and `fragment` are kept as written (escapes not
decoded); `text` is the text that was parsed. -/
structure URL where
  scheme : String
  host : String
  path : String
  rawQuery : String
  forceQuery : Bool
  fragment : String
  text : String
  deriving DecidableEq, Repr

/-- The query split of `url.Parse`: a lone `?` at the very end is dropped and
sets `ForceQuery`; otherwise the query is what follows the first `?`. The
result is the text before the query, the query, and `ForceQuery`. -/
def splitQuery (rest : List Char) : List Char × List Char × Bool :=
  if rest.getLast? = some '?' ∧ rest.count '?' = 1 then (rest.dropLast, [], true)
  else ((cut '?' rest).1, (cut '?' rest).2.1, false)

/-- The authority split of `url.Parse` for a URL with a scheme: after `//` the
authority runs up to the next `/`, where the path starts. -/
def splitAuthority (rest : List Char) : List Char × List Char :=
  match rest with
  | '/' :: '/' :: r => ((cut '/' r).1, if (cut '/' r).2.2 then '/' :: (cut '/' r).2.1 else [])
  | p => ([], p)

/-- Model of `url.Parse`, exact on the texts `rest` builds, which all start
with the scheme and authority of `BASE_URL`: the fragment is cut off at the
first `#`; a control character before it is an error; the scheme is split off,
then the query, then the authority; the path and the fragment must have valid
`%` escapes. The checks `parseAuthority` makes on the host are not
modelled. -/
def urlParse (rawURL : String) : Except String URL :=
  if containsCTL (cut '#' rawURL.data).1 then
    Except.error "net/url: invalid control character in URL"
  else
    match getScheme [] (cut '#' rawURL.data).1 with
    | none => Except.error "missing protocol scheme"
    | some (scheme, afterScheme) =>
      if escapesValid (splitAuthority (splitQuery afterScheme).1).2.length
          (splitAuthority (splitQuery afterScheme).1).2 = false then
        Except.error "invalid URL escape"
      else if escapesValid (cut '#' rawURL.data).2.1.length (cut '#' rawURL.data).2.1 = false then
        Except.error "invalid URL escape"
      else
        Except.ok
          { scheme := String.mk (scheme.map Char.toLower)
            host := String.mk (splitAuthority (splitQuery afterScheme).1).1
            path := String.mk (splitAuthority (splitQuery afterScheme).1).2
            rawQuery := String.mk (splitQuery afterScheme).2.1
            forceQuery := (splitQuery afterScheme).2.2
            fragment := String.mk (cut '#' rawURL.data).2.1
            text := rawURL }

/-- A request, as `http.NewRequest` builds it and `rest` completes it: method,
URL, the bytes of the body (none for an empty body) and the `Content-Type`
header, if set. -/
structure Request where
  method : String
  url : URL
  body : String
  contentType : Option String
  deriving DecidableEq, Repr

/-- Model of `http.NewRequest(method, url, body)` for the methods `GET` and
`POST`: it fails exactly when the URL does not parse. -/
def newRequest (method url body : String) : Except String Request :=
  match urlParse url with
  | Except.error e => Except.error e
  | Except.ok u => Except.ok { method := method, url := u, body := body, contentType := none }

/-! ## The helper `rest` -/

def BASE_URL : String := "https://gmgn.ai/"

def EXACT_IN_PATH : String := "defi/router/v1/tx/available_routes_exact_in"

def EXACT_OUT_PATH : String := "defi/router/v1/tx/available_routes_exact_out"

def SLIPPAGE_PATH : String := "api/v1/recommend_slippage"

def GAS_PRICE_PATH : String := "defi/quotation/v1/chains"

/-- What `rest` sees of its argument `params any`: `none` is the nil
interface; otherwise what `json.Marshal(params)` returns, an error or the
document of the value. -/
abbrev Params := Option (Except String Json)

/-- What came back from `client.Do`: the status code and the result of
`io.ReadAll(resp.Body)`. -/
structure Response where
  statusCode : Int
  body : Except String String

/-- The surroundings of a call: the formatting of a `float64` decoded from a
number literal (see `decodeAny`) and the network, `client.Do`. -/
structure Env where
  fmtFloat : String → Option String
  send : Request → Except String Response

/-- How a call of `rest` ends: it returns the pair `(*T, error)`, or it
panics. -/
inductive Outcome (T : Type) where
  | returned (payload : Option T) (err : Option String) : Outcome T
  | panicked : Outcome T

/-- A call of `rest`: how it ended and the requests it handed to `client.Do`,
in order. -/
structure Run (T : Type) where
  outcome : Outcome T
  sent : List Request

/-- The body of the loop over the parameter map: a non-nil value is set
under its key as its `%v` text, a nil value is skipped. -/
def addParam (queryParams : Values) (key : String) (value : GoVal) : Values :=
  match value with
  | GoVal.nil => queryParams
  | v => valuesSet queryParams key (sprintV v)

/-- The loop `for key, value := range paramMap`, over the entries of the map
in the order the iteration visits them. -/
def addParams (paramMap : List (String × GoVal)) (queryParams : Values) : Values :=
  paramMap.foldl (fun q kv => addParam q kv.1 kv.2) queryParams

/-- The URL of a GET request: the base URL, and `?` with the encoded query
when there is at least one query parameter. -/
def fullURL (baseURL : String) (queryParams : Values) : String :=
  if queryParams.length > 0 then baseURL ++ "?" ++ valuesEncode queryParams else baseURL

/-- The query parameters of a GET call (lines 41 to 62): an error message, or
the values collected from the parameter map. -/
def getQueryParams (fmtFloat : String → Option String) (params : Params) :
    Except String Values :=
  match params with
  | none => Except.ok []
  | some (Except.error e) => Except.error ("gmgn: failed to marshal params: " ++ e)
  | some (Except.ok jsonData) =>
    match unmarshalMap fmtFloat jsonData with
    | Except.error e => Except.error ("gmgn: failed to unmarshal params: " ++ e)
    | Except.ok paramMap => Except.ok (addParams paramMap [])

/-- The body of a POST call (lines 78 to 84): empty when `params` is nil,
else the marshalled parameters. -/
def postBody (params : Params) : Except String String :=
  match params with
  | none => Except.ok ""
  | some (Except.error e) => Except.error ("gmgn: failed to marshal params: " ++ e)
  | some (Except.ok j) => Except.ok (renderJson j)

/-- The state of `req` after the `switch method` of `rest`. -/
inductive Built where
  | request (req : Request) : Built
  | failed (err : String) : Built
  | nilRequest : Built
  deriving DecidableEq, Repr

/-- The `switch method` of `rest` (lines 28 to 94): the request of a GET or a
POST call, or the error `rest` returns early; for any other method no case
runs and `req` stays nil. -/
def buildRequest (fmtFloat : String → Option String) (method path : String)
    (params : Params) : Built :=
  let baseURL := BASE_URL ++ path
  if method = "GET" then
    match getQueryParams fmtFloat params with
    | Except.error e => Built.failed e
    | Except.ok queryParams =>
      match newRequest "GET" (fullURL baseURL queryParams) "" with
      | Except.error e => Built.failed ("gmgn: failed to create request: " ++ e)
      | Except.ok req => Built.request req
  else if method = "POST" then
    match postBody params with
    | Except.error e => Built.failed e
    | Except.ok body =>
      match newRequest "POST" baseURL body with
      | Except.error e => Built.failed ("gmgn: failed to create request: " ++ e)
      | Except.ok req => Built.request { req with contentType := some "application/json" }
  else Built.nilRequest

/-- The end of `rest` (lines 109 to 130), from the response to the pair
returned. -/
def handleResponse {T : Type} (dec : Decoder T) (resp : Response) : Outcome T :=
  match resp.body with
  | Except.error e =>
    Outcome.returned none (some ("gmgn: failed to read response body: " ++ e))
  | Except.ok body =>
    if resp.statusCode ≠ 200 then
      Outcome.returned none
        (some ("gmgn: API request failed with status " ++ toString resp.statusCode ++ ": " ++ body))
    else
      match unmarshalResp dec body with
      | Except.error e =>
        Outcome.returned none (some ("gmgn: failed to unmarshal response: " ++ e))
      | Except.ok result =>
        if result.Code ≠ 0 then
          Outcome.returned none
            (some ("gmgn: API request failed with code " ++ toString result.Code ++ ": " ++
              result.Msg))
        else Outcome.returned result.Data none

/-- The function `rest[T]`. With `req` nil the debug print `req.URL.String()`
dereferences a nil pointer and the call panics; the text printed is not
modelled. -/
def rest {T : Type} (env : Env) (dec : Decoder T) (method path : String) (params : Params) :
    Run T :=
  match buildRequest env.fmtFloat method path params with
  | Built.failed e => { outcome := Outcome.returned none (some e), sent := [] }
  | Built.nilRequest => { outcome := Outcome.panicked, sent := [] }
  | Built.request req =>
    match env.send req with
    | Except.error e =>
      { outcome := Outcome.returned none (some ("gmgn: failed to make request: " ++ e)),
        sent := [req] }
    | Except.ok resp => { outcome := handleResponse dec resp, sent := [req] }

/-! ## The endpoint wrappers -/

structure ExactInParams where
  TokenInChain : String
  TokenOutChain : String
  TokenInAddress : String
  TokenOutAddress : String
  FromAddress : String
  InAmount : String
  Src : String

/-- The document `json.Marshal` writes for an `ExactInParams`: the fields in
order under their tags, `src` left out when empty (`omitempty`). -/
def ExactInParams.marshal (p : ExactInParams) : Json :=
  Json.obj
    ([("token_in_chain", Json.str p.TokenInChain),
      ("token_out_chain", Json.str p.TokenOutChain),
      ("token_in_address", Json.str p.TokenInAddress),
      ("token_out_address", Json.str p.TokenOutAddress),
      ("from_address", Json.str p.FromAddress),
      ("in_amount", Json.str p.InAmount)] ++
      (if p.Src = "" then [] else [("src", Json.str p.Src)]))

structure ExactOutParams where
  TokenInChain : String
  TokenOutChain : String
  TokenInAddress : String
  TokenOutAddress : String
  OutAmount : String
  Src : String

/-- The document `json.Marshal` writes for an `ExactOutParams`. -/
def ExactOutParams.marshal (p : ExactOutParams) : Json :=
  Json.obj
    ([("token_in_chain", Json.str p.TokenInChain),
      ("token_out_chain", Json.str p.TokenOutChain),
      ("token_in_address", Json.str p.TokenInAddress),
      ("token_out_address", Json.str p.TokenOutAddress),
      ("out_amount", Json.str p.OutAmount)] ++
      (if p.Src = "" then [] else [("src", Json.str p.Src)]))

structure SlippageParams where
  TokenAddress : String
  TokenInAddress : String

/-- The document `json.Marshal` writes for a `SlippageParams`. -/
def SlippageParams.marshal (p : SlippageParams) : Json :=
  Json.obj
    [("token_address", Json.str p.TokenAddress),
     ("token_in_address", Json.str p.TokenInAddress)]

structure SlippageData where
  RecommendSlippage : String
  DisplaySlippage : String
  HasTax : Bool
  deriving DecidableEq, Repr

/-- Store one member of a JSON object into a `SlippageData`. -/
def SlippageData.storeField (d : SlippageData) (k : String) (v : Json) :
    Except String SlippageData :=
  if foldName k = "RECOMMEND_SLIPPAGE" then
    (storeString v d.RecommendSlippage).map (fun s => { d with RecommendSlippage := s })
  else if foldName k = "DISPLAY_SLIPPAGE" then
    (storeString v d.DisplaySlippage).map (fun s => { d with DisplaySlippage := s })
  else if foldName k = "HAS_TAX" then
    (storeBool v d.HasTax).map (fun b => { d with HasTax := b })
  else Except.ok d

/-- Store the members of a JSON object into a `SlippageData`, in order. -/
def SlippageData.storeFields : SlippageData → List (String × Json) → Except String SlippageData
  | d, [] => Except.ok d
  | d, (k, v) :: kvs =>
    match SlippageData.storeField d k v with
    | Except.ok d1 => SlippageData.storeFields d1 kvs
    | Except.error e => Except.error e

/-- The decoding of a `SlippageData`, following its field tags. -/
def SlippageData.decoder : Decoder SlippageData where
  zero := { RecommendSlippage := "", DisplaySlippage := "", HasTax := false }
  decode := fun j d =>
    match j with
    | Json.obj kvs => SlippageData.storeFields d kvs
    | _ => Except.error "json: cannot unmarshal value into Go struct field Resp.data of type gmneth.SlippageData"

/-- The wrapper `ExactIn`; `dec` is the decoding of `ExactInOutData`. -/
def ExactIn {T : Type} (env : Env) (dec : Decoder T) (params : ExactInParams) : Run T :=
  rest env dec "GET" EXACT_IN_PATH (some (Except.ok params.marshal))

/-- The wrapper `ExactOut`; `dec` is the decoding of `ExactInOutData`. -/
def ExactOut {T : Type} (env : Env) (dec : Decoder T) (params : ExactOutParams) : Run T :=
  rest env dec "GET" EXACT_OUT_PATH (some (Except.ok params.marshal))

/-- The wrapper `Slippage`. -/
def Slippage (env : Env) (params : SlippageParams) : Run SlippageData :=
  rest env SlippageData.decoder "GET" SLIPPAGE_PATH (some (Except.ok params.marshal))

structure GasPriceData where
  LastBlock : Int
  Average : String
  High : String
  Low : String
  SuggestBaseFee : String
  EthUsdPrice : String
  HighPrioFee : String
  AveragePrioFee : String
  LowPrioFee : String
  deriving DecidableEq, Repr

/-- Store one member of a JSON object into a `GasPriceData`. -/
def GasPriceData.storeField (d : GasPriceData) (k : String) (v : Json) :
    Except String GasPriceData :=
  if foldName k = "LAST_BLOCK" then
    (storeInt64 v d.LastBlock).map (fun n => { d with LastBlock := n })
  else if foldName k = "AVERAGE" then
    (storeString v d.Average).map (fun s => { d with Average := s })
  else if foldName k = "HIGH" then
    (storeString v d.High).map (fun s => { d with High := s })
  else if foldName k = "LOW" then
    (storeString v d.Low).map (fun s => { d with Low := s })
  else if foldName k = "SUGGEST_BASE_FEE" then
    (storeString v d.SuggestBaseFee).map (fun s => { d with SuggestBaseFee := s })
  else if foldName k = "ETH_USD_PRICE" then
    (storeString v d.EthUsdPrice).map (fun s => { d with EthUsdPrice := s })
  else if foldName k = "HIGH_PRIO_FEE" then
    (storeString v d.HighPrioFee).map (fun s => { d with HighPrioFee := s })
  else if foldName k = "AVERAGE_PRIO_FEE" then
    (storeString v d.AveragePrioFee).map (fun s => { d with AveragePrioFee := s })
  else if foldName k = "LOW_PRIO_FEE" then
    (storeString v d.LowPrioFee).map (fun s => { d with LowPrioFee := s })
  else Except.ok d

/-- Store the members of a JSON object into a `GasPriceData`, in order. -/
def GasPriceData.storeFields : GasPriceData → List (String × Json) → Except String GasPriceData
  | d, [] => Except.ok d
  | d, (k, v) :: kvs =>
    match GasPriceData.storeField d k v with
    | Except.ok d1 => GasPriceData.storeFields d1 kvs
    | Except.error e => Except.error e

/-- The decoding of a `GasPriceData`, following its field tags. -/
def GasPriceData.decoder : Decoder GasPriceData where
  zero :=
    { LastBlock := 0, Average := "", High := "", Low := "", SuggestBaseFee := "",
      EthUsdPrice := "", HighPrioFee := "", AveragePrioFee := "", LowPrioFee := "" }
  decode := fun j d =>
    match j with
    | Json.obj kvs => GasPriceData.storeFields d kvs
    | _ => Except.error "json: cannot unmarshal value into Go struct field Resp.data of type gmneth.GasPriceData"

/-- The wrapper `GasPrice`. -/
def GasPrice (env : Env) (network : String) : Run GasPriceData :=
  rest env GasPriceData.decoder "GET" (GAS_PRICE_PATH ++ "/" ++ network ++ "/gas_price") none

/-! ## Surroundings used in the examples -/

/-- The float formatting on the integer literals of at most six digits, which
`%v` writes back unchanged; any other literal is reported as rejected. It
serves examples whose parameters hold no other number. -/
def fmtSmallInt (lit : String) : Option String :=
  match lit.data with
  | '-' :: ds =>
    if ds ≠ [] ∧ ds.all isDigit = true ∧ ds.length ≤ 6 ∧ (ds.head? ≠ some '0' ∨ ds.length = 1)
    then some lit else none
  | ds =>
    if ds ≠ [] ∧ ds.all isDigit = true ∧ ds.length ≤ 6 ∧ (ds.head? ≠ some '0' ∨ ds.length = 1)
    then some lit else none

/-- A network that answers every request with the given status and body. -/
def replyWith (status : Int) (body : String) : Env where
  fmtFloat := fmtSmallInt
  send := fun _ => Except.ok { statusCode := status, body := Except.ok body }

/-- A text occurs inside another. -/
def Contains (s part : String) : Prop := List.IsInfix part.data s.data

/-! ## Notions used in the statements -/

/-- Characters that may stand in a path without changing how the URL is
parsed: no `#`, `?`, `%` and no control character. -/
def PlainPath (p : List Char) : Prop :=
  ∀ c ∈ p, c ≠ '#' ∧ c ≠ '?' ∧ c ≠ '%' ∧ ¬ c.toNat < 0x20 ∧ c.toNat ≠ 0x7f

/-- A character that `url.QueryEscape` can write, `=` or `&`. -/
def QueryChar (c : Char) : Prop :=
  c ≠ '#' ∧ c ≠ '?' ∧ ¬ c.toNat < 0x20 ∧ c.toNat ≠ 0x7f

instance (c : Char) : Decidable (QueryChar c) := by
  unfold QueryChar
  exact inferInstance

/-- Characters that may stand in a query: no `#`, `?` and no control
character. -/
def QuerySafe (q : List Char) : Prop :=
  ∀ c ∈ q, c ≠ '#' ∧ c ≠ '?' ∧ ¬ c.toNat < 0x20 ∧ c.toNat ≠ 0x7f

/-- The value is the nil interface. -/
def GoVal.isNil : GoVal → Bool
  | GoVal.nil => true
  | _ => false

/-- The keys of the parameter map whose value is not nil. -/
def liveKeys (m : List (String × GoVal)) : List String :=
  (m.filter (fun kv => !kv.2.isNil)).map Prod.fst

/-- The key/value pairs of the query string of a GET call: the keys with a
non-nil value in increasing order, each with the `%v` text of its value. -/
def queryPairs (m : List (String × GoVal)) : List (String × String) :=
  (sortKeys (liveKeys m)).map (fun k => (k, sprintV ((mapGet k m).getD GoVal.nil)))

/-- The pairs written `key=value`, both percent-encoded, joined by `&`. -/
def encodePairs (ps : List (String × String)) : String :=
  "&".intercalate (ps.map (fun p => QueryEscape p.1 ++ "=" ++ QueryEscape p.2))


/-- The pairs of the query string of an `ExactIn` call, in the order of their
keys: the six fields always, `src` only when it is not empty. -/
def exactInPairs (p : ExactInParams) : List (String × String) :=
  [("from_address", p.FromAddress), ("in_amount", p.InAmount)] ++
    (if p.Src = "" then [] else [("src", p.Src)]) ++
    [("token_in_address", p.TokenInAddress), ("token_in_chain", p.TokenInChain),
      ("token_out_address", p.TokenOutAddress), ("token_out_chain", p.TokenOutChain)]

/-- What may follow a number literal without being read as part of it: the
end of the input, or a character other than a digit, `.`, `e` and `E`. -/
def stopsNumber : List Char → Bool
  | [] => true
  | c :: _ => !(isDigit c || decide (c = '.') || decide (c = 'e') || decide (c = 'E'))

/-- The text is one JSON number literal. -/
def ValidNumber (lit : String) : Prop := parseNumber lit.data = some (lit.data, [])

instance (lit : String) : Decidable (ValidNumber lit) := by
  unfold ValidNumber
  exact inferInstance

mutual
/-- Every number of the document is a JSON number literal, as in every
document `json.Marshal` writes. -/
def WellFormed : Json → Prop
  | Json.null => True
  | Json.bool _ => True
  | Json.num lit => ValidNumber lit
  | Json.str _ => True
  | Json.arr xs => WellFormedList xs
  | Json.obj kvs => WellFormedMembers kvs
/-- Every element is well formed. -/
def WellFormedList : List Json → Prop
  | [] => True
  | x :: xs => WellFormed x ∧ WellFormedList xs
/-- Every member value is well formed. -/
def WellFormedMembers : List (String × Json) → Prop
  | [] => True
  | (_, x) :: kvs => WellFormed x ∧ WellFormedMembers kvs
end

mutual
/-- Fuel that suffices to parse the text of a document. -/
def fuelNeed : Json → Nat
  | Json.arr xs => fuelList xs + 1
  | Json.obj kvs => fuelMembers kvs + 1
  | _ => 1
/-- Fuel that suffices to parse the elements of an array. -/
def fuelList : List Json → Nat
  | [] => 0
  | x :: xs => fuelNeed x + fuelList xs + 1
/-- Fuel that suffices to parse the members of an object. -/
def fuelMembers : List (String × Json) → Nat
  | [] => 0
  | (_, x) :: kvs => fuelNeed x + fuelMembers kvs + 1
end

/-- The pairs of the query string of an `ExactOut` call, in the order of their
keys: the five fields always, `src` only when it is not empty. -/
def exactOutPairs (p : ExactOutParams) : List (String × String) :=
  [("out_amount", p.OutAmount)] ++
    (if p.Src = "" then [] else [("src", p.Src)]) ++
    [("token_in_address", p.TokenInAddress), ("token_in_chain", p.TokenInChain),
      ("token_out_address", p.TokenOutAddress), ("token_out_chain", p.TokenOutChain)]

/-- The pairs of the query string of a `Slippage` call. -/
def slippagePairs (p : SlippageParams) : List (String × String) :=
  [("token_address", p.TokenAddress), ("token_in_address", p.TokenInAddress)]

/-- The pieces of a text between the occurrences of a separator. -/
def splitOn (sep : Char) : List Char → List (List Char)
  | [] => [[]]
  | c :: cs =>
    if c = sep then [] :: splitOn sep cs
    else
      match splitOn sep cs with
      | [] => [[c]]
      | x :: xs => (c :: x) :: xs

/-- The raw `key=value` pairs of a query string, as `url.ParseQuery` cuts
them before it unescapes them: the pieces between `&`, the empty ones
skipped, each cut at its first `=`. -/
def rawPairs (query : String) : List (String × String) :=
  ((splitOn '&' query.data).filter (fun item => !item.isEmpty)).map
    (fun item => (String.mk (cut '=' item).1, String.mk (cut '=' item).2.1))

/-- A character `url.QueryEscape` can write: none of `&`, `=`, `#`, `?` and
no control character. -/
def EscapedChar (c : Char) : Prop :=
  c ≠ '&' ∧ c ≠ '=' ∧ QueryChar c

instance (c : Char) : Decidable (EscapedChar c) := by
  unfold EscapedChar
  exact inferInstance

/-- Model of `url.QueryUnescape`, giving the bytes of its result: `%XX` is the
byte with that hexadecimal value, `+` is a space, any other character stands
for its own bytes; a `%` without two hexadecimal digits is an error. The fuel
bounds the characters read. -/
def unescapeBytes : Nat → List Char → Option (List Nat)
  | 0, _ => some []
  | _ + 1, [] => some []
  | fuel + 1, c :: r =>
    if c = '%' then
      match r with
      | a :: b :: r2 =>
        match hexVal a, hexVal b, unescapeBytes fuel r2 with
        | some x, some y, some bs => some ((16 * x + y) :: bs)
        | _, _, _ => none
      | _ => none
    else if c = '+' then
      match unescapeBytes fuel r with
      | some bs => some (32 :: bs)
      | none => none
    else
      match unescapeBytes fuel r with
      | some bs => some (utf8Bytes c ++ bs)
      | none => none

/-- The UTF-8 bytes of a text. -/
def utf8Text : List Char → List Nat
  | [] => []
  | c :: cs => utf8Bytes c ++ utf8Text cs

/-- The bytes `url.QueryUnescape` returns for a text, if it accepts it. -/
def QueryUnescape (s : String) : Option (List Nat) := unescapeBytes s.length s.data

/-! ## The response path -/

theorem rest_of_built {T : Type} (env : Env) (dec : Decoder T) (method path : String)
    (params : Params) (req : Request)
    (hreq : buildRequest env.fmtFloat method path params = Built.request req) :
    rest env dec method path params =
      match env.send req with
      | Except.error e =>
        { outcome := Outcome.returned none (some ("gmgn: failed to make request: " ++ e)),
          sent := [req] }
      | Except.ok resp => { outcome := handleResponse dec resp, sent := [req] } := by
  simp only [rest, hreq]

theorem rest_sent_of_built {T : Type} (env : Env) (dec : Decoder T) (method path : String)
    (params : Params) (req : Request)
    (hreq : buildRequest env.fmtFloat method path params = Built.request req) :
    (rest env dec method path params).sent = [req] := by
  rw [rest_of_built env dec method path params req hreq]
  cases hs : env.send req with
  | error e => rfl
  | ok resp => rfl

theorem contains_append_left (a b part : String) (h : Contains a part) :
    Contains (a ++ b) part := by
  unfold Contains at *
  rw [String.data_append]
  exact List.IsInfix.trans h (List.prefix_append a.data b.data).isInfix

theorem contains_append_right (a b part : String) (h : Contains b part) :
    Contains (a ++ b) part := by
  unfold Contains at *
  rw [String.data_append]
  exact List.IsInfix.trans h (List.suffix_append a.data b.data).isInfix

theorem contains_self (a : String) : Contains a a := List.infix_refl _

/-! ## Facts about the URL parser -/

theorem cut_of_not_mem (sep : Char) (a : List Char) (h : sep ∉ a) :
    cut sep a = (a, [], false) := by
  induction a with
  | nil => rfl
  | cons c cs ih =>
    have hc : c ≠ sep := fun e => h (by simp [e])
    have hcs : sep ∉ cs := fun e => h (by simp [e])
    simp [cut, hc, ih hcs]

theorem cut_append_sep (sep : Char) (a b : List Char) (h : sep ∉ a) :
    cut sep (a ++ sep :: b) = (a, b, true) := by
  induction a with
  | nil => simp [cut]
  | cons c cs ih =>
    have hc : c ≠ sep := fun e => h (by simp [e])
    have hcs : sep ∉ cs := fun e => h (by simp [e])
    simp [cut, hc, ih hcs]

theorem escapesValid_of_no_percent (n : Nat) (l : List Char) (h : '%' ∉ l) :
    escapesValid n l = true := by
  induction n generalizing l with
  | zero => rfl
  | succ n ih =>
    cases l with
    | nil => rfl
    | cons c cs =>
      have hc : c ≠ '%' := fun e => h (by simp [e])
      have hcs : '%' ∉ cs := fun e => h (by simp [e])
      simp [escapesValid, hc, ih cs hcs]

theorem getScheme_https (r : List Char) :
    getScheme [] ('h' :: 't' :: 't' :: 'p' :: 's' :: ':' :: r) =
      some (['h', 't', 't', 'p', 's'], r) := by
  simp [getScheme]

theorem base_data :
    BASE_URL.data = 'h' :: 't' :: 't' :: 'p' :: 's' :: ':' :: '/' :: '/' ::
      (['g', 'm', 'g', 'n', '.', 'a', 'i'] ++ '/' :: []) := rfl

theorem containsCTL_eq_false (l : List Char)
    (h : ∀ c ∈ l, ¬ c.toNat < 0x20 ∧ c.toNat ≠ 0x7f) : containsCTL l = false := by
  unfold containsCTL
  rw [List.any_eq_false]
  intro c hc
  have := h c hc
  simp [this.1, this.2]

theorem splitQuery_of_not_mem (l : List Char) (h : '?' ∉ l) :
    splitQuery l = (l, [], false) := by
  unfold splitQuery
  have hc : List.count '?' l ≠ 1 := by
    rw [List.count_eq_zero_of_not_mem h]; decide
  rw [if_neg (fun hh => hc hh.2), cut_of_not_mem '?' l h]

theorem splitQuery_append (a q : List Char) (ha : '?' ∉ a) (hq : '?' ∉ q) (hne : q ≠ []) :
    splitQuery (a ++ '?' :: q) = (a, q, false) := by
  unfold splitQuery
  have hl : (a ++ '?' :: q).getLast? ≠ some '?' := by
    intro hh
    have h1 : (a ++ '?' :: q).getLast? = q.getLast? := by
      cases q with
      | nil => exact absurd rfl hne
      | cons d q1 =>
        rw [List.getLast?_append, List.getLast?_cons_cons]
        cases hd : (d :: q1).getLast? with
        | none => simp at hd
        | some e => rfl
    rw [h1] at hh
    exact hq (List.mem_of_getLast?_eq_some hh)
  rw [if_neg (fun hh => hl hh.1), cut_append_sep '?' a q ha]

theorem splitAuthority_base (p : List Char) :
    splitAuthority ('/' :: '/' :: (['g', 'm', 'g', 'n', '.', 'a', 'i'] ++ '/' :: p)) =
      (['g', 'm', 'g', 'n', '.', 'a', 'i'], '/' :: p) := by
  unfold splitAuthority
  simp only [cut_append_sep '/' ['g', 'm', 'g', 'n', '.', 'a', 'i'] p (by decide), if_true]

theorem urlParse_plain (p : List Char) (hp : PlainPath p) :
    urlParse (String.mk (BASE_URL.data ++ p)) =
      Except.ok
        { scheme := "https", host := "gmgn.ai", path := String.mk ('/' :: p), rawQuery := "",
          forceQuery := false, fragment := "", text := String.mk (BASE_URL.data ++ p) } := by
  have hhash : '#' ∉ BASE_URL.data ++ p := by
    rw [List.mem_append]
    rintro (h | h)
    · revert h; decide
    · exact (hp _ h).1 rfl
  have hctl : containsCTL (BASE_URL.data ++ p) = false := by
    apply containsCTL_eq_false
    intro c hc
    rw [List.mem_append] at hc
    rcases hc with h | h
    · revert c; decide
    · exact (hp c h).2.2.2
  have hq : '?' ∉ '/' :: '/' :: (['g', 'm', 'g', 'n', '.', 'a', 'i'] ++ '/' :: p) := by
    intro h
    have h2 : '?' ∈ p := by simpa using h
    exact (hp _ h2).2.1 rfl
  have hpct : '%' ∉ '/' :: p := by
    rw [List.mem_cons]
    rintro (h | h)
    · revert h; decide
    · exact (hp _ h).2.2.1 rfl
  have hsch : getScheme [] (BASE_URL.data ++ p) =
      some (['h', 't', 't', 'p', 's'],
        '/' :: '/' :: (['g', 'm', 'g', 'n', '.', 'a', 'i'] ++ '/' :: p)) := by
    rw [base_data]
    exact getScheme_https _
  unfold urlParse
  simp only [cut_of_not_mem '#' _ hhash, hctl, hsch, splitQuery_of_not_mem _ hq,
    splitAuthority_base, escapesValid_of_no_percent _ _ hpct]
  simp [escapesValid]

theorem urlParse_query (p q : List Char) (hp : PlainPath p) (hq : QuerySafe q) (hne : q ≠ []) :
    urlParse (String.mk (BASE_URL.data ++ p ++ '?' :: q)) =
      Except.ok
        { scheme := "https", host := "gmgn.ai", path := String.mk ('/' :: p),
          rawQuery := String.mk q, forceQuery := false, fragment := "",
          text := String.mk (BASE_URL.data ++ p ++ '?' :: q) } := by
  have hhash : '#' ∉ BASE_URL.data ++ p ++ '?' :: q := by
    simp only [List.mem_append, List.mem_cons]
    rintro ((h | h) | h | h)
    · revert h; decide
    · exact (hp _ h).1 rfl
    · revert h; decide
    · exact (hq _ h).1 rfl
  have hctl : containsCTL (BASE_URL.data ++ p ++ '?' :: q) = false := by
    apply containsCTL_eq_false
    intro c hc
    simp only [List.mem_append, List.mem_cons] at hc
    rcases hc with (h | h) | h | h
    · revert c; decide
    · exact (hp c h).2.2.2
    · subst h; decide
    · exact (hq c h).2.2
  have hq1 : '?' ∉ '/' :: '/' :: (['g', 'm', 'g', 'n', '.', 'a', 'i'] ++ '/' :: p) := by
    intro h
    have h2 : '?' ∈ p := by simpa using h
    exact (hp _ h2).2.1 rfl
  have hq2 : '?' ∉ q := fun h => (hq _ h).2.1 rfl
  have hpct : '%' ∉ '/' :: p := by
    rw [List.mem_cons]
    rintro (h | h)
    · revert h; decide
    · exact (hp _ h).2.2.1 rfl
  have hsch : getScheme [] (BASE_URL.data ++ p ++ '?' :: q) =
      some (['h', 't', 't', 'p', 's'],
        '/' :: '/' :: (['g', 'm', 'g', 'n', '.', 'a', 'i'] ++ '/' :: p) ++ '?' :: q) := by
    rw [base_data]
    exact getScheme_https _
  unfold urlParse
  simp only [cut_of_not_mem '#' _ hhash, hctl, hsch, splitQuery_append _ q hq1 hq2 hne,
    splitAuthority_base, escapesValid_of_no_percent _ _ hpct]
  simp [escapesValid]

theorem fullURL_nil (baseURL : String) : fullURL baseURL [] = baseURL := rfl

theorem buildRequest_get_nil (fmtFloat : String → Option String) (path : String) :
    buildRequest fmtFloat "GET" path none =
      match newRequest "GET" (BASE_URL ++ path) "" with
      | Except.error e => Built.failed ("gmgn: failed to create request: " ++ e)
      | Except.ok req => Built.request req := by
  simp only [buildRequest, getQueryParams, fullURL_nil, if_true]

theorem plainPath_append (a b : List Char) (ha : PlainPath a) (hb : PlainPath b) :
    PlainPath (a ++ b) := by
  intro c hc
  rw [List.mem_append] at hc
  rcases hc with h | h
  · exact ha c h
  · exact hb c h

/-! ## The order of keys -/

theorem leChars_total (a b : List Char) : leChars a b = true ∨ leChars b a = true := by
  induction a generalizing b with
  | nil => left; rfl
  | cons x xs ih =>
    cases b with
    | nil => right; rfl
    | cons y ys =>
      simp only [leChars]
      by_cases h1 : x.toNat < y.toNat
      · simp [h1]
      · by_cases h2 : y.toNat < x.toNat
        · simp [h2]
        · simp only [h1, h2, if_false]
          exact ih ys

theorem leChars_trans (a b c : List Char) (hab : leChars a b = true) (hbc : leChars b c = true) :
    leChars a c = true := by
  induction a generalizing b c with
  | nil => rfl
  | cons x xs ih =>
    cases b with
    | nil => simp [leChars] at hab
    | cons y ys =>
      cases c with
      | nil => simp [leChars] at hbc
      | cons z zs =>
        simp only [leChars] at hab hbc ⊢
        by_cases h1 : x.toNat < y.toNat
        · by_cases h3 : y.toNat < z.toNat
          · have : x.toNat < z.toNat := by omega
            simp [this]
          · by_cases h4 : z.toNat < y.toNat
            · simp [h3, h4] at hbc
            · have : x.toNat < z.toNat := by omega
              simp [this]
        · by_cases h2 : y.toNat < x.toNat
          · simp [h1, h2] at hab
          · simp only [h1, h2, if_false] at hab
            by_cases h3 : y.toNat < z.toNat
            · have : x.toNat < z.toNat := by omega
              simp [this]
            · by_cases h4 : z.toNat < y.toNat
              · simp [h3, h4] at hbc
              · simp only [h3, h4, if_false] at hbc
                have h5 : ¬ x.toNat < z.toNat := by omega
                have h6 : ¬ z.toNat < x.toNat := by omega
                simp only [h5, h6, if_false]
                exact ih ys zs hab hbc

theorem char_eq_of_toNat_eq (x y : Char) (h : x.toNat = y.toNat) : x = y := by
  apply Char.ext
  apply UInt32.ext
  exact h

theorem leChars_antisymm (a b : List Char) (hab : leChars a b = true) (hba : leChars b a = true) :
    a = b := by
  induction a generalizing b with
  | nil =>
    cases b with
    | nil => rfl
    | cons y ys => simp [leChars] at hba
  | cons x xs ih =>
    cases b with
    | nil => simp [leChars] at hab
    | cons y ys =>
      simp only [leChars] at hab hba
      by_cases h1 : x.toNat < y.toNat
      · have h2 : ¬ y.toNat < x.toNat := by omega
        simp [h1, h2] at hba
      · by_cases h2 : y.toNat < x.toNat
        · simp [h1, h2] at hab
        · simp only [h1, h2, if_false] at hab hba
          have hxy : x = y := char_eq_of_toNat_eq x y (by omega)
          rw [hxy, ih ys hab hba]

theorem sortKeys_perm (ks : List String) : (sortKeys ks).Perm ks :=
  List.perm_insertionSort strLe ks

theorem sortKeys_sorted (ks : List String) : (sortKeys ks).Sorted strLe := by
  haveI : IsTotal String strLe := ⟨fun a b => leChars_total a.data b.data⟩
  haveI : IsTrans String strLe := ⟨fun a b c => leChars_trans a.data b.data c.data⟩
  exact List.sorted_insertionSort strLe ks

theorem sortKeys_eq_of_perm (ks1 ks2 : List String) (h : ks1.Perm ks2) :
    sortKeys ks1 = sortKeys ks2 := by
  haveI : IsAntisymm String strLe :=
    ⟨fun a b hab hba => String.ext (leChars_antisymm a.data b.data hab hba)⟩
  exact List.eq_of_perm_of_sorted
    (((sortKeys_perm ks1).trans h).trans (sortKeys_perm ks2).symm)
    (sortKeys_sorted ks1) (sortKeys_sorted ks2)

/-! ## Facts about the maps -/

theorem mapSet_of_not_mem {α : Type} (k : String) (v : α) (m : List (String × α))
    (h : k ∉ m.map Prod.fst) : mapSet k v m = m ++ [(k, v)] := by
  induction m with
  | nil => rfl
  | cons kv m ih =>
    obtain ⟨k1, v1⟩ := kv
    have h1 : k1 ≠ k := fun e => h (by simp [e])
    have h2 : k ∉ m.map Prod.fst := fun e => h (by simp [e])
    simp [mapSet, h1, ih h2]

theorem keys_mapSet {α : Type} (k : String) (v : α) (m : List (String × α)) :
    (mapSet k v m).map Prod.fst =
      if k ∈ m.map Prod.fst then m.map Prod.fst else m.map Prod.fst ++ [k] := by
  induction m with
  | nil => simp [mapSet]
  | cons kv m ih =>
    obtain ⟨k1, v1⟩ := kv
    by_cases h1 : k1 = k
    · subst h1
      simp [mapSet]
    · have h2 : ¬ k = k1 := fun e => h1 e.symm
      simp only [mapSet, h1, if_false, List.map_cons, ih, List.mem_cons, h2, false_or]
      split <;> simp

theorem nodup_keys_mapSet {α : Type} (k : String) (v : α) (m : List (String × α))
    (h : (m.map Prod.fst).Nodup) : ((mapSet k v m).map Prod.fst).Nodup := by
  rw [keys_mapSet]
  split
  · exact h
  · rename_i hk
    rw [List.nodup_append]
    refine ⟨h, List.nodup_singleton k, ?_⟩
    intro a ha hb
    rw [List.mem_singleton] at hb
    exact hk (hb ▸ ha)

theorem nodup_keys_foldl_mapSet {α : Type} (kvs : List (String × α)) (m : List (String × α))
    (h : (m.map Prod.fst).Nodup) :
    ((kvs.foldl (fun m kv => mapSet kv.1 kv.2 m) m).map Prod.fst).Nodup := by
  induction kvs generalizing m with
  | nil => exact h
  | cons kv kvs ih => exact ih _ (nodup_keys_mapSet kv.1 kv.2 m h)

theorem nodup_keys_mapOfList {α : Type} (kvs : List (String × α)) :
    ((mapOfList kvs).map Prod.fst).Nodup :=
  nodup_keys_foldl_mapSet kvs [] List.nodup_nil

theorem mapGet_eq_some_of_mem {α : Type} (m : List (String × α)) (k : String) (v : α)
    (hn : (m.map Prod.fst).Nodup) (h : (k, v) ∈ m) : mapGet k m = some v := by
  induction m with
  | nil => simp at h
  | cons kv m ih =>
    obtain ⟨k1, v1⟩ := kv
    rw [List.map_cons, List.nodup_cons] at hn
    rw [List.mem_cons] at h
    rcases h with h | h
    · injection h with h1 h2
      subst h1 h2
      simp [mapGet]
    · have hk : k ∈ m.map Prod.fst := List.mem_map.mpr ⟨(k, v), h, rfl⟩
      have hne : k1 ≠ k := fun e => hn.1 (e ▸ hk)
      simp [mapGet, hne, ih hn.2 h]

theorem mem_of_mapGet_eq_some {α : Type} (m : List (String × α)) (k : String) (v : α)
    (h : mapGet k m = some v) : (k, v) ∈ m := by
  induction m with
  | nil => simp [mapGet] at h
  | cons kv m ih =>
    obtain ⟨k1, v1⟩ := kv
    by_cases h1 : k1 = k
    · subst h1
      simp only [mapGet, if_true, Option.some.injEq] at h
      subst h
      exact List.mem_cons_self _ _
    · simp only [mapGet, h1, if_false] at h
      exact List.mem_cons_of_mem _ (ih h)

theorem mapGet_eq_none_of_not_mem {α : Type} (m : List (String × α)) (k : String)
    (h : k ∉ m.map Prod.fst) : mapGet k m = none := by
  cases hg : mapGet k m with
  | none => rfl
  | some v => exact absurd (List.mem_map.mpr ⟨(k, v), mem_of_mapGet_eq_some m k v hg, rfl⟩) h

theorem mapGet_perm {α : Type} (m1 m2 : List (String × α)) (k : String) (hp : m1.Perm m2)
    (hn : (m1.map Prod.fst).Nodup) : mapGet k m1 = mapGet k m2 := by
  have hn2 : (m2.map Prod.fst).Nodup := (hp.map Prod.fst).nodup_iff.mp hn
  cases hg : mapGet k m1 with
  | some v =>
    exact (mapGet_eq_some_of_mem m2 k v hn2 (hp.mem_iff.mp (mem_of_mapGet_eq_some m1 k v hg))).symm
  | none =>
    cases hg2 : mapGet k m2 with
    | none => rfl
    | some v =>
      rw [mapGet_eq_some_of_mem m1 k v hn (hp.mem_iff.mpr (mem_of_mapGet_eq_some m2 k v hg2))] at hg
      exact absurd hg (by simp)

/-! ## The query string of a GET call -/

theorem addParam_of_not_nil (q : Values) (k : String) (v : GoVal) (hv : v.isNil = false)
    (hk : k ∉ q.map Prod.fst) : addParam q k v = q ++ [(k, [sprintV v])] := by
  cases v with
  | nil => simp [GoVal.isNil] at hv
  | bool b => exact mapSet_of_not_mem k _ q hk
  | float64 s => exact mapSet_of_not_mem k _ q hk
  | string s => exact mapSet_of_not_mem k _ q hk
  | slice xs => exact mapSet_of_not_mem k _ q hk
  | map kvs => exact mapSet_of_not_mem k _ q hk

theorem eq_nil_of_isNil (v : GoVal) (hv : v.isNil = true) : v = GoVal.nil := by
  cases v <;> simp [GoVal.isNil] at hv
  rfl

/-- The entries the loop of `rest` adds: one per non-nil value. -/
theorem addParams_eq (m : List (String × GoVal)) (q : Values)
    (hn : (m.map Prod.fst).Nodup) (hd : ∀ k ∈ m.map Prod.fst, k ∉ q.map Prod.fst) :
    addParams m q =
      q ++ (m.filter (fun kv => !kv.2.isNil)).map (fun kv => (kv.1, [sprintV kv.2])) := by
  induction m generalizing q with
  | nil => simp [addParams]
  | cons kv m ih =>
    obtain ⟨k, v⟩ := kv
    rw [List.map_cons, List.nodup_cons] at hn
    have hstep : addParams ((k, v) :: m) q = addParams m (addParam q k v) := rfl
    rw [hstep]
    cases hv : v.isNil with
    | true =>
      have hnil := eq_nil_of_isNil v hv
      subst hnil
      simp only [List.filter_cons, GoVal.isNil, Bool.not_true]
      exact ih q hn.2 (fun k1 hk1 => hd k1 (List.mem_cons_of_mem _ hk1))
    | false =>
      rw [addParam_of_not_nil q k v hv (hd k (List.mem_cons_self _ _)),
        ih (q ++ [(k, [sprintV v])]) hn.2]
      · simp [List.filter_cons, hv]
      · intro k1 hk1
        rw [List.map_append, List.mem_append]
        rintro (h | h)
        · exact hd k1 (List.mem_cons_of_mem _ hk1) h
        · simp only [List.map_cons, List.map_nil, List.mem_singleton] at h
          exact hn.1 (h ▸ hk1)

theorem string_append_ne_empty_right (a b : String) (h : b ≠ "") : a ++ b ≠ "" := by
  intro e
  apply h
  have := congrArg String.data e
  rw [String.data_append] at this
  apply String.ext
  exact (List.append_eq_nil.mp this).2

theorem string_append_ne_empty_left (a b : String) (h : a ≠ "") : a ++ b ≠ "" := by
  intro e
  apply h
  have := congrArg String.data e
  rw [String.data_append] at this
  apply String.ext
  exact (List.append_eq_nil.mp this).1

theorem foldl_join (ks : List String) (g : String → String) (buf : String) (hb : buf ≠ "") :
    ks.foldl (fun b k => (if b = "" then b else b ++ "&") ++ g k) buf =
      String.intercalate.go buf "&" (ks.map g) := by
  induction ks generalizing buf with
  | nil => rfl
  | cons k ks ih =>
    simp only [List.foldl_cons, List.map_cons, String.intercalate.go, if_neg hb]
    exact ih _ (string_append_ne_empty_left _ _ (string_append_ne_empty_left _ _ hb))

theorem foldl_join_empty (ks : List String) (g : String → String) (hg : ∀ k, g k ≠ "") :
    ks.foldl (fun b k => (if b = "" then b else b ++ "&") ++ g k) "" =
      "&".intercalate (ks.map g) := by
  cases ks with
  | nil => rfl
  | cons k ks =>
    simp only [List.foldl_cons, List.map_cons, String.intercalate, if_true]
    rw [foldl_join ks g _ (string_append_ne_empty_right _ _ (hg k))]
    congr 1

theorem foldl_congr_mem {α β : Type} (f g : β → α → β) (l : List α) (b : β)
    (h : ∀ b, ∀ a ∈ l, f b a = g b a) : l.foldl f b = l.foldl g b := by
  induction l generalizing b with
  | nil => rfl
  | cons a l ih =>
    simp only [List.foldl_cons]
    rw [h b a (List.mem_cons_self _ _)]
    exact ih _ (fun b1 a1 ha1 => h b1 a1 (List.mem_cons_of_mem _ ha1))

theorem mem_liveKeys (m : List (String × GoVal)) (k : String) :
    k ∈ liveKeys m ↔ ∃ v, (k, v) ∈ m ∧ v.isNil = false := by
  unfold liveKeys
  simp only [List.mem_map, List.mem_filter, Bool.not_eq_true']
  constructor
  · rintro ⟨⟨k1, v⟩, ⟨hmem, hv⟩, rfl⟩
    exact ⟨v, hmem, hv⟩
  · rintro ⟨v, hmem, hv⟩
    exact ⟨(k, v), ⟨hmem, hv⟩, rfl⟩

theorem liveKeys_sublist (m : List (String × GoVal)) :
    (liveKeys m).Sublist (m.map Prod.fst) :=
  List.Sublist.map _ (List.filter_sublist _)

theorem nodup_liveKeys (m : List (String × GoVal)) (hn : (m.map Prod.fst).Nodup) :
    (liveKeys m).Nodup :=
  hn.sublist (liveKeys_sublist m)

/-- The query string `rest` encodes is the list of pairs of `queryPairs`,
and there are as many query parameters as keys with a non-nil value. -/
theorem valuesEncode_addParams (m : List (String × GoVal)) (hn : (m.map Prod.fst).Nodup) :
    valuesEncode (addParams m []) = encodePairs (queryPairs m) ∧
      (addParams m []).length = (liveKeys m).length := by
  have hL := addParams_eq m [] hn (fun _ _ => by simp)
  rw [List.nil_append] at hL
  have hkeys : (addParams m []).map Prod.fst = liveKeys m := by
    rw [hL]; simp [liveKeys, List.map_map, Function.comp_def]
  have hlen : (addParams m []).length = (liveKeys m).length := by
    rw [← hkeys, List.length_map]
  refine ⟨?_, hlen⟩
  unfold valuesEncode
  by_cases h0 : (addParams m []).length = 0
  · rw [if_pos h0]
    have hnil : liveKeys m = [] := List.length_eq_zero.mp (hlen ▸ h0)
    simp [encodePairs, queryPairs, hnil, sortKeys, String.intercalate]
  · rw [if_neg h0, hkeys]
    have hstep : ∀ (b : String), ∀ k ∈ sortKeys (liveKeys m),
        encodeKey (QueryEscape k) b ((mapGet k (addParams m [])).getD []) =
          (if b = "" then b else b ++ "&") ++
            (QueryEscape k ++ "=" ++ QueryEscape (sprintV ((mapGet k m).getD GoVal.nil))) := by
      intro b k hk
      have hk1 : k ∈ liveKeys m := (sortKeys_perm _).mem_iff.mp hk
      obtain ⟨v, hmem, hv⟩ := (mem_liveKeys m k).mp hk1
      have hg1 : mapGet k m = some v := mapGet_eq_some_of_mem m k v hn hmem
      have hg2 : mapGet k (addParams m []) = some [sprintV v] := by
        apply mapGet_eq_some_of_mem
        · rw [hkeys]; exact nodup_liveKeys m hn
        · rw [hL]
          exact List.mem_map.mpr ⟨(k, v), List.mem_filter.mpr ⟨hmem, by simp [hv]⟩, rfl⟩
      rw [hg1, hg2]
      simp only [Option.getD_some, encodeKey, List.foldl_cons, List.foldl_nil,
        String.append_assoc]
    rw [foldl_congr_mem _ _ _ _ hstep,
      foldl_join_empty _
        (fun k => QueryEscape k ++ "=" ++ QueryEscape (sprintV ((mapGet k m).getD GoVal.nil)))]
    · simp [encodePairs, queryPairs, List.map_map, Function.comp_def]
    · intro k
      exact string_append_ne_empty_left _ _
        (string_append_ne_empty_right _ _ (by decide))

theorem length_queryPairs (m : List (String × GoVal)) :
    (queryPairs m).length = (liveKeys m).length := by
  unfold queryPairs
  rw [List.length_map]
  exact (sortKeys_perm _).length_eq

theorem fullURL_addParams (baseURL : String) (m : List (String × GoVal))
    (hn : (m.map Prod.fst).Nodup) :
    fullURL baseURL (addParams m []) =
      if queryPairs m = [] then baseURL
      else baseURL ++ "?" ++ encodePairs (queryPairs m) := by
  obtain ⟨henc, hlen⟩ := valuesEncode_addParams m hn
  unfold fullURL
  rw [henc, hlen, ← length_queryPairs]
  cases hq : queryPairs m with
  | nil => simp
  | cons p ps => simp

theorem filter_eq_singleton (l : List String) (k : String) (hn : l.Nodup) (hk : k ∈ l) :
    l.filter (fun x => decide (x = k)) = [k] := by
  induction l with
  | nil => simp at hk
  | cons a l ih =>
    rw [List.nodup_cons] at hn
    by_cases ha : a = k
    · subst ha
      have : l.filter (fun x => decide (x = a)) = [] := by
        rw [List.filter_eq_nil_iff]
        intro x hx
        have : x ≠ a := fun e => hn.1 (e ▸ hx)
        simp [this]
      simp [List.filter_cons, this]
    · have hk1 : k ∈ l := by
        rcases List.mem_cons.mp hk with h | h
        · exact absurd h.symm ha
        · exact h
      simp [List.filter_cons, ha, ih hn.2 hk1]

theorem keys_queryPairs (m : List (String × GoVal)) :
    (queryPairs m).map Prod.fst = sortKeys (liveKeys m) := by
  simp [queryPairs, List.map_map, Function.comp_def]

theorem nodup_keys_queryPairs (m : List (String × GoVal)) (hn : (m.map Prod.fst).Nodup) :
    ((queryPairs m).map Prod.fst).Nodup := by
  rw [keys_queryPairs]
  exact (sortKeys_perm _).nodup_iff.mpr (nodup_liveKeys m hn)

theorem filter_queryPairs (m : List (String × GoVal)) (k : String) :
    (queryPairs m).filter (fun p => decide (p.1 = k)) =
      ((sortKeys (liveKeys m)).filter (fun x => decide (x = k))).map
        (fun k => (k, sprintV ((mapGet k m).getD GoVal.nil))) := by
  unfold queryPairs
  rw [List.filter_map]
  rfl

/-- A key with a non-nil value has exactly one pair, with the `%v` text of
the value. -/
theorem queryPairs_of_live (m : List (String × GoVal)) (hn : (m.map Prod.fst).Nodup)
    (k : String) (v : GoVal) (hg : mapGet k m = some v) (hv : v.isNil = false) :
    (queryPairs m).filter (fun p => decide (p.1 = k)) = [(k, sprintV v)] := by
  have hk : k ∈ sortKeys (liveKeys m) :=
    (sortKeys_perm _).mem_iff.mpr
      ((mem_liveKeys m k).mpr ⟨v, mem_of_mapGet_eq_some m k v hg, hv⟩)
  have hnd : (sortKeys (liveKeys m)).Nodup :=
    (sortKeys_perm _).nodup_iff.mpr (nodup_liveKeys m hn)
  rw [filter_queryPairs, filter_eq_singleton _ k hnd hk]
  simp [hg]

/-- A key with a nil value, and a key that is not in the map, has no pair. -/
theorem queryPairs_of_dead (m : List (String × GoVal)) (hn : (m.map Prod.fst).Nodup)
    (k : String) (hg : mapGet k m = some GoVal.nil ∨ mapGet k m = none) :
    (queryPairs m).filter (fun p => decide (p.1 = k)) = [] := by
  have hk : k ∉ sortKeys (liveKeys m) := by
    intro h
    obtain ⟨v, hmem, hv⟩ := (mem_liveKeys m k).mp ((sortKeys_perm _).mem_iff.mp h)
    have := mapGet_eq_some_of_mem m k v hn hmem
    rcases hg with hg | hg
    · rw [hg] at this
      injection this with this
      subst this
      simp [GoVal.isNil] at hv
    · rw [hg] at this
      exact absurd this (by simp)
  rw [filter_queryPairs]
  have : (sortKeys (liveKeys m)).filter (fun x => decide (x = k)) = [] := by
    rw [List.filter_eq_nil_iff]
    intro x hx
    have : x ≠ k := fun e => hk (e ▸ hx)
    simp [this]
  rw [this]
  rfl

theorem foldl_mapSet_of_nodup {α : Type} (kvs acc : List (String × α))
    (hn : (kvs.map Prod.fst).Nodup) (hd : ∀ k ∈ kvs.map Prod.fst, k ∉ acc.map Prod.fst) :
    kvs.foldl (fun m kv => mapSet kv.1 kv.2 m) acc = acc ++ kvs := by
  induction kvs generalizing acc with
  | nil => simp
  | cons kv kvs ih =>
    rw [List.map_cons, List.nodup_cons] at hn
    simp only [List.foldl_cons]
    rw [mapSet_of_not_mem kv.1 kv.2 acc (hd kv.1 (List.mem_cons_self _ _)), ih _ hn.2]
    · simp
    · intro k hk
      rw [List.map_append, List.mem_append]
      rintro (h | h)
      · exact hd k (List.mem_cons_of_mem _ hk) h
      · simp only [List.map_cons, List.map_nil, List.mem_singleton] at h
        exact hn.1 (h ▸ hk)

theorem mapOfList_of_nodup {α : Type} (kvs : List (String × α))
    (hn : (kvs.map Prod.fst).Nodup) : mapOfList kvs = kvs := by
  unfold mapOfList
  rw [foldl_mapSet_of_nodup kvs [] hn (fun _ _ => by simp)]
  rfl

theorem decodeMembers_spec (fmtFloat : String → Option String) (kvs : List (String × Json))
    (ms : List (String × GoVal)) (h : decodeMembers fmtFloat kvs = some ms) :
    ms.map Prod.fst = kvs.map Prod.fst ∧
      ∀ k j, (k, j) ∈ kvs → ∃ v, decodeAny fmtFloat j = some v ∧ (k, v) ∈ ms := by
  induction kvs generalizing ms with
  | nil =>
    simp only [decodeMembers, Option.some.injEq] at h
    subst h
    simp
  | cons kv kvs ih =>
    obtain ⟨k1, j1⟩ := kv
    simp only [decodeMembers] at h
    cases hv : decodeAny fmtFloat j1 with
    | none => simp [hv] at h
    | some v1 =>
      cases hr : decodeMembers fmtFloat kvs with
      | none => simp [hv, hr] at h
      | some ms1 =>
        simp only [hv, hr, Option.some.injEq] at h
        subst h
        obtain ⟨ih1, ih2⟩ := ih ms1 hr
        refine ⟨by simp [ih1], ?_⟩
        intro k j hmem
        rcases List.mem_cons.mp hmem with e | e
        · injection e with e1 e2
          subst e1 e2
          exact ⟨v1, hv, List.mem_cons_self _ _⟩
        · obtain ⟨v, hv2, hm2⟩ := ih2 k j e
          exact ⟨v, hv2, List.mem_cons_of_mem _ hm2⟩

theorem decodeAny_isNil (fmtFloat : String → Option String) (j : Json) (v : GoVal)
    (h : decodeAny fmtFloat j = some v) : v.isNil = true ↔ j = Json.null := by
  cases j with
  | null =>
    simp only [decodeAny, Option.some.injEq] at h
    subst h
    simp [GoVal.isNil]
  | bool b =>
    simp only [decodeAny, Option.some.injEq] at h
    subst h
    simp [GoVal.isNil]
  | num lit =>
    simp only [decodeAny] at h
    cases hf : fmtFloat lit with
    | none => simp [hf] at h
    | some s =>
      simp only [hf, Option.some.injEq] at h
      subst h
      simp [GoVal.isNil]
  | str s =>
    simp only [decodeAny, Option.some.injEq] at h
    subst h
    simp [GoVal.isNil]
  | arr xs =>
    simp only [decodeAny] at h
    cases hf : decodeList fmtFloat xs with
    | none => simp [hf] at h
    | some s =>
      simp only [hf, Option.some.injEq] at h
      subst h
      simp [GoVal.isNil]
  | obj kvs =>
    simp only [decodeAny] at h
    cases hf : decodeMembers fmtFloat kvs with
    | none => simp [hf] at h
    | some s =>
      simp only [hf, Option.some.injEq] at h
      subst h
      simp [GoVal.isNil]

/-! ## Facts about percent-encoding -/

theorem utf8Bytes_lt (c : Char) : ∀ b ∈ utf8Bytes c, b < 256 := by
  have hv : c.toNat < 0x110000 := by
    have := c.valid
    simp only [UInt32.isValidChar, Nat.isValidChar] at this
    have e : c.toNat = c.val.toNat := rfl
    omega
  intro b hb
  unfold utf8Bytes at hb
  split at hb
  · simp only [List.mem_singleton] at hb; omega
  · split at hb
    · simp only [List.mem_cons, List.mem_singleton, List.not_mem_nil, or_false] at hb
      omega
    · split at hb
      · simp only [List.mem_cons, List.mem_singleton, List.not_mem_nil, or_false] at hb
        omega
      · simp only [List.mem_cons, List.mem_singleton, List.not_mem_nil, or_false] at hb
        omega

theorem escapedChar_upperhex : ∀ n < 16, EscapedChar (upperhex n) := by decide

theorem escapedChar_unreserved :
    ∀ b < 127, unreservedByte b = true → EscapedChar (Char.ofNat b) := by
  decide

theorem unreservedByte_lt (b : Nat) (h : unreservedByte b = true) : b < 127 := by
  unfold unreservedByte at h
  simp only [Bool.or_eq_true, Bool.and_eq_true, decide_eq_true_eq] at h
  omega

theorem escapedChar_escapeByte (b : Nat) (hb : b < 256) : ∀ c ∈ escapeByte b, EscapedChar c := by
  intro c hc
  unfold escapeByte at hc
  split at hc
  · rename_i hu
    simp only [List.mem_singleton] at hc
    subst hc
    exact escapedChar_unreserved b (unreservedByte_lt b hu) hu
  · split at hc
    · simp only [List.mem_singleton] at hc
      subst hc
      decide
    · simp only [List.mem_cons, List.mem_singleton, List.not_mem_nil, or_false] at hc
      rcases hc with h | h | h
      · subst h; decide
      · subst h; exact escapedChar_upperhex _ (by omega)
      · subst h; exact escapedChar_upperhex _ (by omega)

theorem escapedChar_escapeBytes (bs : List Nat) (hb : ∀ b ∈ bs, b < 256) :
    ∀ c ∈ escapeBytes bs, EscapedChar c := by
  induction bs with
  | nil => intro c hc; simp [escapeBytes] at hc
  | cons b bs ih =>
    intro c hc
    simp only [escapeBytes, List.mem_append] at hc
    rcases hc with h | h
    · exact escapedChar_escapeByte b (hb b (List.mem_cons_self _ _)) c h
    · exact ih (fun b1 h1 => hb b1 (List.mem_cons_of_mem _ h1)) c h

theorem escapedChar_escapeChars (cs : List Char) : ∀ c ∈ escapeChars cs, EscapedChar c := by
  induction cs with
  | nil => intro c hc; simp [escapeChars] at hc
  | cons x xs ih =>
    intro c hc
    simp only [escapeChars, List.mem_append] at hc
    rcases hc with h | h
    · exact escapedChar_escapeBytes _ (utf8Bytes_lt x) c h
    · exact ih c h

theorem escapedChar_QueryEscape (s : String) : ∀ c ∈ (QueryEscape s).data, EscapedChar c :=
  escapedChar_escapeChars s.data

theorem queryChar_QueryEscape (s : String) : ∀ c ∈ (QueryEscape s).data, QueryChar c :=
  fun c hc => (escapedChar_QueryEscape s c hc).2.2

theorem intercalate_go_chars (sep acc : String) (l : List String) (P : Char → Prop)
    (hsep : ∀ c ∈ sep.data, P c) (hacc : ∀ c ∈ acc.data, P c)
    (hl : ∀ x ∈ l, ∀ c ∈ x.data, P c) :
    ∀ c ∈ (String.intercalate.go acc sep l).data, P c := by
  induction l generalizing acc with
  | nil => exact hacc
  | cons x xs ih =>
    simp only [String.intercalate.go]
    apply ih
    · intro c hc
      simp only [String.data_append, List.mem_append] at hc
      rcases hc with (h | h) | h
      · exact hacc c h
      · exact hsep c h
      · exact hl x (List.mem_cons_self _ _) c h
    · exact fun y hy => hl y (List.mem_cons_of_mem _ hy)

theorem intercalate_go_ne_empty (sep acc : String) (l : List String) (hacc : acc ≠ "") :
    String.intercalate.go acc sep l ≠ "" := by
  induction l generalizing acc with
  | nil => exact hacc
  | cons x xs ih =>
    simp only [String.intercalate.go]
    exact ih _ (string_append_ne_empty_left _ _ (string_append_ne_empty_left _ _ hacc))

theorem querySafe_encodePairs (ps : List (String × String)) :
    QuerySafe (encodePairs ps).data := by
  have key : ∀ c ∈ (encodePairs ps).data, QueryChar c := by
    unfold encodePairs
    cases ps with
    | nil => intro c hc; simp [String.intercalate] at hc
    | cons p ps =>
      simp only [List.map_cons, String.intercalate]
      have hitem : ∀ (q : String × String),
          ∀ c ∈ (QueryEscape q.1 ++ "=" ++ QueryEscape q.2).data, QueryChar c := by
        intro q c hc
        simp only [String.data_append, List.mem_append] at hc
        rcases hc with (h | h) | h
        · exact queryChar_QueryEscape _ c h
        · revert c; decide
        · exact queryChar_QueryEscape _ c h
      apply intercalate_go_chars "&" _ _ QueryChar
      · decide
      · exact hitem p
      · intro x hx
        obtain ⟨q, _, rfl⟩ := List.mem_map.mp hx
        exact hitem q
  exact key

theorem encodePairs_ne_empty (p : String × String) (ps : List (String × String)) :
    encodePairs (p :: ps) ≠ "" := by
  unfold encodePairs
  simp only [List.map_cons, String.intercalate]
  exact intercalate_go_ne_empty _ _ _
    (string_append_ne_empty_left _ _ (string_append_ne_empty_right _ _ (by decide)))

theorem splitOn_of_not_mem (sep : Char) (a : List Char) (h : sep ∉ a) : splitOn sep a = [a] := by
  induction a with
  | nil => rfl
  | cons c cs ih =>
    have hc : c ≠ sep := fun e => h (by simp [e])
    have hcs : sep ∉ cs := fun e => h (by simp [e])
    simp [splitOn, hc, ih hcs]

theorem splitOn_append_sep (sep : Char) (a rest : List Char) (h : sep ∉ a) :
    splitOn sep (a ++ sep :: rest) = a :: splitOn sep rest := by
  induction a with
  | nil => simp [splitOn]
  | cons c cs ih =>
    have hc : c ≠ sep := fun e => h (by simp [e])
    have hcs : sep ∉ cs := fun e => h (by simp [e])
    simp [splitOn, hc, ih hcs]

theorem intercalate_go_data (acc : String) (l : List String) :
    (String.intercalate.go acc "&" l).data =
      acc.data ++ (l.map (fun x => '&' :: x.data)).flatten := by
  induction l generalizing acc with
  | nil => simp [String.intercalate.go]
  | cons x xs ih =>
    simp only [String.intercalate.go, ih, String.data_append, List.map_cons, List.flatten_cons,
      List.append_assoc]
    rfl

theorem splitOn_joined (a : List Char) (l : List String) (ha : '&' ∉ a)
    (hl : ∀ x ∈ l, '&' ∉ x.data) :
    splitOn '&' (a ++ (l.map (fun x => '&' :: x.data)).flatten) = a :: l.map String.data := by
  induction l generalizing a with
  | nil => simpa using splitOn_of_not_mem '&' a ha
  | cons x xs ih =>
    simp only [List.map_cons, List.flatten_cons, List.cons_append]
    rw [splitOn_append_sep '&' a _ ha, ih x.data (hl x (List.mem_cons_self _ _))
      (fun y hy => hl y (List.mem_cons_of_mem _ hy))]

theorem item_no_amp (p : String × String) :
    '&' ∉ (QueryEscape p.1 ++ "=" ++ QueryEscape p.2).data := by
  intro h
  simp only [String.data_append, List.mem_append] at h
  rcases h with (h | h) | h
  · exact (escapedChar_QueryEscape _ _ h).1 rfl
  · revert h; decide
  · exact (escapedChar_QueryEscape _ _ h).1 rfl

theorem cut_item (p : String × String) :
    cut '=' (QueryEscape p.1 ++ "=" ++ QueryEscape p.2).data =
      ((QueryEscape p.1).data, (QueryEscape p.2).data, true) := by
  have h : (QueryEscape p.1 ++ "=" ++ QueryEscape p.2).data =
      (QueryEscape p.1).data ++ '=' :: (QueryEscape p.2).data := by
    simp [String.data_append]
  rw [h]
  exact cut_append_sep '=' _ _ (fun hm => (escapedChar_QueryEscape _ _ hm).2.1 rfl)

theorem rawPairs_of_encodePairs (ps : List (String × String)) :
    rawPairs (encodePairs ps) = ps.map (fun p => (QueryEscape p.1, QueryEscape p.2)) := by
  cases ps with
  | nil => rfl
  | cons p ps =>
    unfold rawPairs encodePairs
    simp only [List.map_cons, String.intercalate]
    rw [intercalate_go_data, splitOn_joined _ _ (item_no_amp p)
      (fun x hx => by
        obtain ⟨q, _, rfl⟩ := List.mem_map.mp hx
        exact item_no_amp q)]
    have hne : ∀ q : String × String,
        (QueryEscape q.1 ++ "=" ++ QueryEscape q.2).data.isEmpty = false := by
      intro q
      have : (QueryEscape q.1 ++ "=" ++ QueryEscape q.2).data =
          (QueryEscape q.1).data ++ '=' :: (QueryEscape q.2).data := by
        simp [String.data_append]
      rw [this]
      cases (QueryEscape q.1).data <;> rfl
    rw [List.filter_cons, hne p]
    simp only [Bool.not_false, if_true, List.map_cons, cut_item, List.cons.injEq, true_and]
    rw [List.filter_eq_self.mpr]
    · simp only [List.map_map]
      apply List.map_congr_left
      intro q _
      simp only [Function.comp, cut_item]
    · intro x hx
      obtain ⟨y, hy, rfl⟩ := List.mem_map.mp hx
      obtain ⟨q, _, rfl⟩ := List.mem_map.mp hy
      simp [hne q]

/-! ## The fuel of the parser is enough -/

theorem skipWs_length_le (cs : List Char) : (skipWs cs).length ≤ cs.length := by
  induction cs with
  | nil => simp [skipWs]
  | cons c cs ih =>
    simp only [skipWs]
    split
    · simp only [List.length_cons]; omega
    · simp

theorem takeDigits_length_le (cs : List Char) : (takeDigits cs).2.length ≤ cs.length := by
  induction cs with
  | nil => simp [takeDigits]
  | cons c cs ih =>
    simp only [takeDigits]
    split
    · simp only [List.length_cons]; omega
    · simp

theorem scanInt_length (cs a b : List Char) (h : scanInt cs = some (a, b)) :
    b.length < cs.length := by
  cases cs with
  | nil => simp [scanInt] at h
  | cons c r =>
    simp only [scanInt] at h
    split at h
    · simp only [Option.some.injEq, Prod.mk.injEq] at h
      rw [← h.2]; simp
    · split at h
      · simp only [Option.some.injEq, Prod.mk.injEq] at h
        have := takeDigits_length_le r
        rw [← h.2]; simp only [List.length_cons]; omega
      · simp at h

theorem scanFrac_length (cs a b : List Char) (h : scanFrac cs = some (a, b)) :
    b.length ≤ cs.length := by
  cases cs with
  | nil =>
    simp only [scanFrac, Option.some.injEq, Prod.mk.injEq] at h
    rw [← h.2]
  | cons c r =>
    simp only [scanFrac] at h
    split at h
    · split at h
      · simp at h
      · simp only [Option.some.injEq, Prod.mk.injEq] at h
        have := takeDigits_length_le r
        rw [← h.2]; simp only [List.length_cons]; omega
    · simp only [Option.some.injEq, Prod.mk.injEq] at h
      rw [← h.2]

theorem scanExpSign_length (cs : List Char) :
    (scanExp.scanExpSign cs).2.length ≤ cs.length := by
  cases cs with
  | nil => simp [scanExp.scanExpSign]
  | cons c r =>
    simp only [scanExp.scanExpSign]
    split <;> simp

theorem scanExp_length (cs a b : List Char) (h : scanExp cs = some (a, b)) :
    b.length ≤ cs.length := by
  cases cs with
  | nil =>
    simp only [scanExp, Option.some.injEq, Prod.mk.injEq] at h
    rw [← h.2]
  | cons c r =>
    simp only [scanExp] at h
    split at h
    · split at h
      · simp at h
      · simp only [Option.some.injEq, Prod.mk.injEq] at h
        have h1 := takeDigits_length_le (scanExp.scanExpSign r).2
        have h2 := scanExpSign_length r
        rw [← h.2]; simp only [List.length_cons]; omega
    · simp only [Option.some.injEq, Prod.mk.injEq] at h
      rw [← h.2]

theorem scanSign_length (cs : List Char) : (scanSign cs).2.length ≤ cs.length := by
  cases cs with
  | nil => simp [scanSign]
  | cons c r =>
    simp only [scanSign]
    split <;> simp

theorem parseNumber_length (cs a b : List Char) (h : parseNumber cs = some (a, b)) :
    b.length < cs.length := by
  unfold parseNumber at h
  cases hi : scanInt (scanSign cs).2 with
  | none => simp [hi] at h
  | some ir =>
    obtain ⟨i, r1⟩ := ir
    simp only [hi] at h
    cases hf : scanFrac r1 with
    | none => simp [hf] at h
    | some fr =>
      obtain ⟨f, r2⟩ := fr
      simp only [hf] at h
      cases he : scanExp r2 with
      | none => simp [he] at h
      | some er =>
        obtain ⟨e, r3⟩ := er
        simp only [he, Option.some.injEq, Prod.mk.injEq] at h
        have h1 := scanSign_length cs
        have h2 := scanInt_length _ _ _ hi
        have h3 := scanFrac_length _ _ _ hf
        have h4 := scanExp_length _ _ _ he
        rw [← h.2]
        omega

theorem parseString_length (fuel : Nat) (acc cs : List Char) (s : String) (r : List Char)
    (h : parseString fuel acc cs = some (s, r)) : r.length < cs.length := by
  induction fuel generalizing acc cs with
  | zero => simp [parseString] at h
  | succ f ih =>
    cases cs with
    | nil => simp [parseString] at h
    | cons c cs =>
      unfold parseString at h
      by_cases h1 : c = '"'
      · simp only [h1, if_true, Option.some.injEq, Prod.mk.injEq] at h
        rw [← h.2]; simp
      · simp only [h1, if_false] at h
        by_cases h2 : c = '\\'
        · simp only [h2, if_true] at h
          cases cs with
          | nil => simp at h
          | cons e r0 =>
            simp only at h
            have step : ∀ a, parseString f a r0 = some (s, r) →
                r.length < (c :: e :: r0).length := by
              intro a ha
              have := ih _ _ ha
              simp only [List.length_cons]; omega
            by_cases e1 : e = '"'
            · simp only [e1, if_true] at h; exact step _ h
            simp only [e1, if_false] at h
            by_cases e2 : e = '\\'
            · simp only [e2, if_true] at h; exact step _ h
            simp only [e2, if_false] at h
            by_cases e3 : e = '/'
            · simp only [e3, if_true] at h; exact step _ h
            simp only [e3, if_false] at h
            by_cases e4 : e = 'b'
            · simp only [e4, if_true] at h; exact step _ h
            simp only [e4, if_false] at h
            by_cases e5 : e = 'f'
            · simp only [e5, if_true] at h; exact step _ h
            simp only [e5, if_false] at h
            by_cases e6 : e = 'n'
            · simp only [e6, if_true] at h; exact step _ h
            simp only [e6, if_false] at h
            by_cases e7 : e = 'r'
            · simp only [e7, if_true] at h; exact step _ h
            simp only [e7, if_false] at h
            by_cases e8 : e = 't'
            · simp only [e8, if_true] at h; exact step _ h
            simp only [e8, if_false] at h
            by_cases e9 : e = 'u'
            · simp only [e9, if_true] at h
              split at h
              · rename_i a b c1 d r1
                have step1 : ∀ x, parseString f x r1 = some (s, r) →
                    r.length < (c :: e :: a :: b :: c1 :: d :: r1).length := by
                  intro x hx
                  have := ih _ _ hx
                  simp only [List.length_cons]; omega
                split at h
                · simp at h
                · split at h
                  · split at h
                    · split at h
                      · split at h
                        · have := ih _ _ h
                          simp only [List.length_cons] at this ⊢; omega
                        · exact step1 _ h
                      · exact step1 _ h
                    · exact step1 _ h
                  · exact step1 _ h
              · simp at h
            · simp only [e9, if_false] at h
              simp at h
        · simp only [h2, if_false] at h
          by_cases h3 : c.toNat < 32
          · simp [h3] at h
          · simp only [h3, if_false] at h
            have := ih _ _ h
            simp only [List.length_cons]; omega

/-- A parse never gives back more input than it was given. -/
theorem parse_length (fuel : Nat) :
    (∀ cs j r, parseValue fuel cs = some (j, r) → r.length ≤ cs.length) ∧
    (∀ cs js r, parseElements fuel cs = some (js, r) → r.length ≤ cs.length) ∧
    (∀ cs kvs r, parseMembers fuel cs = some (kvs, r) → r.length ≤ cs.length) := by
  induction fuel with
  | zero =>
    refine ⟨?_, ?_, ?_⟩ <;> intro cs j r h
    · simp [parseValue] at h
    · simp [parseElements] at h
    · simp [parseMembers] at h
  | succ f ih =>
    obtain ⟨ihV, ihE, ihM⟩ := ih
    refine ⟨?_, ?_, ?_⟩
    · intro cs j r h
      unfold parseValue at h
      have hws := skipWs_length_le cs
      cases hsk : skipWs cs with
      | nil => simp [hsk] at h
      | cons c t =>
        rw [hsk] at hws
        simp only [hsk, List.length_cons] at h hws
        have hws1 := skipWs_length_le t
        repeat' split at h
        all_goals
          first
          | (simp at h; done)
          | (simp only [Option.some.injEq, Prod.mk.injEq] at h
             rename_i heq
             have := congrArg List.length heq
             simp only [List.length_cons] at this
             rw [← h.2]; omega)
          | (simp only [Option.some.injEq, Prod.mk.injEq] at h
             rename_i heq
             first
             | (have hlen := ihM _ _ _ heq; rw [← h.2]; omega)
             | (have hlen := ihE _ _ _ heq; rw [← h.2]; omega)
             | (have hlen := parseString_length _ _ _ _ _ heq; rw [← h.2]; omega)
             | (have hlen := parseNumber_length _ _ _ heq; simp only [List.length_cons] at hlen; rw [← h.2]; omega))
          | (simp only [Option.some.injEq, Prod.mk.injEq] at h
             simp only [List.length_cons] at hws
             rw [← h.2]; omega)
    · intro cs js r h
      unfold parseElements at h
      cases hv : parseValue f cs with
      | none => simp [hv] at h
      | some vr =>
        obtain ⟨v, r0⟩ := vr
        simp only [hv] at h
        have h0 := ihV _ _ _ hv
        have hws := skipWs_length_le r0
        repeat' split at h
        all_goals
          first
          | (simp at h; done)
          | (simp only [Option.some.injEq, Prod.mk.injEq] at h
             rename_i _ _ hsk _ _ _ heq
             have h1 := ihE _ _ _ heq
             rw [hsk] at hws
             simp only [List.length_cons] at hws
             rw [← h.2]; omega)
          | (simp only [Option.some.injEq, Prod.mk.injEq] at h
             rename_i _ _ hsk
             rw [hsk] at hws
             simp only [List.length_cons] at hws
             rw [← h.2]; omega)
    · intro cs kvs r h
      unfold parseMembers at h
      have hws := skipWs_length_le cs
      split at h
      · rename_i t hsk
        rw [hsk] at hws
        simp only [List.length_cons] at hws
        cases hs : parseString (t.length + 1) [] t with
        | none => simp [hs] at h
        | some kr =>
          obtain ⟨k, r1⟩ := kr
          simp only [hs] at h
          have hs1 := parseString_length _ _ _ _ _ hs
          have hws1 := skipWs_length_le r1
          split at h
          · rename_i r2 hsk1
            rw [hsk1] at hws1
            simp only [List.length_cons] at hws1
            cases hv : parseValue f r2 with
            | none => simp [hv] at h
            | some vr =>
              obtain ⟨v, r3⟩ := vr
              simp only [hv] at h
              have h3 := ihV _ _ _ hv
              have hws3 := skipWs_length_le r3
              repeat' split at h
              all_goals
                first
                | (simp at h; done)
                | (simp only [Option.some.injEq, Prod.mk.injEq] at h
                   rename_i _ _ hsk3 _ _ _ heq
                   have h4 := ihM _ _ _ heq
                   rw [hsk3] at hws3
                   simp only [List.length_cons] at hws3
                   rw [← h.2]; omega)
                | (simp only [Option.some.injEq, Prod.mk.injEq] at h
                   rename_i _ _ hsk3
                   rw [hsk3] at hws3
                   simp only [List.length_cons] at hws3
                   rw [← h.2]; omega)
          · simp at h
      · simp at h

/-- Above a threshold linear in the length of the input the result of the
parser does not depend on the fuel. -/
theorem parse_fuel_stable (f1 : Nat) :
    (∀ f2 cs, 2 * cs.length + 1 ≤ f1 → 2 * cs.length + 1 ≤ f2 →
      parseValue f1 cs = parseValue f2 cs) ∧
    (∀ f2 cs, 2 * cs.length + 2 ≤ f1 → 2 * cs.length + 2 ≤ f2 →
      parseElements f1 cs = parseElements f2 cs) ∧
    (∀ f2 cs, 2 * cs.length + 2 ≤ f1 → 2 * cs.length + 2 ≤ f2 →
      parseMembers f1 cs = parseMembers f2 cs) := by
  induction f1 with
  | zero =>
    refine ⟨?_, ?_, ?_⟩ <;> intro f2 cs h1 h2 <;> omega
  | succ a ih =>
    obtain ⟨ihV, ihE, ihM⟩ := ih
    refine ⟨?_, ?_, ?_⟩
    · intro f2 cs h1 h2
      obtain ⟨b, rfl⟩ : ∃ b, f2 = b + 1 := ⟨f2 - 1, by omega⟩
      unfold parseValue
      have hws := skipWs_length_le cs
      cases hsk : skipWs cs with
      | nil => rfl
      | cons c t =>
        rw [hsk] at hws
        simp only [List.length_cons] at hws
        simp only
        rw [ihM b t (by omega) (by omega), ihE b t (by omega) (by omega)]
    · intro f2 cs h1 h2
      obtain ⟨b, rfl⟩ : ∃ b, f2 = b + 1 := ⟨f2 - 1, by omega⟩
      unfold parseElements
      rw [ihV b cs (by omega) (by omega)]
      cases hv : parseValue b cs with
      | none => rfl
      | some vr =>
        obtain ⟨v, r0⟩ := vr
        have h0 := (parse_length b).1 _ _ _ hv
        have hws := skipWs_length_le r0
        simp only
        split
        · rename_i hsk
          rw [hsk] at hws
          simp only [List.length_cons] at hws
          rw [ihE b _ (by omega) (by omega)]
        · rfl
        · rfl
    · intro f2 cs h1 h2
      obtain ⟨b, rfl⟩ : ∃ b, f2 = b + 1 := ⟨f2 - 1, by omega⟩
      unfold parseMembers
      have hws := skipWs_length_le cs
      split
      · rename_i t hsk
        rw [hsk] at hws
        simp only [List.length_cons] at hws
        cases hs : parseString (t.length + 1) [] t with
        | none => rfl
        | some kr =>
          obtain ⟨k, r1⟩ := kr
          have hs1 := parseString_length _ _ _ _ _ hs
          have hws1 := skipWs_length_le r1
          simp only
          split
          · rename_i r2 hsk1
            rw [hsk1] at hws1
            simp only [List.length_cons] at hws1
            rw [ihV b r2 (by omega) (by omega)]
            cases hv : parseValue b r2 with
            | none => rfl
            | some vr =>
              obtain ⟨v, r3⟩ := vr
              have h3 := (parse_length b).1 _ _ _ hv
              have hws3 := skipWs_length_le r3
              simp only
              split
              · rename_i hsk3
                rw [hsk3] at hws3
                simp only [List.length_cons] at hws3
                rw [ihM b _ (by omega) (by omega)]
              · rfl
              · rfl
          · rfl
      · rfl

/-- The fuel of `parseJson` is enough: any larger fuel gives the same result,
so a `none` of `parseJson` is a syntax error and never a lack of fuel. -/
theorem parseValue_fuel (cs : List Char) (fuel : Nat) (h : 2 * cs.length + 2 ≤ fuel) :
    parseValue fuel cs = parseValue (2 * cs.length + 2) cs :=
  (parse_fuel_stable fuel).1 _ cs (by omega) (by omega)

/-! ## Reading back what `json.Marshal` writes -/

theorem takeDigits_append (l rest : List Char)
    (h : (takeDigits l).2 = [] → stopsNumber rest = true) :
    takeDigits (l ++ rest) = ((takeDigits l).1, (takeDigits l).2 ++ rest) := by
  induction l with
  | nil =>
    have hs := h rfl
    cases rest with
    | nil => rfl
    | cons c r =>
      simp only [stopsNumber, Bool.not_eq_true', Bool.or_eq_false_iff] at hs
      simp [takeDigits, hs.1.1.1]
  | cons c cs ih =>
    by_cases hd : isDigit c = true
    · have h2 : (takeDigits cs).2 = [] → stopsNumber rest = true := by
        intro e; apply h; simp [takeDigits, hd, e]
      simp [takeDigits, hd, ih h2]
    · simp [takeDigits, hd]

theorem scanInt_append (l rest a b : List Char) (h : scanInt l = some (a, b))
    (hs : b = [] → stopsNumber rest = true) : scanInt (l ++ rest) = some (a, b ++ rest) := by
  cases l with
  | nil => simp [scanInt] at h
  | cons c r =>
    simp only [scanInt, List.cons_append] at h ⊢
    by_cases h0 : c = '0'
    · simp only [h0, if_true, Option.some.injEq, Prod.mk.injEq] at h ⊢
      exact ⟨h.1, by rw [h.2]⟩
    · simp only [h0, if_false] at h ⊢
      by_cases hd : isDigit c = true
      · simp only [hd, if_true, Option.some.injEq, Prod.mk.injEq] at h ⊢
        obtain ⟨h1, h2⟩ := h
        rw [takeDigits_append r rest (fun e => hs (h2 ▸ e))]
        exact ⟨h1, by rw [h2]⟩
      · simp [hd] at h

theorem scanFrac_append (l rest a b : List Char) (h : scanFrac l = some (a, b))
    (hs : b = [] → stopsNumber rest = true) : scanFrac (l ++ rest) = some (a, b ++ rest) := by
  cases l with
  | nil =>
    simp only [scanFrac, Option.some.injEq, Prod.mk.injEq] at h
    obtain ⟨h1, h2⟩ := h
    subst h1 h2
    have hs2 := hs rfl
    cases rest with
    | nil => rfl
    | cons c r =>
      simp only [stopsNumber, Bool.not_eq_true', Bool.or_eq_false_iff,
        decide_eq_false_iff_not] at hs2
      simp [scanFrac, hs2.1.1.2]
  | cons c r =>
    simp only [scanFrac, List.cons_append] at h ⊢
    by_cases hc : c = '.'
    · simp only [hc, if_true] at h ⊢
      by_cases he : (takeDigits r).1 = []
      · simp [he] at h
      · simp only [he, if_false, Option.some.injEq, Prod.mk.injEq] at h
        obtain ⟨h1, h2⟩ := h
        rw [takeDigits_append r rest (fun e => hs (h2 ▸ e))]
        simp only [he, if_false, Option.some.injEq, Prod.mk.injEq]
        exact ⟨h1, by rw [h2]⟩
    · simp only [hc, if_false, Option.some.injEq, Prod.mk.injEq] at h ⊢
      obtain ⟨h1, h2⟩ := h
      subst h1 h2
      simp

theorem scanExp_append (l rest a b : List Char) (h : scanExp l = some (a, b))
    (hs : b = [] → stopsNumber rest = true) : scanExp (l ++ rest) = some (a, b ++ rest) := by
  cases l with
  | nil =>
    simp only [scanExp, Option.some.injEq, Prod.mk.injEq] at h
    obtain ⟨h1, h2⟩ := h
    subst h1 h2
    have hs2 := hs rfl
    cases rest with
    | nil => rfl
    | cons c r =>
      simp only [stopsNumber, Bool.not_eq_true', Bool.or_eq_false_iff,
        decide_eq_false_iff_not] at hs2
      simp [scanExp, hs2.1.2, hs2.2]
  | cons c r =>
    simp only [scanExp, List.cons_append] at h ⊢
    by_cases hc : c = 'e' ∨ c = 'E'
    · simp only [hc, if_true] at h ⊢
      by_cases he : (takeDigits (scanExp.scanExpSign r).2).1 = []
      · simp [he] at h
      · simp only [he, if_false, Option.some.injEq, Prod.mk.injEq] at h
        obtain ⟨h1, h2⟩ := h
        have hr : r ≠ [] := by
          intro e
          subst e
          simp [scanExp.scanExpSign, takeDigits] at he
        obtain ⟨d, r', rfl⟩ := List.exists_cons_of_ne_nil hr
        have hsg : scanExp.scanExpSign (d :: r' ++ rest) =
            ((scanExp.scanExpSign (d :: r')).1, (scanExp.scanExpSign (d :: r')).2 ++ rest) := by
          simp only [scanExp.scanExpSign, List.cons_append]
          split <;> simp
        rw [hsg]
        simp only
        rw [takeDigits_append _ rest (fun e => hs (h2 ▸ e))]
        simp only [he, if_false, Option.some.injEq, Prod.mk.injEq]
        exact ⟨h1, by rw [h2]⟩
    · simp only [hc, if_false, Option.some.injEq, Prod.mk.injEq] at h ⊢
      obtain ⟨h1, h2⟩ := h
      subst h1 h2
      simp

theorem scanFrac_nil (a b : List Char) (h : scanFrac [] = some (a, b)) : b = [] := by
  simp only [scanFrac, Option.some.injEq, Prod.mk.injEq] at h
  exact h.2.symm

theorem scanExp_nil (a b : List Char) (h : scanExp [] = some (a, b)) : b = [] := by
  simp only [scanExp, Option.some.injEq, Prod.mk.injEq] at h
  exact h.2.symm

theorem parseNumber_append (l rest a b : List Char) (h : parseNumber l = some (a, b))
    (hs : b = [] → stopsNumber rest = true) :
    parseNumber (l ++ rest) = some (a, b ++ rest) := by
  unfold parseNumber at h ⊢
  cases l with
  | nil => simp [scanSign, scanInt] at h
  | cons c cs =>
    have hsign : scanSign (c :: cs ++ rest) =
        ((scanSign (c :: cs)).1, (scanSign (c :: cs)).2 ++ rest) := by
      simp only [scanSign, List.cons_append]
      split <;> simp
    rw [hsign]
    simp only
    cases hi : scanInt (scanSign (c :: cs)).2 with
    | none => simp [hi] at h
    | some ir =>
      obtain ⟨i, r1⟩ := ir
      simp only [hi] at h
      cases hf : scanFrac r1 with
      | none => simp [hf] at h
      | some fr =>
        obtain ⟨f, r2⟩ := fr
        simp only [hf] at h
        cases he : scanExp r2 with
        | none => simp [he] at h
        | some er =>
          obtain ⟨e, r3⟩ := er
          simp only [he, Option.some.injEq, Prod.mk.injEq] at h
          obtain ⟨h1, h2⟩ := h
          subst h2
          have hs3 : r3 = [] → stopsNumber rest = true := hs
          have hs2 : r2 = [] → stopsNumber rest = true := by
            intro e2; subst e2; exact hs3 (scanExp_nil _ _ he)
          have hs1 : r1 = [] → stopsNumber rest = true := by
            intro e1; subst e1; exact hs2 (scanFrac_nil _ _ hf)
          rw [scanInt_append _ rest i r1 hi hs1]
          simp only
          rw [scanFrac_append _ rest f r2 hf hs2]
          simp only
          rw [scanExp_append _ rest e r3 he hs3]
          simp only [Option.some.injEq, Prod.mk.injEq]
          exact ⟨h1, trivial⟩

theorem validNumber_append (lit : String) (rest : List Char) (h : ValidNumber lit)
    (hs : stopsNumber rest = true) : parseNumber (lit.data ++ rest) = some (lit.data, rest) := by
  have := parseNumber_append lit.data rest lit.data [] h (fun _ => hs)
  simpa using this

theorem validNumber_head (lit : String) (h : ValidNumber lit) :
    ∃ c r, lit.data = c :: r ∧ (c = '-' ∨ isDigit c = true) := by
  unfold ValidNumber parseNumber at h
  cases hl : lit.data with
  | nil => simp [hl, scanSign, scanInt] at h
  | cons c r =>
    refine ⟨c, r, rfl, ?_⟩
    by_cases hc : c = '-'
    · exact Or.inl hc
    · right
      rw [hl] at h
      simp only [scanSign, hc, if_false] at h
      simp only [scanInt] at h
      by_cases h0 : c = '0'
      · subst h0; decide
      · by_cases hd : isDigit c = true
        · exact hd
        · simp [h0, hd] at h
theorem hexVal_lowerhex : ∀ k < 16, hexVal (lowerhex k) = some k := by decide

theorem hex4_low (n : Nat) (hn : n < 256) :
    hex4 '0' '0' (lowerhex (n / 16)) (lowerhex (n % 16)) = some n := by
  have h1 := hexVal_lowerhex (n / 16) (by omega)
  have h2 := hexVal_lowerhex (n % 16) (by omega)
  have h0 : hexVal '0' = some 0 := by decide
  simp only [hex4, h0, h1, h2, Option.some.injEq]
  omega

theorem parseString_step (c : Char) (acc tail : List Char) (f : Nat) :
    parseString (f + 1) acc (escapeJsonChar c ++ tail) = parseString f (c :: acc) tail := by
  unfold escapeJsonChar
  by_cases h1 : c = '"'
  · subst h1; simp [parseString]
  · by_cases h2 : c = '\\'
    · subst h2; simp [parseString]
    · by_cases h3 : c = Char.ofNat 8
      · subst h3; simp [parseString]
      · by_cases h4 : c = Char.ofNat 12
        · subst h4; simp [parseString]
        · by_cases h5 : c = '\n'
          · subst h5; simp [parseString]
          · by_cases h6 : c = '\r'
            · subst h6; simp [parseString]
            · by_cases h7 : c = '\t'
              · subst h7; simp [parseString]
              · by_cases h8 : c.toNat < 0x20 ∨ c = '<' ∨ c = '>' ∨ c = '&'
                · have hn : c.toNat < 256 := by
                    rcases h8 with h | h | h | h
                    · omega
                    · subst h; decide
                    · subst h; decide
                    · subst h; decide
                  have hsur : ¬ (0xD800 ≤ c.toNat ∧ c.toNat < 0xE000) := by omega
                  simp only [h1, h2, h3, h4, h5, h6, h7, h8, if_false, if_true,
                    List.cons_append, List.nil_append]
                  simp [parseString, hex4_low c.toNat hn, hsur, Char.ofNat_toNat]
                · by_cases h9 : c = Char.ofNat 0x2028
                  · subst h9
                    have hx : hex4 '2' '0' '2' '8' = some 0x2028 := by decide
                    simp [parseString, hx]
                  · by_cases h10 : c = Char.ofNat 0x2029
                    · subst h10
                      have hx : hex4 '2' '0' '2' '9' = some 0x2029 := by decide
                      simp [parseString, hx]
                    · have hlt : ¬ c.toNat < 0x20 := fun h => h8 (Or.inl h)
                      simp only [h1, h2, h3, h4, h5, h6, h7, h8, h9, h10, if_false,
                        List.cons_append, List.nil_append]
                      simp [parseString, h1, h2, hlt]

theorem parseString_escape (s acc rest : List Char) (fuel : Nat) (hf : s.length + 1 ≤ fuel) :
    parseString fuel acc (escapeJsonChars s ++ '"' :: rest) =
      some (String.mk (acc.reverse ++ s), rest) := by
  induction s generalizing acc fuel with
  | nil =>
    obtain ⟨f, rfl⟩ : ∃ f, fuel = f + 1 := ⟨fuel - 1, by simp at hf; omega⟩
    simp [escapeJsonChars, parseString]
  | cons c cs ih =>
    obtain ⟨f, rfl⟩ : ∃ f, fuel = f + 1 := ⟨fuel - 1, by simp at hf; omega⟩
    simp only [escapeJsonChars, List.append_assoc]
    rw [parseString_step, ih (c :: acc) f (by simp at hf ⊢; omega)]
    simp

theorem length_escapeJsonChars (s : List Char) : s.length ≤ (escapeJsonChars s).length := by
  induction s with
  | nil => simp [escapeJsonChars]
  | cons c cs ih =>
    have : 1 ≤ (escapeJsonChar c).length := by
      unfold escapeJsonChar
      repeat' split
      all_goals simp
    simp only [escapeJsonChars, List.length_append, List.length_cons]
    omega
theorem numberHead_facts (c : Char) (h : c = '-' ∨ isDigit c = true) :
    isWs c = false ∧ c ≠ '{' ∧ c ≠ '[' ∧ c ≠ '"' ∧ c ≠ 't' ∧ c ≠ 'f' ∧ c ≠ 'n' ∧ c ≠ ']' ∧
      c ≠ '}' := by
  have key : ∀ d : Char, (d = ' ' ∨ d = '\t' ∨ d = '\r' ∨ d = '\n' ∨ d = '{' ∨ d = '[' ∨
      d = '"' ∨ d = 't' ∨ d = 'f' ∨ d = 'n' ∨ d = ']' ∨ d = '}') →
      ¬ (d = '-' ∨ isDigit d = true) := by
    intro d hd
    rcases hd with h | h | h | h | h | h | h | h | h | h | h | h <;> subst h <;> decide
  refine ⟨?_, ?_, ?_, ?_, ?_, ?_, ?_, ?_, ?_⟩
  · cases hw : isWs c with
    | false => rfl
    | true =>
      simp only [isWs, Bool.or_eq_true, decide_eq_true_eq] at hw
      exact absurd h (key c (by tauto))
  all_goals
    intro e
    exact absurd h (key c (by simp [e]))

theorem renderValue_head (j : Json) (hw : WellFormed j) :
    ∃ c r, renderValue j = c :: r ∧ isWs c = false ∧ c ≠ ']' ∧ c ≠ '}' := by
  cases j with
  | null => exact ⟨'n', _, rfl, by decide, by decide, by decide⟩
  | bool b =>
    cases b
    · exact ⟨'f', _, rfl, by decide, by decide, by decide⟩
    · exact ⟨'t', _, rfl, by decide, by decide, by decide⟩
  | num lit =>
    simp only [WellFormed] at hw
    obtain ⟨c, r, hl, hc⟩ := validNumber_head lit hw
    have := numberHead_facts c hc
    exact ⟨c, r, by simp [renderValue, hl], this.1, this.2.2.2.2.2.2.2.1, this.2.2.2.2.2.2.2.2⟩
  | str s => exact ⟨'"', _, rfl, by decide, by decide, by decide⟩
  | arr xs => exact ⟨'[', _, rfl, by decide, by decide, by decide⟩
  | obj kvs => exact ⟨'{', _, rfl, by decide, by decide, by decide⟩

theorem skipWs_cons (c : Char) (r : List Char) (h : isWs c = false) :
    skipWs (c :: r) = c :: r := by
  simp [skipWs, h]

theorem parseString_quoted (k : String) (tail : List Char) (fuel : Nat)
    (hf : (escapeJsonChars k.data ++ '"' :: tail).length + 1 ≤ fuel) :
    parseString fuel [] (escapeJsonChars k.data ++ '"' :: tail) = some (k, tail) := by
  have hp := parseString_escape k.data [] tail fuel
    (by
      have := length_escapeJsonChars k.data
      simp only [List.length_append, List.length_cons] at hf
      omega)
  rw [hp]
  rfl

theorem parseValue_str (s : String) (rest : List Char) (f : Nat) :
    parseValue (f + 1) (quoteJson s ++ rest) = some (Json.str s, rest) := by
  simp only [quoteJson, List.cons_append, List.append_assoc, List.singleton_append,
    List.nil_append]
  rw [parseValue, skipWs_cons _ _ (by decide)]
  simp only [Char.reduceEq, if_false, if_true]
  rw [parseString_quoted s rest _ (Nat.le_refl _)]
theorem stopsNumber_comma (r : List Char) : stopsNumber (',' :: r) = true := rfl

theorem stopsNumber_bracket (r : List Char) : stopsNumber (']' :: r) = true := rfl

theorem stopsNumber_brace (r : List Char) : stopsNumber ('}' :: r) = true := rfl

theorem renderElements_single (x : Json) : renderElements [x] = renderValue x := by
  simp [renderElements]

theorem renderElements_cons_cons (x y : Json) (ys : List Json) :
    renderElements (x :: y :: ys) = renderValue x ++ ',' :: renderElements (y :: ys) := by
  rw [renderElements]

theorem renderMembers_single (k : String) (x : Json) :
    renderMembers [(k, x)] = quoteJson k ++ ':' :: renderValue x := by
  simp [renderMembers]

theorem renderMembers_cons_cons (k : String) (x : Json) (kv : String × Json)
    (kvs : List (String × Json)) :
    renderMembers ((k, x) :: kv :: kvs) =
      quoteJson k ++ ':' :: renderValue x ++ ',' :: renderMembers (kv :: kvs) := by
  rw [renderMembers]

mutual
theorem parseValue_render (j : Json) (hw : WellFormed j) (rest : List Char)
    (hs : stopsNumber rest = true) (f : Nat) (hf : fuelNeed j ≤ f + 1) :
    parseValue (f + 1) (renderValue j ++ rest) = some (j, rest) :=
  match j, hw, hf with
  | Json.null, _, _ => by
    simp [renderValue, parseValue, skipWs, isWs]
  | Json.bool true, _, _ => by
    simp [renderValue, parseValue, skipWs, isWs]
  | Json.bool false, _, _ => by
    simp [renderValue, parseValue, skipWs, isWs]
  | Json.num lit, hw, _ => by
    simp only [WellFormed] at hw
    obtain ⟨c, r, hl, hc⟩ := validNumber_head lit hw
    have hfacts := numberHead_facts c hc
    have hp := validNumber_append lit rest hw hs
    simp only [renderValue]
    rw [hl] at hp ⊢
    rw [List.cons_append] at hp ⊢
    rw [parseValue, skipWs_cons _ _ hfacts.1]
    simp only [hfacts.2.1, hfacts.2.2.1, hfacts.2.2.2.1, hfacts.2.2.2.2.1, hfacts.2.2.2.2.2.1,
      hfacts.2.2.2.2.2.2.1, if_false, hp]
    rw [← hl]
  | Json.str s, _, _ => by
    simp only [renderValue]
    exact parseValue_str s rest f
  | Json.arr [], _, _ => by
    simp [renderValue, renderElements, parseValue, skipWs, isWs]
  | Json.arr (x :: xs), hw, hf => by
    simp only [WellFormed] at hw
    simp only [fuelNeed] at hf
    obtain ⟨g, rfl⟩ : ∃ g, f = g + 1 := ⟨f - 1, by simp only [fuelList] at hf; omega⟩
    have he := parseElements_render (x :: xs) (List.cons_ne_nil _ _) hw rest g (by omega)
    obtain ⟨c, r, hc, hws, hb1, _⟩ : ∃ c r, renderElements (x :: xs) = c :: r ∧
        isWs c = false ∧ c ≠ ']' ∧ c ≠ '}' := by
      obtain ⟨c, r, h1, h2, h3, h4⟩ := renderValue_head x hw.1
      cases xs with
      | nil => exact ⟨c, r, by simp [renderElements, h1], h2, h3, h4⟩
      | cons y ys => exact ⟨c, _, by simp [renderElements, h1]; rfl, h2, h3, h4⟩
    simp only [renderValue, List.cons_append, List.append_assoc, List.singleton_append,
      List.nil_append]
    rw [parseValue, skipWs_cons _ _ (by decide)]
    simp only [Char.reduceEq, if_false, if_true]
    rw [he]
    rw [hc, List.cons_append, skipWs_cons _ _ hws]
    split
    · rename_i heq
      simp only [List.cons.injEq] at heq
      exact absurd heq.1 hb1
    · rfl
  | Json.obj [], _, _ => by
    simp [renderValue, renderMembers, parseValue, skipWs, isWs]
  | Json.obj (kv :: kvs), hw, hf => by
    simp only [WellFormed] at hw
    simp only [fuelNeed] at hf
    obtain ⟨g, rfl⟩ : ∃ g, f = g + 1 :=
      ⟨f - 1, by obtain ⟨k, x⟩ := kv; simp only [fuelMembers] at hf; omega⟩
    have he := parseMembers_render (kv :: kvs) (List.cons_ne_nil _ _) hw rest g (by omega)
    obtain ⟨r, hc⟩ : ∃ r, renderMembers (kv :: kvs) = '"' :: r := by
      obtain ⟨k, x⟩ := kv
      cases kvs with
      | nil => exact ⟨_, by simp [renderMembers, quoteJson]; rfl⟩
      | cons y ys => exact ⟨_, by simp [renderMembers, quoteJson]; rfl⟩
    simp only [renderValue, List.cons_append, List.append_assoc, List.singleton_append,
      List.nil_append]
    rw [parseValue, skipWs_cons _ _ (by decide)]
    simp only [Char.reduceEq, if_false, if_true]
    rw [he]
    rw [hc, List.cons_append, skipWs_cons _ _ (by decide)]
    split
    · rename_i heq
      simp only [List.cons.injEq] at heq
      exact absurd heq.1 (by decide)
    · rfl
theorem parseElements_render (xs : List Json) (hne : xs ≠ []) (hw : WellFormedList xs)
    (rest : List Char) (f : Nat) (hf : fuelList xs ≤ f + 1) :
    parseElements (f + 1) (renderElements xs ++ ']' :: rest) = some (xs, rest) :=
  match xs, hne, hw, hf with
  | [x], _, hw, hf => by
    simp only [WellFormedList] at hw
    simp only [fuelList] at hf
    obtain ⟨g, rfl⟩ : ∃ g, f = g + 1 := ⟨f - 1, by
      have : 1 ≤ fuelNeed x := by cases x <;> simp [fuelNeed]
      omega⟩
    have hv := parseValue_render x hw.1 (']' :: rest) (stopsNumber_bracket rest) g (by omega)
    rw [renderElements_single, parseElements, hv]
    simp [skipWs, isWs]
  | x :: y :: ys, _, hw, hf => by
    simp only [WellFormedList] at hw
    simp only [fuelList] at hf
    obtain ⟨g, rfl⟩ : ∃ g, f = g + 1 := ⟨f - 1, by omega⟩
    have hv := parseValue_render x hw.1 (',' :: (renderElements (y :: ys) ++ ']' :: rest))
      (stopsNumber_comma _) g (by omega)
    have he := parseElements_render (y :: ys) (List.cons_ne_nil _ _)
      (by simp only [WellFormedList]; exact hw.2) rest g (by simp only [fuelList]; omega)
    rw [renderElements_cons_cons]
    simp only [List.append_assoc, List.cons_append]
    rw [parseElements, hv]
    simp only [skipWs, isWs, Char.reduceEq, decide_False, Bool.or_self, Bool.false_eq_true,
      if_false]
    rw [he]
theorem parseMembers_render (kvs : List (String × Json)) (hne : kvs ≠ [])
    (hw : WellFormedMembers kvs) (rest : List Char) (f : Nat) (hf : fuelMembers kvs ≤ f + 1) :
    parseMembers (f + 1) (renderMembers kvs ++ '}' :: rest) = some (kvs, rest) :=
  match kvs, hne, hw, hf with
  | [(k, x)], _, hw, hf => by
    simp only [WellFormedMembers] at hw
    simp only [fuelMembers] at hf
    obtain ⟨g, rfl⟩ : ∃ g, f = g + 1 := ⟨f - 1, by
      have : 1 ≤ fuelNeed x := by cases x <;> simp [fuelNeed]
      omega⟩
    have hv := parseValue_render x hw.1 ('}' :: rest) (stopsNumber_brace rest) g (by omega)
    rw [renderMembers_single]
    simp only [quoteJson, List.append_assoc, List.cons_append,
      List.singleton_append, List.nil_append]
    rw [parseMembers, skipWs_cons _ _ (by decide)]
    simp only
    rw [parseString_quoted k _ _ (Nat.le_refl _)]
    simp only [skipWs, isWs, Char.reduceEq, decide_False, Bool.or_self, Bool.false_eq_true,
      if_false]
    rw [hv]
    simp [skipWs, isWs]
  | (k, x) :: kv :: kvs, _, hw, hf => by
    simp only [WellFormedMembers] at hw
    simp only [fuelMembers] at hf
    obtain ⟨g, rfl⟩ : ∃ g, f = g + 1 := ⟨f - 1, by omega⟩
    have hv := parseValue_render x hw.1 (',' :: (renderMembers (kv :: kvs) ++ '}' :: rest))
      (stopsNumber_comma _) g (by omega)
    have he := parseMembers_render (kv :: kvs) (List.cons_ne_nil _ _)
      (by obtain ⟨k2, x2⟩ := kv; simp only [WellFormedMembers]; exact hw.2) rest g
      (by obtain ⟨k2, x2⟩ := kv; simp only [fuelMembers] at hf ⊢; omega)
    rw [renderMembers_cons_cons]
    simp only [quoteJson, List.append_assoc, List.cons_append,
      List.singleton_append, List.nil_append]
    rw [parseMembers, skipWs_cons _ _ (by decide)]
    simp only
    rw [parseString_quoted k _ _ (Nat.le_refl _)]
    simp only [skipWs, isWs, Char.reduceEq, decide_False, Bool.or_self, Bool.false_eq_true,
      if_false]
    rw [hv]
    simp only [skipWs, isWs, Char.reduceEq, decide_False, Bool.or_self, Bool.false_eq_true,
      if_false]
    rw [he]
end
mutual
theorem fuelNeed_le (j : Json) : fuelNeed j ≤ 2 * (renderValue j).length + 1 :=
  match j with
  | Json.null => by simp [fuelNeed]
  | Json.bool _ => by simp [fuelNeed]
  | Json.num _ => by simp [fuelNeed]
  | Json.str _ => by simp [fuelNeed]
  | Json.arr xs => by
    have := fuelList_le xs
    simp only [fuelNeed, renderValue, List.length_cons, List.length_append, List.length_nil]
    omega
  | Json.obj kvs => by
    have := fuelMembers_le kvs
    simp only [fuelNeed, renderValue, List.length_cons, List.length_append, List.length_nil]
    omega
theorem fuelList_le (xs : List Json) : fuelList xs ≤ 2 * (renderElements xs).length + 2 :=
  match xs with
  | [] => by simp [fuelList]
  | [x] => by
    have := fuelNeed_le x
    rw [renderElements_single]
    simp only [fuelList]
    omega
  | x :: y :: ys => by
    have h1 := fuelNeed_le x
    have h2 := fuelList_le (y :: ys)
    rw [renderElements_cons_cons]
    simp only [fuelList, List.length_append, List.length_cons] at h2 ⊢
    omega
theorem fuelMembers_le (kvs : List (String × Json)) :
    fuelMembers kvs ≤ 2 * (renderMembers kvs).length + 2 :=
  match kvs with
  | [] => by simp [fuelMembers]
  | [(k, x)] => by
    have := fuelNeed_le x
    rw [renderMembers_single]
    simp only [fuelMembers, List.length_append, List.length_cons]
    omega
  | (k, x) :: (k2, x2) :: kvs => by
    have h1 := fuelNeed_le x
    have h2 := fuelMembers_le ((k2, x2) :: kvs)
    rw [renderMembers_cons_cons]
    simp only [fuelMembers, List.length_append, List.length_cons] at h2 ⊢
    omega
end

/-- What `json.Marshal` writes for a document reads back as that document. -/
theorem parseJson_renderJson (j : Json) (hw : WellFormed j) :
    parseJson (renderJson j) = some j := by
  have h := parseValue_render j hw [] rfl (2 * (renderValue j).length + 1)
    (by have := fuelNeed_le j; omega)
  rw [List.append_nil] at h
  unfold parseJson renderJson
  have hl : (String.mk (renderValue j)).length = (renderValue j).length := rfl
  rw [hl, h]
  simp [skipWs]

/-- The empty text is not a JSON document. -/
theorem parseJson_empty : parseJson "" = none := rfl

/-! ## The requests of GET and POST calls -/

theorem isNil_eq_false_iff (v : GoVal) : v.isNil = false ↔ v ≠ GoVal.nil := by
  cases v <;> simp [GoVal.isNil]

theorem newRequest_fields (method url body : String) (req : Request)
    (h : newRequest method url body = Except.ok req) :
    req.method = method ∧ req.url.text = url ∧ req.body = body ∧ req.contentType = none := by
  unfold newRequest at h
  cases hp : urlParse url with
  | error e => simp [hp] at h
  | ok u =>
    simp only [hp, Except.ok.injEq] at h
    subst h
    refine ⟨rfl, ?_, rfl, rfl⟩
    unfold urlParse at hp
    split at hp
    · simp at hp
    · split at hp
      · simp at hp
      · split at hp
        · simp at hp
        · split at hp
          · simp at hp
          · simp only [Except.ok.injEq] at hp
            subst hp
            rfl

theorem buildRequest_get_obj (fmtFloat : String → Option String) (path : String)
    (kvs : List (String × Json)) (ms : List (String × GoVal))
    (hdec : decodeMembers fmtFloat kvs = some ms) :
    buildRequest fmtFloat "GET" path (some (Except.ok (Json.obj kvs))) =
      match
        newRequest "GET"
          (if queryPairs (mapOfList ms) = [] then BASE_URL ++ path
           else BASE_URL ++ path ++ "?" ++ encodePairs (queryPairs (mapOfList ms))) "" with
      | Except.error e => Built.failed ("gmgn: failed to create request: " ++ e)
      | Except.ok req => Built.request req := by
  simp only [buildRequest, getQueryParams, unmarshalMap, hdec, if_true,
    fullURL_addParams _ _ (nodup_keys_mapOfList ms)]

theorem buildRequest_post (fmtFloat : String → Option String) (path : String) (j : Json) :
    buildRequest fmtFloat "POST" path (some (Except.ok j)) =
      match newRequest "POST" (BASE_URL ++ path) (renderJson j) with
      | Except.error e => Built.failed ("gmgn: failed to create request: " ++ e)
      | Except.ok req => Built.request { req with contentType := some "application/json" } := by
  simp [buildRequest, postBody]

theorem liveKeys_perm (m1 m2 : List (String × GoVal)) (hp : m1.Perm m2) :
    (liveKeys m1).Perm (liveKeys m2) :=
  (hp.filter _).map _

theorem queryPairs_perm (m1 m2 : List (String × GoVal)) (hp : m1.Perm m2)
    (hn : (m1.map Prod.fst).Nodup) : queryPairs m1 = queryPairs m2 := by
  unfold queryPairs
  rw [sortKeys_eq_of_perm _ _ (liveKeys_perm m1 m2 hp)]
  apply List.map_congr_left
  intro k _
  rw [mapGet_perm m1 m2 k hp hn]

theorem queryPairs_exactIn (fmtFloat : String → Option String) (p : ExactInParams) :
    ∃ ms, decodeMembers fmtFloat
        ([("token_in_chain", Json.str p.TokenInChain),
          ("token_out_chain", Json.str p.TokenOutChain),
          ("token_in_address", Json.str p.TokenInAddress),
          ("token_out_address", Json.str p.TokenOutAddress),
          ("from_address", Json.str p.FromAddress),
          ("in_amount", Json.str p.InAmount)] ++
          (if p.Src = "" then [] else [("src", Json.str p.Src)])) = some ms ∧
      queryPairs (mapOfList ms) = exactInPairs p := by
  by_cases hs : p.Src = ""
  · refine ⟨[("token_in_chain", GoVal.string p.TokenInChain),
        ("token_out_chain", GoVal.string p.TokenOutChain),
        ("token_in_address", GoVal.string p.TokenInAddress),
        ("token_out_address", GoVal.string p.TokenOutAddress),
        ("from_address", GoVal.string p.FromAddress),
        ("in_amount", GoVal.string p.InAmount)], ?_, ?_⟩
    · simp [hs, decodeMembers, decodeAny]
    · rw [mapOfList_of_nodup _ (by simp only [List.map_cons, List.map_nil]; decide)]
      have hk : sortKeys ["token_in_chain", "token_out_chain", "token_in_address",
          "token_out_address", "from_address", "in_amount"] =
          ["from_address", "in_amount", "token_in_address", "token_in_chain",
            "token_out_address", "token_out_chain"] := by decide
      simp [queryPairs, liveKeys, GoVal.isNil, hk, mapGet, exactInPairs, hs, sprintV]
  · refine ⟨[("token_in_chain", GoVal.string p.TokenInChain),
        ("token_out_chain", GoVal.string p.TokenOutChain),
        ("token_in_address", GoVal.string p.TokenInAddress),
        ("token_out_address", GoVal.string p.TokenOutAddress),
        ("from_address", GoVal.string p.FromAddress),
        ("in_amount", GoVal.string p.InAmount),
        ("src", GoVal.string p.Src)], ?_, ?_⟩
    · simp [hs, decodeMembers, decodeAny]
    · rw [mapOfList_of_nodup _ (by simp only [List.map_cons, List.map_nil]; decide)]
      have hk : sortKeys ["token_in_chain", "token_out_chain", "token_in_address",
          "token_out_address", "from_address", "in_amount", "src"] =
          ["from_address", "in_amount", "src", "token_in_address", "token_in_chain",
            "token_out_address", "token_out_chain"] := by decide
      simp [queryPairs, liveKeys, GoVal.isNil, hk, mapGet, exactInPairs, hs, sprintV]

theorem encodePairs_nil : encodePairs [] = "" := rfl

/-- A GET call on a plain path with an object for parameters builds its
request: the path and the query of its URL are the path given and the encoded
pairs. -/
theorem buildRequest_get_plain (fmtFloat : String → Option String) (path : String)
    (kvs : List (String × Json)) (ms : List (String × GoVal))
    (hdec : decodeMembers fmtFloat kvs = some ms) (hp : PlainPath path.data) :
    buildRequest fmtFloat "GET" path (some (Except.ok (Json.obj kvs))) =
      Built.request
        { method := "GET"
          url :=
            { scheme := "https", host := "gmgn.ai", path := "/" ++ path
              rawQuery := encodePairs (queryPairs (mapOfList ms))
              forceQuery := false, fragment := ""
              text :=
                if queryPairs (mapOfList ms) = [] then BASE_URL ++ path
                else BASE_URL ++ path ++ "?" ++ encodePairs (queryPairs (mapOfList ms)) }
          body := "", contentType := none } := by
  rw [buildRequest_get_obj fmtFloat path kvs ms hdec]
  have hpath : String.mk ('/' :: path.data) = "/" ++ path := by
    apply String.ext; simp [String.data_append]
  cases hq : queryPairs (mapOfList ms) with
  | nil =>
    have hparse := urlParse_plain path.data hp
    have h1 : String.mk (BASE_URL.data ++ path.data) = BASE_URL ++ path := by
      apply String.ext; simp [String.data_append]
    rw [h1, hpath] at hparse
    simp only [if_true, newRequest, hparse, encodePairs_nil]
  | cons q qs =>
    have hne : (encodePairs (q :: qs)).data ≠ [] :=
      fun h => encodePairs_ne_empty q qs (String.ext h)
    have hparse := urlParse_query path.data (encodePairs (q :: qs)).data hp
      (querySafe_encodePairs _) hne
    have h1 : String.mk (BASE_URL.data ++ path.data ++ '?' :: (encodePairs (q :: qs)).data) =
        BASE_URL ++ path ++ "?" ++ encodePairs (q :: qs) := by
      apply String.ext; simp [String.data_append]
    rw [h1, hpath] at hparse
    simp only [List.cons_ne_nil, if_false, newRequest, hparse]

theorem buildRequest_get_nil_plain (fmtFloat : String → Option String) (path : String)
    (hp : PlainPath path.data) :
    buildRequest fmtFloat "GET" path none =
      Built.request
        { method := "GET"
          url :=
            { scheme := "https", host := "gmgn.ai", path := "/" ++ path, rawQuery := ""
              forceQuery := false, fragment := "", text := BASE_URL ++ path }
          body := "", contentType := none } := by
  rw [buildRequest_get_nil]
  have hparse := urlParse_plain path.data hp
  have h1 : String.mk (BASE_URL.data ++ path.data) = BASE_URL ++ path := by
    apply String.ext; simp [String.data_append]
  have hpath : String.mk ('/' :: path.data) = "/" ++ path := by
    apply String.ext; simp [String.data_append]
  rw [h1, hpath] at hparse
  simp only [newRequest, hparse]

/-- C1. A 200 response whose body decodes to an envelope with a nonzero code:
`rest` returns a nil payload and the error
"gmgn: API request failed with code <code>: <msg>", which contains the code
and the message; the decoded data is not returned. -/
theorem rest_nonzero_code {T : Type} (env : Env) (dec : Decoder T) (method path : String)
    (params : Params) (req : Request) (body : String) (result : Resp (Option T))
    (hreq : buildRequest env.fmtFloat method path params = Built.request req)
    (hsend : env.send req = Except.ok { statusCode := 200, body := Except.ok body })
    (hparse : unmarshalResp dec body = Except.ok result)
    (hcode : result.Code ≠ 0) :
    (rest env dec method path params).outcome =
        Outcome.returned none
          (some ("gmgn: API request failed with code " ++ toString result.Code ++ ": " ++
            result.Msg)) ∧
      Contains
        ("gmgn: API request failed with code " ++ toString result.Code ++ ": " ++ result.Msg)
        (toString result.Code) ∧
      Contains
        ("gmgn: API request failed with code " ++ toString result.Code ++ ": " ++ result.Msg)
        result.Msg := by
  refine ⟨?_, ?_, ?_⟩
  · rw [rest_of_built env dec method path params req hreq, hsend]
    simp [handleResponse, hparse, hcode]
  · exact contains_append_left _ _ _
      (contains_append_left _ _ _ (contains_append_right _ _ _ (contains_self _)))
  · exact contains_append_right _ _ _ (contains_self _)

/-- An instance of C1: a 200 response carrying the business error -1; the
data of the body is not returned. -/
theorem rest_nonzero_code_witness :
    (Slippage
        (replyWith 200
          "\x7b\"code\":-1,\"msg\":\"amountIn is required\",\"data\":\x7b\"recommend_slippage\":\"1\"\x7d\x7d")
        { TokenAddress := "0xa", TokenInAddress := "0xb" }).outcome =
      Outcome.returned none
        (some "gmgn: API request failed with code -1: amountIn is required") :=
  (rest_nonzero_code
    (replyWith 200
      "\x7b\"code\":-1,\"msg\":\"amountIn is required\",\"data\":\x7b\"recommend_slippage\":\"1\"\x7d\x7d")
    SlippageData.decoder "GET" SLIPPAGE_PATH
    (some (Except.ok (SlippageParams.marshal { TokenAddress := "0xa", TokenInAddress := "0xb" })))
    _ _
    { Msg := "amountIn is required", Code := -1,
      Data := some { RecommendSlippage := "1", DisplaySlippage := "", HasTax := false } }
    rfl rfl rfl (by decide)).1

/-- C2. A 200 response whose body decodes to an envelope with code 0: `rest`
returns a nil error and the decoded data field of the envelope; two such
bodies with the same data field give the same result, whatever else they
hold. -/
theorem rest_zero_code {T : Type} (env : Env) (dec : Decoder T) (method path : String)
    (params : Params) (req : Request) (body : String) (result : Resp (Option T))
    (hreq : buildRequest env.fmtFloat method path params = Built.request req)
    (hsend : env.send req = Except.ok { statusCode := 200, body := Except.ok body })
    (hparse : unmarshalResp dec body = Except.ok result)
    (hcode : result.Code = 0) :
    (rest env dec method path params).outcome = Outcome.returned result.Data none ∧
      ∀ (body2 : String) (result2 : Resp (Option T)),
        unmarshalResp dec body2 = Except.ok result2 → result2.Code = 0 →
        result2.Data = result.Data →
        handleResponse dec { statusCode := 200, body := Except.ok body2 } =
          handleResponse dec { statusCode := 200, body := Except.ok body } := by
  constructor
  · rw [rest_of_built env dec method path params req hreq, hsend]
    simp [handleResponse, hparse, hcode]
  · intro body2 result2 hparse2 hcode2 hdata
    simp [handleResponse, hparse, hcode, hparse2, hcode2, hdata]

/-- An instance of C2: a 200 response with code 0; the data field comes back
decoded and the message plays no part. -/
theorem rest_zero_code_witness :
    (Slippage
        (replyWith 200
          "\x7b\"code\":0,\"msg\":\"success\",\"data\":\x7b\"recommend_slippage\":\"1\",\"display_slippage\":\"0.5\",\"has_tax\":true\x7d\x7d")
        { TokenAddress := "0xa", TokenInAddress := "0xb" }).outcome =
      Outcome.returned
        (some { RecommendSlippage := "1", DisplaySlippage := "0.5", HasTax := true }) none :=
  (rest_zero_code
    (replyWith 200
      "\x7b\"code\":0,\"msg\":\"success\",\"data\":\x7b\"recommend_slippage\":\"1\",\"display_slippage\":\"0.5\",\"has_tax\":true\x7d\x7d")
    SlippageData.decoder "GET" SLIPPAGE_PATH
    (some (Except.ok (SlippageParams.marshal { TokenAddress := "0xa", TokenInAddress := "0xb" })))
    _ _
    { Msg := "success", Code := 0,
      Data := some { RecommendSlippage := "1", DisplaySlippage := "0.5", HasTax := true } }
    rfl rfl rfl rfl).1

/-- C3. A response with a status other than 200 whose body was read: `rest`
returns a nil payload and the error
"gmgn: API request failed with status <status>: <body>", which contains the
status and the raw body, whatever the body is (the envelope is not parsed). -/
theorem rest_bad_status {T : Type} (env : Env) (dec : Decoder T) (method path : String)
    (params : Params) (req : Request) (status : Int) (body : String)
    (hreq : buildRequest env.fmtFloat method path params = Built.request req)
    (hsend : env.send req = Except.ok { statusCode := status, body := Except.ok body })
    (hstatus : status ≠ 200) :
    (rest env dec method path params).outcome =
        Outcome.returned none
          (some ("gmgn: API request failed with status " ++ toString status ++ ": " ++ body)) ∧
      Contains ("gmgn: API request failed with status " ++ toString status ++ ": " ++ body)
        (toString status) ∧
      Contains ("gmgn: API request failed with status " ++ toString status ++ ": " ++ body)
        body := by
  refine ⟨?_, ?_, ?_⟩
  · rw [rest_of_built env dec method path params req hreq, hsend]
    simp [handleResponse, hstatus]
  · exact contains_append_left _ _ _
      (contains_append_left _ _ _ (contains_append_right _ _ _ (contains_self _)))
  · exact contains_append_right _ _ _ (contains_self _)

/-- An instance of C3: status 500 with a body that is a well-formed envelope
of code 0; the status failure is reported, with the body verbatim. -/
theorem rest_bad_status_witness :
    (GasPrice (replyWith 500 "\x7b\"code\":0,\"msg\":\"\",\"data\":\x7b\"last_block\":7\x7d\x7d")
        "bsc").outcome =
      Outcome.returned none
        (some
          "gmgn: API request failed with status 500: \x7b\"code\":0,\"msg\":\"\",\"data\":\x7b\"last_block\":7\x7d\x7d") :=
  (rest_bad_status (replyWith 500 "\x7b\"code\":0,\"msg\":\"\",\"data\":\x7b\"last_block\":7\x7d\x7d")
    GasPriceData.decoder "GET" (GAS_PRICE_PATH ++ "/" ++ "bsc" ++ "/gas_price") none
    _ 500 "\x7b\"code\":0,\"msg\":\"\",\"data\":\x7b\"last_block\":7\x7d\x7d" rfl rfl (by decide)).1

/-- C4. A GET call whose parameters marshal to a JSON object that decodes
into the parameter map: the URL handed to `http.NewRequest`, and so the URL of
the request built, is the base URL and path followed, when there is a pair, by
`?` and the pairs `key=value` joined by `&`, key and value percent-encoded.
There is exactly one pair for each key of the map with a non-nil value, its
value the `%v` text of the decoded value, and no pair for a key whose value is
nil or that is not in the map; for an object with distinct keys these are the
members that are not `null`. With no pair, and with nil parameters, the URL is
the base URL and path alone. Cut at its `&` and `=`, the query string gives
back exactly the pairs, percent-encoded. When the path holds no `#`, `?`, `%` and no
control character, the request is built and the query of its URL is the
encoded pairs. -/
theorem get_query_string (fmtFloat : String → Option String) (path : String)
    (kvs : List (String × Json)) (ms : List (String × GoVal))
    (hdec : decodeMembers fmtFloat kvs = some ms) :
    (buildRequest fmtFloat "GET" path (some (Except.ok (Json.obj kvs))) =
        match
          newRequest "GET"
            (if queryPairs (mapOfList ms) = [] then BASE_URL ++ path
             else BASE_URL ++ path ++ "?" ++ encodePairs (queryPairs (mapOfList ms))) "" with
        | Except.error e => Built.failed ("gmgn: failed to create request: " ++ e)
        | Except.ok req => Built.request req) ∧
      (∀ req, buildRequest fmtFloat "GET" path (some (Except.ok (Json.obj kvs))) =
          Built.request req →
        req.method = "GET" ∧
          req.url.text =
            (if queryPairs (mapOfList ms) = [] then BASE_URL ++ path
             else BASE_URL ++ path ++ "?" ++ encodePairs (queryPairs (mapOfList ms)))) ∧
      (∀ k v, mapGet k (mapOfList ms) = some v → v ≠ GoVal.nil →
        (queryPairs (mapOfList ms)).filter (fun p => decide (p.1 = k)) = [(k, sprintV v)]) ∧
      (∀ k, mapGet k (mapOfList ms) = some GoVal.nil ∨ mapGet k (mapOfList ms) = none →
        (queryPairs (mapOfList ms)).filter (fun p => decide (p.1 = k)) = []) ∧
      ((kvs.map Prod.fst).Nodup →
        ∀ k j, (k, j) ∈ kvs →
          (j = Json.null →
            (queryPairs (mapOfList ms)).filter (fun p => decide (p.1 = k)) = []) ∧
          (j ≠ Json.null →
            ∃ v, decodeAny fmtFloat j = some v ∧
              (queryPairs (mapOfList ms)).filter (fun p => decide (p.1 = k)) =
                [(k, sprintV v)])) ∧
      (buildRequest fmtFloat "GET" path none =
        match newRequest "GET" (BASE_URL ++ path) "" with
        | Except.error e => Built.failed ("gmgn: failed to create request: " ++ e)
        | Except.ok req => Built.request req) ∧
      (rawPairs (encodePairs (queryPairs (mapOfList ms))) =
        (queryPairs (mapOfList ms)).map (fun q => (QueryEscape q.1, QueryEscape q.2))) ∧
      (PlainPath path.data →
        buildRequest fmtFloat "GET" path (some (Except.ok (Json.obj kvs))) =
          Built.request
            { method := "GET"
              url :=
                { scheme := "https", host := "gmgn.ai", path := "/" ++ path
                  rawQuery := encodePairs (queryPairs (mapOfList ms))
                  forceQuery := false, fragment := ""
                  text :=
                    if queryPairs (mapOfList ms) = [] then BASE_URL ++ path
                    else
                      BASE_URL ++ path ++ "?" ++ encodePairs (queryPairs (mapOfList ms)) }
              body := "", contentType := none }) := by
  have hn := nodup_keys_mapOfList ms
  have hb := buildRequest_get_obj fmtFloat path kvs ms hdec
  refine ⟨hb, ?_, ?_, ?_, ?_, buildRequest_get_nil fmtFloat path, rawPairs_of_encodePairs _,
    buildRequest_get_plain fmtFloat path kvs ms hdec⟩
  · intro req hreq
    rw [hb] at hreq
    cases hnr : newRequest "GET"
        (if queryPairs (mapOfList ms) = [] then BASE_URL ++ path
         else BASE_URL ++ path ++ "?" ++ encodePairs (queryPairs (mapOfList ms))) "" with
    | error e => simp [hnr] at hreq
    | ok r =>
      simp only [hnr, Built.request.injEq] at hreq
      subst hreq
      have := newRequest_fields _ _ _ _ hnr
      exact ⟨this.1, this.2.1⟩
  · intro k v hg hv
    exact queryPairs_of_live _ hn k v hg ((isNil_eq_false_iff v).mpr hv)
  · intro k hg
    exact queryPairs_of_dead _ hn k hg
  · intro hkeys k j hmem
    obtain ⟨hk1, hk2⟩ := decodeMembers_spec fmtFloat kvs ms hdec
    have hmsn : (ms.map Prod.fst).Nodup := hk1 ▸ hkeys
    obtain ⟨v, hv, hvm⟩ := hk2 k j hmem
    have hg : mapGet k (mapOfList ms) = some v := by
      rw [mapOfList_of_nodup ms hmsn]
      exact mapGet_eq_some_of_mem ms k v hmsn hvm
    constructor
    · intro hj
      have hnil : v = GoVal.nil := eq_nil_of_isNil v ((decodeAny_isNil fmtFloat j v hv).mpr hj)
      subst hnil
      exact queryPairs_of_dead _ hn k (Or.inl hg)
    · intro hj
      refine ⟨v, hv, queryPairs_of_live _ hn k v hg ?_⟩
      cases hi : v.isNil with
      | false => rfl
      | true => exact absurd ((decodeAny_isNil fmtFloat j v hv).mp hi) hj

/-- An instance of C4: four members, one of them `null`; the three others
appear once each, in the order of their keys, percent-encoded. -/
theorem get_query_string_witness :
    buildRequest fmtSmallInt "GET" SLIPPAGE_PATH
        (some (Except.ok (Json.obj
          [("token_address", Json.str "0x a&b"), ("limit", Json.num "10"),
            ("src", Json.null), ("has_tax", Json.bool true)]))) =
      Built.request
        { method := "GET"
          url :=
            { scheme := "https", host := "gmgn.ai", path := "/api/v1/recommend_slippage"
              rawQuery := "has_tax=true&limit=10&token_address=0x+a%26b"
              forceQuery := false, fragment := ""
              text :=
                "https://gmgn.ai/api/v1/recommend_slippage?has_tax=true&limit=10&token_address=0x+a%26b" }
          body := "", contentType := none } :=
  (get_query_string fmtSmallInt SLIPPAGE_PATH
    [("token_address", Json.str "0x a&b"), ("limit", Json.num "10"),
      ("src", Json.null), ("has_tax", Json.bool true)]
    [("token_address", GoVal.string "0x a&b"), ("limit", GoVal.float64 "10"),
      ("src", GoVal.nil), ("has_tax", GoVal.bool true)] rfl).1.trans rfl

/-- C5, as amended. For every POST call of `rest` with a non-nil parameter
value that `json.Marshal` accepts, the request body is the marshalled text,
and that text JSON-decodes back to the document of the parameter value; the
request is a POST with content type `application/json`. (With nil parameters
the body is empty and decodes to nothing.) -/
theorem post_body_round_trip (fmtFloat : String → Option String) (path : String) (j : Json)
    (hw : WellFormed j) :
    (buildRequest fmtFloat "POST" path (some (Except.ok j)) =
        match newRequest "POST" (BASE_URL ++ path) (renderJson j) with
        | Except.error e => Built.failed ("gmgn: failed to create request: " ++ e)
        | Except.ok req =>
          Built.request { req with contentType := some "application/json" }) ∧
      parseJson (renderJson j) = some j ∧
      (∀ req, buildRequest fmtFloat "POST" path (some (Except.ok j)) = Built.request req →
        req.method = "POST" ∧ req.body = renderJson j ∧ parseJson req.body = some j ∧
          req.contentType = some "application/json") := by
  have hb := buildRequest_post fmtFloat path j
  have hrt := parseJson_renderJson j hw
  refine ⟨hb, hrt, ?_⟩
  intro req hreq
  rw [hb] at hreq
  cases hnr : newRequest "POST" (BASE_URL ++ path) (renderJson j) with
  | error e => simp [hnr] at hreq
  | ok r =>
    simp only [hnr, Built.request.injEq] at hreq
    subst hreq
    have hfields := newRequest_fields _ _ _ _ hnr
    refine ⟨hfields.1, hfields.2.2.1, ?_, rfl⟩
    simp only [hfields.2.2.1, hrt]

/-- C5 fails as stated: a POST call with nil parameters sends a request whose
body is empty, and the empty text is not a JSON document: decoding it fails,
where the text `null` would decode to nil. -/
theorem post_nil_body_not_json :
    (rest (replyWith 200 "\x7b\"code\":0\x7d") SlippageData.decoder "POST" SLIPPAGE_PATH
        none).sent.map (fun r => (r.method, r.body, (parseJson r.body).isSome)) =
        [("POST", "", false)] ∧
      (parseJson "null").isSome = true := by
  decide

/-- An instance of the amended C5: the body of a POST call for an object with
a text that needs escaping, a number and a `null`. -/
theorem post_body_round_trip_witness :
    buildRequest fmtSmallInt "POST" SLIPPAGE_PATH
        (some (Except.ok (Json.obj
          [("token_address", Json.str "0x\"a<b"), ("limit", Json.num "10"),
            ("src", Json.null)]))) =
      Built.request
        { method := "POST"
          url :=
            { scheme := "https", host := "gmgn.ai", path := "/api/v1/recommend_slippage"
              rawQuery := "", forceQuery := false, fragment := ""
              text := "https://gmgn.ai/api/v1/recommend_slippage" }
          body := "\x7b\"token_address\":\"0x\\\"a\\u003cb\",\"limit\":10,\"src\":null\x7d"
          contentType := some "application/json" } ∧
      parseJson "\x7b\"token_address\":\"0x\\\"a\\u003cb\",\"limit\":10,\"src\":null\x7d" =
        some (Json.obj
          [("token_address", Json.str "0x\"a<b"), ("limit", Json.num "10"),
            ("src", Json.null)]) :=
  ⟨(post_body_round_trip fmtSmallInt SLIPPAGE_PATH
      (Json.obj
        [("token_address", Json.str "0x\"a<b"), ("limit", Json.num "10"), ("src", Json.null)])
      ⟨trivial, (by decide : ValidNumber "10"), trivial, trivial⟩).1.trans (by decide),
    (post_body_round_trip fmtSmallInt SLIPPAGE_PATH
      (Json.obj
        [("token_address", Json.str "0x\"a<b"), ("limit", Json.num "10"), ("src", Json.null)])
      ⟨trivial, (by decide : ValidNumber "10"), trivial, trivial⟩).2.1⟩

/-- C6. For every `ExactInParams` value, `ExactIn` builds and sends one GET
request to `https://gmgn.ai/` followed by `EXACT_IN_PATH`, whose query string
is made of the pairs of `exactInPairs`: the six keys `from_address`,
`in_amount`, `token_in_address`, `token_in_chain`, `token_out_address`,
`token_out_chain` once each with the field as value, empty or not, and `src`
exactly when `Src` is not empty; nothing else. Cut at its `&` and `=`, the
query string gives back exactly these pairs, percent-encoded. -/
theorem exactIn_request {T : Type} (env : Env) (dec : Decoder T) (p : ExactInParams) :
    (ExactIn env dec p).sent =
      [{ method := "GET"
         url :=
           { scheme := "https", host := "gmgn.ai"
             path := "/defi/router/v1/tx/available_routes_exact_in"
             rawQuery := encodePairs (exactInPairs p)
             forceQuery := false, fragment := ""
             text :=
               "https://gmgn.ai/defi/router/v1/tx/available_routes_exact_in?" ++
                 encodePairs (exactInPairs p) }
         body := "", contentType := none }] ∧
      rawPairs (encodePairs (exactInPairs p)) =
        (exactInPairs p).map (fun q => (QueryEscape q.1, QueryEscape q.2)) := by
  refine ⟨?_, rawPairs_of_encodePairs _⟩
  obtain ⟨ms, hdec, hq⟩ := queryPairs_exactIn env.fmtFloat p
  have hb := buildRequest_get_plain env.fmtFloat EXACT_IN_PATH _ ms hdec
    (by intro c hc; revert c; decide)
  rw [hq] at hb
  have hne : exactInPairs p ≠ [] := by simp [exactInPairs]
  rw [if_neg hne] at hb
  have h2 : BASE_URL ++ EXACT_IN_PATH ++ "?" ++ encodePairs (exactInPairs p) =
      "https://gmgn.ai/defi/router/v1/tx/available_routes_exact_in?" ++
        encodePairs (exactInPairs p) := by
    apply String.ext; simp [String.data_append, BASE_URL, EXACT_IN_PATH]
  rw [h2] at hb
  exact rest_sent_of_built env dec "GET" EXACT_IN_PATH _ _ hb

set_option maxRecDepth 100000 in
/-- The request of the call made in `TestExactIn`. -/
theorem exactIn_test_request :
    buildRequest fmtSmallInt "GET" EXACT_IN_PATH
        (some (Except.ok (ExactInParams.marshal
          { TokenInChain := "bsc", TokenOutChain := "bsc"
            TokenInAddress := "0xbb4CdB9CBd36B01bD1cBaEBF2De08d9173bc095c"
            TokenOutAddress := "0x924fa68a0FC644485b8df8AbfA0A41C2e7744444"
            FromAddress := "0x7d9471511a6c027e978adaf02014c3d2f40a0571"
            InAmount := "1000000000000000000", Src := "" }))) =
      Built.request
        { method := "GET"
          url :=
            { scheme := "https", host := "gmgn.ai"
              path := "/defi/router/v1/tx/available_routes_exact_in"
              rawQuery :=
                "from_address=0x7d9471511a6c027e978adaf02014c3d2f40a0571&in_amount=1000000000000000000&token_in_address=0xbb4CdB9CBd36B01bD1cBaEBF2De08d9173bc095c&token_in_chain=bsc&token_out_address=0x924fa68a0FC644485b8df8AbfA0A41C2e7744444&token_out_chain=bsc"
              forceQuery := false, fragment := ""
              text :=
                "https://gmgn.ai/defi/router/v1/tx/available_routes_exact_in?from_address=0x7d9471511a6c027e978adaf02014c3d2f40a0571&in_amount=1000000000000000000&token_in_address=0xbb4CdB9CBd36B01bD1cBaEBF2De08d9173bc095c&token_in_chain=bsc&token_out_address=0x924fa68a0FC644485b8df8AbfA0A41C2e7744444&token_out_chain=bsc" }
          body := "", contentType := none } := by
  decide

/-- C7, as amended. For every network name, `GasPrice` hands
`http.NewRequest` the method GET, exactly the text
`https://gmgn.ai/defi/quotation/v1/chains/<network>/gas_price`, to which `rest`
appends nothing, and an empty body. When the name holds no `?`, `#`, `%` and no
control character, the request is built from that text, has an empty query and
is the one request sent. -/
theorem gasPrice_request (env : Env) (network : String) :
    buildRequest env.fmtFloat "GET" (GAS_PRICE_PATH ++ "/" ++ network ++ "/gas_price") none =
        (match
          newRequest "GET"
            ("https://gmgn.ai/defi/quotation/v1/chains/" ++ network ++ "/gas_price") "" with
        | Except.error e => Built.failed ("gmgn: failed to create request: " ++ e)
        | Except.ok req => Built.request req) ∧
      (PlainPath network.data →
        (GasPrice env network).sent =
          [{ method := "GET"
             url :=
               { scheme := "https", host := "gmgn.ai"
                 path := "/defi/quotation/v1/chains/" ++ network ++ "/gas_price"
                 rawQuery := "", forceQuery := false, fragment := ""
                 text := "https://gmgn.ai/defi/quotation/v1/chains/" ++ network ++ "/gas_price" }
             body := "", contentType := none }]) := by
  have htext : BASE_URL ++ (GAS_PRICE_PATH ++ "/" ++ network ++ "/gas_price") =
      "https://gmgn.ai/defi/quotation/v1/chains/" ++ network ++ "/gas_price" := by
    apply String.ext
    simp [String.data_append, BASE_URL, GAS_PRICE_PATH]
  refine ⟨?_, fun hplain => ?_⟩
  · rw [buildRequest_get_nil, htext]
  · have hp : PlainPath (GAS_PRICE_PATH ++ "/" ++ network ++ "/gas_price").data := by
      simp only [String.data_append]
      refine plainPath_append _ _ (plainPath_append _ _ ?_ hplain) ?_
      · intro c hc; revert c; decide
      · intro c hc; revert c; decide
    have hparse := urlParse_plain _ hp
    have h1 : String.mk (BASE_URL.data ++ (GAS_PRICE_PATH ++ "/" ++ network ++ "/gas_price").data) =
        "https://gmgn.ai/defi/quotation/v1/chains/" ++ network ++ "/gas_price" := by
      rw [← htext]; apply String.ext; simp [String.data_append]
    have h2 : String.mk ('/' :: (GAS_PRICE_PATH ++ "/" ++ network ++ "/gas_price").data) =
        "/defi/quotation/v1/chains/" ++ network ++ "/gas_price" := by
      apply String.ext; simp [String.data_append, GAS_PRICE_PATH]
    rw [h1, h2] at hparse
    have hb : buildRequest env.fmtFloat "GET" (GAS_PRICE_PATH ++ "/" ++ network ++ "/gas_price")
        none = Built.request
          { method := "GET"
            url :=
              { scheme := "https", host := "gmgn.ai"
                path := "/defi/quotation/v1/chains/" ++ network ++ "/gas_price"
                rawQuery := "", forceQuery := false, fragment := ""
                text := "https://gmgn.ai/defi/quotation/v1/chains/" ++ network ++ "/gas_price" }
            body := "", contentType := none } := by
      rw [buildRequest_get_nil, htext]
      simp only [newRequest, hparse]
    exact rest_sent_of_built env GasPriceData.decoder "GET" _ none _ hb

/-- C7 fails as stated: for the network name `bsc?x=1` the request that is
built and sent has the path `/defi/quotation/v1/chains/bsc` and carries the
query `x=1/gas_price`; for a name with a line feed no request is built at
all. -/
theorem gasPrice_query_from_network :
    (GasPrice (replyWith 200 "\x7b\"code\":0\x7d") "bsc?x=1").sent.map
        (fun r => (r.url.path, r.url.rawQuery)) =
        [("/defi/quotation/v1/chains/bsc", "x=1/gas_price")] ∧
      (GasPrice (replyWith 200 "\x7b\"code\":0\x7d") "bsc\n").sent = [] :=
  ⟨rfl, rfl⟩

/-- An instance of the amended C7, the network `bsc`. -/
theorem gasPrice_request_witness :
    (GasPrice (replyWith 200 "\x7b\"code\":0\x7d") "bsc").sent =
      [{ method := "GET"
         url :=
           { scheme := "https", host := "gmgn.ai"
             path := "/defi/quotation/v1/chains/bsc/gas_price"
             rawQuery := "", forceQuery := false, fragment := ""
             text := "https://gmgn.ai/defi/quotation/v1/chains/bsc/gas_price" }
         body := "", contentType := none }] :=
  (gasPrice_request (replyWith 200 "\x7b\"code\":0\x7d") "bsc").2 (by intro c hc; revert c; decide)

/-- C8, as amended. A call of `rest` that returns never yields both a payload
and an error: with a non-nil error the payload is nil; with a nil error the
payload is the data field stored in the envelope of a 200 response with code
0 (a field that is itself nil when the body gives `null` for it). -/
theorem rest_payload_or_error {T : Type} (env : Env) (dec : Decoder T) (method path : String)
    (params : Params) (payload : Option T) (err : Option String)
    (hret : (rest env dec method path params).outcome = Outcome.returned payload err) :
    (err ≠ none → payload = none) ∧
      (err = none →
        ∃ req body result,
          buildRequest env.fmtFloat method path params = Built.request req ∧
          env.send req = Except.ok { statusCode := 200, body := Except.ok body } ∧
          unmarshalResp dec body = Except.ok result ∧ result.Code = 0 ∧
          payload = result.Data) := by
  cases hb : buildRequest env.fmtFloat method path params with
  | failed e =>
    simp only [rest, hb, Outcome.returned.injEq] at hret
    obtain ⟨h1, h2⟩ := hret
    subst h1 h2
    simp
  | nilRequest => simp [rest, hb] at hret
  | request req =>
    rw [rest_of_built env dec method path params req hb] at hret
    cases hs : env.send req with
    | error e =>
      simp only [hs, Outcome.returned.injEq] at hret
      obtain ⟨h1, h2⟩ := hret
      subst h1 h2
      simp
    | ok resp =>
      obtain ⟨status, rbody⟩ := resp
      simp only [hs, handleResponse] at hret
      cases rbody with
      | error e =>
        simp only [Outcome.returned.injEq] at hret
        obtain ⟨h1, h2⟩ := hret
        subst h1 h2
        simp
      | ok body =>
        by_cases hstatus : status = 200
        · subst hstatus
          cases hparse : unmarshalResp dec body with
          | error e =>
            simp only [hparse, ne_eq, not_true_eq_false, if_false,
              Outcome.returned.injEq] at hret
            obtain ⟨h1, h2⟩ := hret
            subst h1 h2
            simp
          | ok result =>
            by_cases hcode : result.Code = 0
            · simp only [hparse, hcode, ne_eq, not_true_eq_false, if_false,
                Outcome.returned.injEq] at hret
              obtain ⟨h1, h2⟩ := hret
              subst h1 h2
              refine ⟨fun h => absurd rfl h, fun _ => ?_⟩
              exact ⟨req, body, result, rfl, hs, hparse, hcode, rfl⟩
            · simp only [hparse, hcode, ne_eq, not_true_eq_false, not_false_eq_true,
                if_false, if_true, Outcome.returned.injEq] at hret
              obtain ⟨h1, h2⟩ := hret
              subst h1 h2
              simp
        · simp only [hstatus, ne_eq, not_false_eq_true, if_true,
            Outcome.returned.injEq] at hret
          obtain ⟨h1, h2⟩ := hret
          subst h1 h2
          simp

/-- C8 fails as stated: a 200 response with code 0 whose data field is `null`,
or is absent, or whose body is the literal `null`, makes `rest` return a nil
payload together with a nil error. -/
theorem rest_nil_payload_nil_error :
    (Slippage (replyWith 200 "\x7b\"code\":0,\"msg\":\"success\",\"data\":null\x7d")
        { TokenAddress := "0xa", TokenInAddress := "0xb" }).outcome =
        Outcome.returned none none ∧
      (Slippage (replyWith 200 "\x7b\"code\":0,\"msg\":\"success\"\x7d")
        { TokenAddress := "0xa", TokenInAddress := "0xb" }).outcome =
        Outcome.returned none none ∧
      (Slippage (replyWith 200 "null")
        { TokenAddress := "0xa", TokenInAddress := "0xb" }).outcome =
        Outcome.returned none none :=
  ⟨rfl, rfl, rfl⟩

/-- An instance of the amended C8: a returned payload comes with a nil
error. -/
theorem rest_payload_or_error_witness :
    ((none : Option String) ≠ none →
        some ({ RecommendSlippage := "1", DisplaySlippage := "", HasTax := false } :
          SlippageData) = none) ∧
      ((none : Option String) = none →
        ∃ req body result,
          buildRequest fmtSmallInt "GET" SLIPPAGE_PATH
              (some (Except.ok
                (SlippageParams.marshal { TokenAddress := "0xa", TokenInAddress := "0xb" }))) =
            Built.request req ∧
          (replyWith 200 "\x7b\"code\":0,\"data\":\x7b\"recommend_slippage\":\"1\"\x7d\x7d").send req =
            Except.ok { statusCode := 200, body := Except.ok body } ∧
          unmarshalResp SlippageData.decoder body = Except.ok result ∧ result.Code = 0 ∧
          some ({ RecommendSlippage := "1", DisplaySlippage := "", HasTax := false } :
            SlippageData) = result.Data) :=
  rest_payload_or_error (replyWith 200 "\x7b\"code\":0,\"data\":\x7b\"recommend_slippage\":\"1\"\x7d\x7d")
    SlippageData.decoder "GET" SLIPPAGE_PATH
    (some (Except.ok (SlippageParams.marshal { TokenAddress := "0xa", TokenInAddress := "0xb" })))
    (some { RecommendSlippage := "1", DisplaySlippage := "", HasTax := false }) none rfl

/-- C9, as amended. A call of `rest` hands at most one request to the
network, and never a second one: exactly the request it built, once, when it
built one, however the call then ends; none when it built none. -/
theorem rest_sends_at_most_once {T : Type} (env : Env) (dec : Decoder T) (method path : String)
    (params : Params) :
    (rest env dec method path params).sent.length ≤ 1 ∧
      (∀ req, buildRequest env.fmtFloat method path params = Built.request req →
        (rest env dec method path params).sent = [req]) ∧
      ((∀ req, buildRequest env.fmtFloat method path params ≠ Built.request req) →
        (rest env dec method path params).sent = []) := by
  cases hb : buildRequest env.fmtFloat method path params with
  | failed e => simp [rest, hb]
  | nilRequest => simp [rest, hb]
  | request req =>
    rw [rest_of_built env dec method path params req hb]
    cases hs : env.send req with
    | error e => simp
    | ok resp => simp

/-- C9 fails as stated: a call whose parameters cannot be marshalled, a call
whose parameters marshal to something that is not an object, and a gas-price
call for a network name with a line feed in it all return without a single
request handed to the network. -/
theorem rest_no_round_trip :
    (rest (replyWith 200 "\x7b\"code\":0\x7d") SlippageData.decoder "GET" SLIPPAGE_PATH
        (some (Except.error "json: unsupported type: chan int"))).sent = [] ∧
      (rest (replyWith 200 "\x7b\"code\":0\x7d") SlippageData.decoder "GET" SLIPPAGE_PATH
        (some (Except.ok (Json.str "0xa")))).sent = [] ∧
      (GasPrice (replyWith 200 "\x7b\"code\":0\x7d") "bsc\n").sent = [] :=
  ⟨rfl, rfl, rfl⟩

/-- An instance of the amended C9: a gas-price call for `bsc` that ends in a
status failure has handed exactly one request to the network. -/
theorem rest_sends_at_most_once_witness :
    (GasPrice (replyWith 503 "busy") "bsc").sent.length = 1 := by
  have h :=
    (rest_sends_at_most_once (replyWith 503 "busy") GasPriceData.decoder "GET"
      (GAS_PRICE_PATH ++ "/" ++ "bsc" ++ "/gas_price") none).2.1 _ rfl
  simp only [GasPrice, h, List.length_singleton]

/-- C10. The URL of a GET call does not depend on the order in which the
entries of the parameter map are visited: two iteration orders of one map
(distinct keys) give the same query parameters' encoding and the same URL, the
pairs being written in the order of their keys. -/
theorem fullURL_order_independent (baseURL : String) (m1 m2 : List (String × GoVal))
    (hperm : m1.Perm m2) (hnodup : (m1.map Prod.fst).Nodup) :
    fullURL baseURL (addParams m1 []) = fullURL baseURL (addParams m2 []) ∧
      fullURL baseURL (addParams m1 []) =
        (if queryPairs m1 = [] then baseURL
         else baseURL ++ "?" ++ encodePairs (queryPairs m1)) ∧
      ((queryPairs m1).map Prod.fst).Sorted strLe := by
  have hn2 : (m2.map Prod.fst).Nodup := (hperm.map Prod.fst).nodup_iff.mp hnodup
  refine ⟨?_, fullURL_addParams baseURL m1 hnodup, ?_⟩
  · rw [fullURL_addParams baseURL m1 hnodup, fullURL_addParams baseURL m2 hn2,
      queryPairs_perm m1 m2 hperm hnodup]
  · rw [keys_queryPairs]
    exact sortKeys_sorted _

/-- An instance of C10: a map of three entries visited in two orders. -/
theorem fullURL_order_independent_witness :
    fullURL "https://gmgn.ai/api/v1/recommend_slippage"
        (addParams
          [("skip", GoVal.nil), ("token_in_address", GoVal.string "0xb"),
            ("token_address", GoVal.string "0xa")] []) =
      "https://gmgn.ai/api/v1/recommend_slippage?token_address=0xa&token_in_address=0xb" ∧
    fullURL "https://gmgn.ai/api/v1/recommend_slippage"
        (addParams
          [("token_address", GoVal.string "0xa"), ("token_in_address", GoVal.string "0xb"),
            ("skip", GoVal.nil)] []) =
      "https://gmgn.ai/api/v1/recommend_slippage?token_address=0xa&token_in_address=0xb" := by
  have h :=
    (fullURL_order_independent "https://gmgn.ai/api/v1/recommend_slippage"
      [("skip", GoVal.nil), ("token_in_address", GoVal.string "0xb"),
        ("token_address", GoVal.string "0xa")]
      [("token_address", GoVal.string "0xa"), ("token_in_address", GoVal.string "0xb"),
        ("skip", GoVal.nil)]
      (List.reverse_perm
        [("token_address", GoVal.string "0xa"), ("token_in_address", GoVal.string "0xb"),
          ("skip", GoVal.nil)]).symm.symm
      (by decide)).1
  exact ⟨by decide, h ▸ (by decide)⟩

/-! ## Further properties of the wrappers and of the failure paths -/

theorem queryPairs_exactOut (fmtFloat : String → Option String) (p : ExactOutParams) :
    ∃ ms, decodeMembers fmtFloat
        ([("token_in_chain", Json.str p.TokenInChain),
          ("token_out_chain", Json.str p.TokenOutChain),
          ("token_in_address", Json.str p.TokenInAddress),
          ("token_out_address", Json.str p.TokenOutAddress),
          ("out_amount", Json.str p.OutAmount)] ++
          (if p.Src = "" then [] else [("src", Json.str p.Src)])) = some ms ∧
      queryPairs (mapOfList ms) = exactOutPairs p := by
  by_cases hs : p.Src = ""
  · refine ⟨[("token_in_chain", GoVal.string p.TokenInChain),
        ("token_out_chain", GoVal.string p.TokenOutChain),
        ("token_in_address", GoVal.string p.TokenInAddress),
        ("token_out_address", GoVal.string p.TokenOutAddress),
        ("out_amount", GoVal.string p.OutAmount)], ?_, ?_⟩
    · simp [hs, decodeMembers, decodeAny]
    · rw [mapOfList_of_nodup _ (by simp only [List.map_cons, List.map_nil]; decide)]
      have hk : sortKeys ["token_in_chain", "token_out_chain", "token_in_address",
          "token_out_address", "out_amount"] =
          ["out_amount", "token_in_address", "token_in_chain",
            "token_out_address", "token_out_chain"] := by decide
      simp [queryPairs, liveKeys, GoVal.isNil, hk, mapGet, exactOutPairs, hs, sprintV]
  · refine ⟨[("token_in_chain", GoVal.string p.TokenInChain),
        ("token_out_chain", GoVal.string p.TokenOutChain),
        ("token_in_address", GoVal.string p.TokenInAddress),
        ("token_out_address", GoVal.string p.TokenOutAddress),
        ("out_amount", GoVal.string p.OutAmount),
        ("src", GoVal.string p.Src)], ?_, ?_⟩
    · simp [hs, decodeMembers, decodeAny]
    · rw [mapOfList_of_nodup _ (by simp only [List.map_cons, List.map_nil]; decide)]
      have hk : sortKeys ["token_in_chain", "token_out_chain", "token_in_address",
          "token_out_address", "out_amount", "src"] =
          ["out_amount", "src", "token_in_address", "token_in_chain",
            "token_out_address", "token_out_chain"] := by decide
      simp [queryPairs, liveKeys, GoVal.isNil, hk, mapGet, exactOutPairs, hs, sprintV]

/-- X1. For every `ExactOutParams` value, `ExactOut` builds and sends one GET
request to `https://gmgn.ai/` followed by `EXACT_OUT_PATH`, whose query string
is made of the pairs of `exactOutPairs`: `out_amount` and the four token keys
once each, and `src` exactly when `Src` is not empty; there is no
`from_address`. -/
theorem exactOut_request {T : Type} (env : Env) (dec : Decoder T) (p : ExactOutParams) :
    (ExactOut env dec p).sent =
      [{ method := "GET"
         url :=
           { scheme := "https", host := "gmgn.ai"
             path := "/defi/router/v1/tx/available_routes_exact_out"
             rawQuery := encodePairs (exactOutPairs p)
             forceQuery := false, fragment := ""
             text :=
               "https://gmgn.ai/defi/router/v1/tx/available_routes_exact_out?" ++
                 encodePairs (exactOutPairs p) }
         body := "", contentType := none }] := by
  obtain ⟨ms, hdec, hq⟩ := queryPairs_exactOut env.fmtFloat p
  have hb := buildRequest_get_plain env.fmtFloat EXACT_OUT_PATH _ ms hdec
    (by intro c hc; revert c; decide)
  rw [hq] at hb
  have hne : exactOutPairs p ≠ [] := by simp [exactOutPairs]
  rw [if_neg hne] at hb
  have h2 : BASE_URL ++ EXACT_OUT_PATH ++ "?" ++ encodePairs (exactOutPairs p) =
      "https://gmgn.ai/defi/router/v1/tx/available_routes_exact_out?" ++
        encodePairs (exactOutPairs p) := by
    apply String.ext; simp [String.data_append, BASE_URL, EXACT_OUT_PATH]
  rw [h2] at hb
  exact rest_sent_of_built env dec "GET" EXACT_OUT_PATH _ _ hb

/-- X2. For every `SlippageParams` value, `Slippage` builds and sends one GET
request to `https://gmgn.ai/api/v1/recommend_slippage` whose query string is
`token_address=<TokenAddress>&token_in_address=<TokenInAddress>`, both values
percent-encoded and present also when empty. -/
theorem slippage_request (env : Env) (p : SlippageParams) :
    (Slippage env p).sent =
      [{ method := "GET"
         url :=
           { scheme := "https", host := "gmgn.ai", path := "/api/v1/recommend_slippage"
             rawQuery :=
               "token_address=" ++ QueryEscape p.TokenAddress ++ "&token_in_address=" ++
                 QueryEscape p.TokenInAddress
             forceQuery := false, fragment := ""
             text :=
               "https://gmgn.ai/api/v1/recommend_slippage?token_address=" ++
                 QueryEscape p.TokenAddress ++ "&token_in_address=" ++
                 QueryEscape p.TokenInAddress }
         body := "", contentType := none }] := by
  have hdec : decodeMembers env.fmtFloat
      [("token_address", Json.str p.TokenAddress),
        ("token_in_address", Json.str p.TokenInAddress)] =
      some [("token_address", GoVal.string p.TokenAddress),
        ("token_in_address", GoVal.string p.TokenInAddress)] := by
    simp [decodeMembers, decodeAny]
  have hq : queryPairs (mapOfList [("token_address", GoVal.string p.TokenAddress),
      ("token_in_address", GoVal.string p.TokenInAddress)]) = slippagePairs p := by
    rw [mapOfList_of_nodup _ (by simp only [List.map_cons, List.map_nil]; decide)]
    have hk : sortKeys ["token_address", "token_in_address"] =
        ["token_address", "token_in_address"] := by decide
    simp [queryPairs, liveKeys, GoVal.isNil, hk, mapGet, slippagePairs, sprintV]
  have hb := buildRequest_get_plain env.fmtFloat SLIPPAGE_PATH _ _ hdec
    (by intro c hc; revert c; decide)
  rw [hq] at hb
  have hne : slippagePairs p ≠ [] := by simp [slippagePairs]
  rw [if_neg hne] at hb
  have h1 : encodePairs (slippagePairs p) =
      "token_address=" ++ QueryEscape p.TokenAddress ++ "&token_in_address=" ++
        QueryEscape p.TokenInAddress := by
    apply String.ext
    simp [encodePairs, slippagePairs, String.intercalate, String.intercalate.go,
      String.data_append]
    rfl
  have h2 : BASE_URL ++ SLIPPAGE_PATH ++ "?" ++ encodePairs (slippagePairs p) =
      "https://gmgn.ai/api/v1/recommend_slippage?token_address=" ++
        QueryEscape p.TokenAddress ++ "&token_in_address=" ++
        QueryEscape p.TokenInAddress := by
    rw [h1]
    apply String.ext; simp [String.data_append, BASE_URL, SLIPPAGE_PATH]
  rw [h2, h1] at hb
  exact rest_sent_of_built env SlippageData.decoder "GET" SLIPPAGE_PATH _ _ hb

/-- X3. A call of `rest` with a method other than GET and POST builds no
request and panics on the nil request before anything is sent. -/
theorem rest_other_method_panics {T : Type} (env : Env) (dec : Decoder T) (method path : String)
    (params : Params) (hget : method ≠ "GET") (hpost : method ≠ "POST") :
    rest env dec method path params = { outcome := Outcome.panicked, sent := [] } := by
  simp [rest, buildRequest, hget, hpost]

/-- An instance of X3: the method PUT. -/
theorem rest_other_method_panics_witness :
    rest (replyWith 200 "null") SlippageData.decoder "PUT" SLIPPAGE_PATH none =
      { outcome := Outcome.panicked, sent := [] } :=
  rest_other_method_panics (replyWith 200 "null") SlippageData.decoder "PUT" SLIPPAGE_PATH none
    (by decide) (by decide)

/-- X4. When the network fails, `rest` returns a nil payload and the error
"gmgn: failed to make request: <cause>", after the one attempt. -/
theorem rest_transport_failure {T : Type} (env : Env) (dec : Decoder T) (method path : String)
    (params : Params) (req : Request) (cause : String)
    (hreq : buildRequest env.fmtFloat method path params = Built.request req)
    (hsend : env.send req = Except.error cause) :
    rest env dec method path params =
      { outcome := Outcome.returned none (some ("gmgn: failed to make request: " ++ cause)),
        sent := [req] } := by
  rw [rest_of_built env dec method path params req hreq, hsend]

/-- An instance of X4: a gas-price call over a network that times out. -/
theorem rest_transport_failure_witness :
    (GasPrice { fmtFloat := fmtSmallInt, send := fun _ => Except.error "context deadline exceeded" }
        "bsc").outcome =
      Outcome.returned none (some "gmgn: failed to make request: context deadline exceeded") :=
  congrArg Run.outcome
    (rest_transport_failure
      { fmtFloat := fmtSmallInt, send := fun _ => Except.error "context deadline exceeded" }
      GasPriceData.decoder "GET" (GAS_PRICE_PATH ++ "/" ++ "bsc" ++ "/gas_price") none _
      "context deadline exceeded" rfl rfl)

/-- X5. A 200 response whose body does not decode into the envelope makes
`rest` return a nil payload and the error
"gmgn: failed to unmarshal response: <cause>". -/
theorem rest_decode_failure {T : Type} (env : Env) (dec : Decoder T) (method path : String)
    (params : Params) (req : Request) (body cause : String)
    (hreq : buildRequest env.fmtFloat method path params = Built.request req)
    (hsend : env.send req = Except.ok { statusCode := 200, body := Except.ok body })
    (hparse : unmarshalResp dec body = Except.error cause) :
    (rest env dec method path params).outcome =
      Outcome.returned none (some ("gmgn: failed to unmarshal response: " ++ cause)) := by
  rw [rest_of_built env dec method path params req hreq, hsend]
  simp [handleResponse, hparse]

/-- An instance of X5: a body cut short. -/
theorem rest_decode_failure_witness :
    ∃ cause,
      (GasPrice (replyWith 200 "\x7b\"code\":0,\"data\":") "bsc").outcome =
        Outcome.returned none (some ("gmgn: failed to unmarshal response: " ++ cause)) :=
  ⟨_, rest_decode_failure (replyWith 200 "\x7b\"code\":0,\"data\":") GasPriceData.decoder "GET"
    (GAS_PRICE_PATH ++ "/" ++ "bsc" ++ "/gas_price") none _ "\x7b\"code\":0,\"data\":"
    _ rfl rfl rfl⟩

/-- X6. The query string `rest` writes for a list of pairs cuts back, at its
`&` and at the first `=` of each piece, into exactly those pairs,
percent-encoded, in the same order: no pair is lost, split or added. -/
theorem rawPairs_encodePairs (ps : List (String × String)) :
    rawPairs (encodePairs ps) = ps.map (fun p => (QueryEscape p.1, QueryEscape p.2)) :=
  rawPairs_of_encodePairs ps

/-- An instance of X6. -/
theorem rawPairs_encodePairs_example :
    rawPairs "has_tax=true&limit=10&token_address=0x+a%26b" =
      [("has_tax", "true"), ("limit", "10"), ("token_address", "0x+a%26b")] := by
  decide

theorem hexVal_upperhex : ∀ k < 16, hexVal (upperhex k) = some k := by decide

theorem utf8Bytes_ofNat_unreserved :
    ∀ b < 127, unreservedByte b = true →
      utf8Bytes (Char.ofNat b) = [b] ∧ Char.ofNat b ≠ '%' ∧ Char.ofNat b ≠ '+' := by
  decide

theorem unescapeBytes_escapeByte (b : Nat) (hb : b < 256) (tail : List Char) (f : Nat) :
    unescapeBytes (f + 1) (escapeByte b ++ tail) =
      match unescapeBytes f tail with
      | some bs => some (b :: bs)
      | none => none := by
  unfold escapeByte
  split
  · rename_i hu
    obtain ⟨h1, h2, h3⟩ := utf8Bytes_ofNat_unreserved b (unreservedByte_lt b hu) hu
    simp only [List.singleton_append, unescapeBytes, h2, h3, if_false, h1, List.append_eq,
      List.nil_append]
  · split
    · rename_i h32
      subst h32
      simp [unescapeBytes]
    · have h1 := hexVal_upperhex (b / 16) (by omega)
      have h2 := hexVal_upperhex (b % 16) (by omega)
      have h3 : 16 * (b / 16) + b % 16 = b := by omega
      simp only [List.cons_append, List.nil_append, unescapeBytes, if_true, h1, h2, h3,
        List.append_eq]
      cases unescapeBytes f tail with
      | none => rfl
      | some bs => simp only [h3]

theorem unescapeBytes_escapeBytes (bs : List Nat) (hb : ∀ b ∈ bs, b < 256) (tail : List Char)
    (f : Nat) :
    unescapeBytes (f + bs.length) (escapeBytes bs ++ tail) =
      match unescapeBytes f tail with
      | some rest => some (bs ++ rest)
      | none => none := by
  induction bs with
  | nil =>
    simp only [escapeBytes, List.nil_append, List.length_nil, Nat.add_zero]
    cases unescapeBytes f tail <;> rfl
  | cons b bs ih =>
    have ih2 := ih (fun b1 h1 => hb b1 (List.mem_cons_of_mem _ h1))
    simp only [escapeBytes, List.append_assoc, List.length_cons]
    rw [← Nat.add_assoc, unescapeBytes_escapeByte b (hb b (List.mem_cons_self _ _)), ih2]
    cases unescapeBytes f tail <;> rfl

theorem unescapeBytes_nil (f : Nat) : unescapeBytes f [] = some [] := by
  cases f <;> rfl

theorem unescapeBytes_escapeChars (cs : List Char) (k : Nat) :
    unescapeBytes (k + (utf8Text cs).length) (escapeChars cs) = some (utf8Text cs) := by
  induction cs with
  | nil => exact unescapeBytes_nil _
  | cons c cs ih =>
    have h := unescapeBytes_escapeBytes (utf8Bytes c) (utf8Bytes_lt c) (escapeChars cs)
      (k + (utf8Text cs).length)
    simp only [escapeChars, utf8Text, List.length_append]
    rw [show k + ((utf8Bytes c).length + (utf8Text cs).length) =
      k + (utf8Text cs).length + (utf8Bytes c).length by omega, h, ih]

theorem length_escapeByte (b : Nat) : 1 ≤ (escapeByte b).length := by
  unfold escapeByte
  split
  · simp
  · split <;> simp

theorem length_escapeBytes (bs : List Nat) : bs.length ≤ (escapeBytes bs).length := by
  induction bs with
  | nil => simp [escapeBytes]
  | cons b bs ih =>
    have := length_escapeByte b
    simp only [escapeBytes, List.length_append, List.length_cons]
    omega

theorem length_escapeChars (cs : List Char) : (utf8Text cs).length ≤ (escapeChars cs).length := by
  induction cs with
  | nil => simp [escapeChars, utf8Text]
  | cons c cs ih =>
    have := length_escapeBytes (utf8Bytes c)
    simp only [escapeChars, utf8Text, List.length_append]
    omega

/-- X7. Unescaping what `url.QueryEscape` writes for a text gives back the
UTF-8 bytes of the text: the percent-encoding of a key or value loses
nothing. -/
theorem queryUnescape_queryEscape (s : String) :
    QueryUnescape (QueryEscape s) = some (utf8Text s.data) := by
  unfold QueryUnescape
  have hl : (QueryEscape s).length = (escapeChars s.data).length := rfl
  have hle := length_escapeChars s.data
  rw [hl, show (escapeChars s.data).length =
    ((escapeChars s.data).length - (utf8Text s.data).length) + (utf8Text s.data).length by omega]
  exact unescapeBytes_escapeChars s.data _

/-- An instance of X7. -/
theorem queryUnescape_example :
    QueryUnescape "0x+a%26b" = some [48, 120, 32, 97, 38, 98] := by
  decide

/-- X8. For a body that is an object with the members `code`, `msg` and
`data` in this order, the envelope `json.Unmarshal` fills has that code and
message, and its data field is what `storePointer` gives for the member: nil
for `null`, otherwise the member decoded into a fresh value of the payload
type; when that decoding fails the whole decoding fails. -/
theorem unmarshalResp_envelope {T : Type} (dec : Decoder T) (body lit msg : String)
    (code : Int) (j : Json)
    (hparse : parseJson body =
      some (Json.obj [("code", Json.num lit), ("msg", Json.str msg), ("data", j)]))
    (hlit : parseInt64 lit = some code) :
    unmarshalResp dec body =
      (storePointer dec j none).map (fun d => { Msg := msg, Code := code, Data := d }) := by
  have h1 : foldName "code" = "CODE" := by decide
  have h2 : foldName "msg" = "MSG" := by decide
  have h3 : foldName "data" = "DATA" := by decide
  have n1 : ¬ ("CODE" : String) = "MSG" := by decide
  have n2 : ¬ ("DATA" : String) = "MSG" := by decide
  have n3 : ¬ ("DATA" : String) = "CODE" := by decide
  simp only [unmarshalResp, hparse, storeFields, storeField, h1, h2, h3, n1, n2, n3, if_true,
    if_false, storeInt64, storeString, hlit, Except.map]
  cases storePointer dec j none <;> rfl

/-- An instance of X8: a gas-price envelope. -/
theorem unmarshalResp_envelope_witness :
    (match
        unmarshalResp GasPriceData.decoder
          "\x7b\"code\":0,\"msg\":\"success\",\"data\":\x7b\"last_block\":7,\"high\":\"5\"\x7d\x7d" with
      | Except.ok r => (r.Code, r.Msg, r.Data)
      | Except.error _ => (1, "", none)) =
      (0, "success",
        some
          { LastBlock := 7, Average := "", High := "5", Low := "", SuggestBaseFee := ""
            EthUsdPrice := "", HighPrioFee := "", AveragePrioFee := "", LowPrioFee := "" }) := by
  rw [unmarshalResp_envelope GasPriceData.decoder
    "\x7b\"code\":0,\"msg\":\"success\",\"data\":\x7b\"last_block\":7,\"high\":\"5\"\x7d\x7d"
    "0" "success" 0
    (Json.obj [("last_block", Json.num "7"), ("high", Json.str "5")]) rfl rfl]
  rfl


end Gmgn
